import Mathlib

/-!
# Branch-aware CI: branch classification and policy resolution

A shallow embedding of the Go sources

* `pkg/policy/engine.go` (namespace `Policy`),
* `services/policy-engine/engine/engine.go` (namespace `Service`),
* `pkg/config/config.go` (the configuration structures and `Config.DefaultConfig`),
* `pkg/git/detector.go` (namespace `Git`),
* `services/branch-detector/detector/detector.go` (namespace `Detector`),
* `getDefaultConfig` of `services/gateway/main.go` (namespace `Gateway`),

together with the parts of the Go standard library they call
(`strings`, `unicode/utf8`, `path/filepath.Match` for Unix targets).

Go strings are byte sequences, so a string is modelled as a list of bytes;
`str` turns a Lean string literal into its UTF-8 bytes.  Go maps are modelled
as association lists with pairwise distinct keys.
-/

namespace BranchAwareCI

/-- A Go `string`: an immutable sequence of bytes. -/
abbrev GoString := List UInt8

/-- The UTF-8 bytes of a literal. -/
def str (s : String) : GoString := s.data.flatMap String.utf8EncodeChar

/-- A Go `rune` (a code point). -/
abbrev Rune := Nat

/-! ## Package `strings` -/

namespace Strings

/-- `strings.HasPrefix(s, p)`. -/
def HasPrefix (s p : GoString) : Bool := p.isPrefixOf s

/-- `strings.HasSuffix(s, suffix)`. -/
def HasSuffix (s suffix : GoString) : Bool := suffix.isSuffixOf s

/-- `strings.TrimSuffix(s, suffix)`: `s` without the trailing `suffix`, or `s` itself. -/
def TrimSuffix (s suffix : GoString) : GoString :=
  if HasSuffix s suffix then s.take (s.length - suffix.length) else s

/-- `strings.Contains(s, string(b))` for a one-byte substring. -/
def ContainsByte (s : GoString) (b : UInt8) : Bool := s.contains b

end Strings

/-! ## Package `unicode/utf8` -/

namespace Utf8

/-- `utf8.RuneError`, U+FFFD. -/
def RuneError : Rune := 0xFFFD

/-- The table `first`: information about the first byte of an encoding.
`0xF0` is ASCII, `0xF1` is invalid, otherwise the low three bits are the size
and the high four bits index `acceptRanges`. -/
def first (b : UInt8) : Nat :=
  let n := b.toNat
  if n < 0x80 then 0xF0
  else if n < 0xC2 then 0xF1
  else if n < 0xE0 then 0x02
  else if n = 0xE0 then 0x13
  else if n < 0xED then 0x03
  else if n = 0xED then 0x23
  else if n < 0xF0 then 0x03
  else if n = 0xF0 then 0x34
  else if n < 0xF4 then 0x04
  else if n = 0xF4 then 0x44
  else 0xF1

/-- The table `acceptRanges`: the permitted range of the second byte. -/
def acceptRanges (i : Nat) : Nat × Nat :=
  match i with
  | 0 => (0x80, 0xBF)
  | 1 => (0xA0, 0xBF)
  | 2 => (0x80, 0x9F)
  | 3 => (0x90, 0xBF)
  | 4 => (0x80, 0x8F)
  | _ => (0, 0)

/-- `utf8.DecodeRuneInString(s)`: the first rune of `s` and its width in bytes.
An empty string gives `(RuneError, 0)`, an invalid encoding `(RuneError, 1)`. -/
def DecodeRuneInString (s : GoString) : Rune × Nat :=
  match s with
  | [] => (RuneError, 0)
  | s0 :: t =>
    let x := first s0
    if x ≥ 0xF0 then
      (if x = 0xF0 then s0.toNat else RuneError, 1)
    else
      let sz := x % 8
      let accept := acceptRanges (x / 16)
      if s.length < sz then (RuneError, 1)
      else
        match t with
        | [] => (RuneError, 1)
        | s1 :: t1 =>
          if s1.toNat < accept.1 ∨ accept.2 < s1.toNat then (RuneError, 1)
          else if sz ≤ 2 then ((s0.toNat % 32) * 64 + s1.toNat % 64, 2)
          else
            match t1 with
            | [] => (RuneError, 1)
            | s2 :: t2 =>
              if s2.toNat < 0x80 ∨ 0xBF < s2.toNat then (RuneError, 1)
              else if sz ≤ 3 then
                ((s0.toNat % 16) * 4096 + (s1.toNat % 64) * 64 + s2.toNat % 64, 3)
              else
                match t2 with
                | [] => (RuneError, 1)
                | s3 :: _ =>
                  if s3.toNat < 0x80 ∨ 0xBF < s3.toNat then (RuneError, 1)
                  else
                    ((s0.toNat % 8) * 262144 + (s1.toNat % 64) * 4096
                      + (s2.toNat % 64) * 64 + s3.toNat % 64, 4)

end Utf8

/-! ## Package `path/filepath`: `Match` (Unix: separator `/`, backslash escapes) -/

namespace Filepath

/-- The only error `Match` can report. -/
inductive Error where
  | ErrBadPattern
  deriving DecidableEq, Repr

/-- `filepath.Separator` on Unix, the byte `/`. -/
def Separator : UInt8 := 47

/-- The byte `*`. -/
def bStar : UInt8 := 42
/-- The byte `?`. -/
def bQuery : UInt8 := 63
/-- The byte `[`. -/
def bOpen : UInt8 := 91
/-- The byte `]`. -/
def bClose : UInt8 := 93
/-- The byte `\`. -/
def bBackslash : UInt8 := 92
/-- The byte `^`. -/
def bCaret : UInt8 := 94
/-- The byte `-`. -/
def bDash : UInt8 := 45

/-- The first loop of `scanChunk`: drop leading stars, remembering whether
there was one. -/
def skipStars : GoString → Bool → Bool × GoString
  | [], star => (star, [])
  | c :: rest, star => if c = bStar then skipStars rest true else (star, c :: rest)

/-- The `Scan` loop of `scanChunk`: the index at which the loop stops, that is
the first star outside a bracket expression (an escaped byte is skipped), or
the length of the pattern. -/
def scanIndex : GoString → Bool → Nat
  | [], _ => 0
  | c :: rest, inrange =>
    if c = bBackslash then
      match rest with
      | [] => 1
      | _ :: rest2 => 2 + scanIndex rest2 inrange
    else if c = bOpen then 1 + scanIndex rest true
    else if c = bClose then 1 + scanIndex rest false
    else if c = bStar then (if inrange then 1 + scanIndex rest inrange else 0)
    else 1 + scanIndex rest inrange

/-- `scanChunk(pattern)`: the next segment of the pattern, a star-free string
possibly preceded by stars, as `(star, chunk, rest)`. -/
def scanChunk (pattern : GoString) : Bool × GoString × GoString :=
  let (star, p) := skipStars pattern false
  let i := scanIndex p false
  (star, p.take i, p.drop i)

/-- `getEsc(chunk)`: a possibly escaped character of a character class, as
`(r, nchunk, err)`. -/
def getEsc (chunk : GoString) : Rune × GoString × Option Error :=
  match chunk with
  | [] => (0, [], some Error.ErrBadPattern)
  | c :: rest =>
    if c = bDash ∨ c = bClose then (0, [], some Error.ErrBadPattern)
    else if c = bBackslash ∧ rest = [] then (0, [], some Error.ErrBadPattern)
    else
      let body : GoString := if c = bBackslash then rest else chunk
      let r := (Utf8.DecodeRuneInString body).1
      let n := (Utf8.DecodeRuneInString body).2
      let nchunk := body.drop n
      if nchunk = [] then (r, nchunk, some Error.ErrBadPattern)
      else if r = Utf8.RuneError ∧ n = 1 then (r, nchunk, some Error.ErrBadPattern)
      else (r, nchunk, none)

/-- The range-parsing loop of a character class in `matchChunk`.  `r` is the
rune of the name under test, `matched` and `nrange` the loop variables.  The
result is `(chunk after the class, matched, err)`; `none` only when the fuel
runs out. -/
def classLoop : Nat → GoString → Rune → Bool → Nat → Option (GoString × Bool × Option Error)
  | 0, _, _, _, _ => none
  | fuel + 1, chunk, r, matched, nrange =>
    if chunk.head? = some bClose ∧ nrange > 0 then some (chunk.tail, matched, none)
    else
      match getEsc chunk with
      | (_, _, some e) => some ([], false, some e)
      | (lo, chunk1, none) =>
        if chunk1.head? = some bDash then
          match getEsc chunk1.tail with
          | (_, _, some e) => some ([], false, some e)
          | (hi, chunk2, none) =>
            classLoop fuel chunk2 r (matched || (decide (lo ≤ r) && decide (r ≤ hi))) (nrange + 1)
        else
          classLoop fuel chunk1 r (matched || (decide (lo ≤ r) && decide (r ≤ lo))) (nrange + 1)

/-- The loop of `matchChunk(chunk, s)` with its variable `failed`: after the
match has failed the chunk is still scanned for well-formedness.  The case of
a backslash drops it and falls through to the literal case.  The result is
`(rest, ok, err)`; `none` only when the fuel runs out. -/
def matchChunkLoop : Nat → GoString → GoString → Bool → Option (GoString × Bool × Option Error)
  | 0, _, _, _ => none
  | fuel + 1, chunk, s, failed0 =>
    match chunk with
    | [] => if failed0 then some ([], false, none) else some (s, true, none)
    | c :: chunk1 =>
      let failed := failed0 || s.isEmpty
      if c = bOpen then
        let r : Rune := if failed then 0 else (Utf8.DecodeRuneInString s).1
        let s1 : GoString := if failed then s else s.drop (Utf8.DecodeRuneInString s).2
        let negated : Bool := decide (chunk1.head? = some bCaret)
        let chunk2 : GoString := if negated then chunk1.tail else chunk1
        match classLoop fuel chunk2 r false 0 with
        | none => none
        | some (_, _, some e) => some ([], false, some e)
        | some (chunk3, m, none) =>
          matchChunkLoop fuel chunk3 s1 (failed || (m == negated))
      else if c = bQuery then
        if failed then matchChunkLoop fuel chunk1 s failed
        else
          matchChunkLoop fuel chunk1 (s.drop (Utf8.DecodeRuneInString s).2)
            (s.head? == some Separator)
      else if c = bBackslash then
        match chunk1 with
        | [] => some ([], false, some Error.ErrBadPattern)
        | d :: chunk2 =>
          if failed then matchChunkLoop fuel chunk2 s failed
          else matchChunkLoop fuel chunk2 s.tail (s.head? != some d)
      else
        if failed then matchChunkLoop fuel chunk1 s failed
        else matchChunkLoop fuel chunk1 s.tail (s.head? != some c)

/-- `matchChunk(chunk, s)`: does `chunk` match a beginning of `s`, and if so
what remains of `s`. -/
def matchChunk (chunk s : GoString) : Option (GoString × Bool × Option Error) :=
  matchChunkLoop (chunk.length + 1) chunk s false

/-- Outcome of the loop that retries a chunk after a star. -/
inductive StarResult where
  | found (t : GoString)
  | bad (e : Error)
  | notFound
  | outOfFuel
  deriving DecidableEq, Repr

/-- The loop `for i := 0; i < len(name) && name[i] != Separator; i++` of
`Match`: try the chunk after skipping `i+1` bytes, never skipping a separator.
`lastChunk` says that the rest of the pattern is empty. -/
def starLoop (chunk : GoString) (lastChunk : Bool) : GoString → StarResult
  | [] => StarResult.notFound
  | c :: rest =>
    if c = Separator then StarResult.notFound
    else
      match matchChunk chunk rest with
      | none => StarResult.outOfFuel
      | some (t, true, _) =>
        if lastChunk ∧ t.length > 0 then starLoop chunk lastChunk rest
        else StarResult.found t
      | some (_, false, some e) => StarResult.bad e
      | some (_, false, none) => starLoop chunk lastChunk rest

/-- The `Pattern` loop of `Match`; `none` only when the fuel runs out.  When
the chunk matches nowhere the loop ends with `return false, nil`, without
looking at the rest of the pattern. -/
def matchLoop : Nat → GoString → GoString → Option (Bool × Option Error)
  | 0, _, _ => none
  | fuel + 1, pattern, name =>
    if pattern = [] then some (decide (name.length = 0), none)
    else
      match scanChunk pattern with
      | (star, chunk, rest) =>
        if star ∧ chunk = [] then some (!Strings.ContainsByte name Separator, none)
        else
          match matchChunk chunk name with
          | none => none
          | some (t, ok, err) =>
            if ok ∧ (t.length = 0 ∨ rest.length > 0) then matchLoop fuel rest t
            else
              match err with
              | some e => some (false, some e)
              | none =>
                match (if star then starLoop chunk (decide (rest.length = 0)) name
                       else StarResult.notFound) with
                | StarResult.found t2 => matchLoop fuel rest t2
                | StarResult.bad e => some (false, some e)
                | StarResult.outOfFuel => none
                | StarResult.notFound => some (false, none)

/-- `filepath.Match(pattern, name)` as `(matched, err)`; every pattern byte is
consumed at most once, so `len(pattern) + 1` rounds suffice (`Match_isSome`). -/
def Match (pattern name : GoString) : Option (Bool × Option Error) :=
  matchLoop (pattern.length + 1) pattern name

end Filepath

/-! ## Go maps -/

/-- A Go `map[string]V`: an association list whose keys are pairwise distinct.
The list order stands for the (unspecified) iteration order of `range`. -/
abbrev GoMap (V : Type) := List (GoString × V)

namespace GoMap

/-- The "comma ok" lookup `v, ok := m[k]`. -/
def get? {V : Type} : GoMap V → GoString → Option V
  | [], _ => none
  | (k1, v) :: rest, k => if k1 = k then some v else get? rest k

/-- The assignment `m[k] = v`: overwrite the entry of `k`, or add one. -/
def set {V : Type} : GoMap V → GoString → V → GoMap V
  | [], k, v => [(k, v)]
  | (k1, v1) :: rest, k, v => if k1 = k then (k1, v) :: rest else (k1, v1) :: set rest k v

/-- The keys of a map are pairwise distinct. -/
def WellFormed {V : Type} (m : GoMap V) : Prop := (m.map Prod.fst).Nodup

end GoMap

/-! ## `pkg/config/config.go` -/

/-- `EnvironmentConfig`: settings of one environment. -/
structure EnvironmentConfig where
  Name : GoString
  RequiresApproval : Bool
  AllowedBranches : List GoString
  Variables : GoMap GoString
  NotifyOnDeploy : Bool
  deriving DecidableEq, Repr

/-- `BranchMapping`: maps a branch pattern to an environment. -/
structure BranchMapping where
  Pattern : GoString
  Environment : GoString
  Actions : List GoString
  Priority : Int
  deriving DecidableEq, Repr

/-- `PolicyConfig`: the global policies. -/
structure PolicyConfig where
  RequireTests : Bool
  RequireCodeReview : Bool
  BlockedBranchPatterns : List GoString
  AutoDeployBranches : List GoString
  deriving DecidableEq, Repr

/-- `Config`: the branch-aware CI configuration. -/
structure Config where
  Environments : GoMap EnvironmentConfig
  BranchMappings : List BranchMapping
  Policies : PolicyConfig
  deriving DecidableEq, Repr

/-- `config.DefaultConfig()`. -/
def Config.DefaultConfig : Config :=
  { Environments := [
      (str "production",
        { Name := str "production", RequiresApproval := true,
          AllowedBranches := [str "main", str "master"],
          Variables := [(str "ENV", str "production")], NotifyOnDeploy := true }),
      (str "staging",
        { Name := str "staging", RequiresApproval := false,
          AllowedBranches := [str "staging", str "develop"],
          Variables := [(str "ENV", str "staging")], NotifyOnDeploy := true }),
      (str "development",
        { Name := str "development", RequiresApproval := false,
          AllowedBranches := [str "feature/*", str "bugfix/*", str "hotfix/*"],
          Variables := [(str "ENV", str "development")], NotifyOnDeploy := false })],
    BranchMappings := [
      { Pattern := str "main", Environment := str "production",
        Actions := [str "deploy", str "notify"], Priority := 100 },
      { Pattern := str "master", Environment := str "production",
        Actions := [str "deploy", str "notify"], Priority := 100 },
      { Pattern := str "staging", Environment := str "staging",
        Actions := [str "deploy", str "notify"], Priority := 90 },
      { Pattern := str "develop", Environment := str "staging",
        Actions := [str "deploy"], Priority := 80 },
      { Pattern := str "release/*", Environment := str "staging",
        Actions := [str "deploy", str "test"], Priority := 85 },
      { Pattern := str "feature/*", Environment := str "development",
        Actions := [str "test"], Priority := 50 },
      { Pattern := str "bugfix/*", Environment := str "development",
        Actions := [str "test"], Priority := 50 },
      { Pattern := str "hotfix/*", Environment := str "staging",
        Actions := [str "test", str "deploy"], Priority := 70 }],
    Policies :=
      { RequireTests := true, RequireCodeReview := true,
        BlockedBranchPatterns := [],
        AutoDeployBranches := [str "main", str "master", str "staging"] } }

/-! ## Package `unicode` and `strings.EqualFold` -/

namespace Unicode

/-- `unicode.SimpleFold` on the orbits that contain an ASCII rune: a letter
and its other case, with U+212A (Kelvin sign) in the orbit of `k` and U+017F
(long s) in the orbit of `s`.  Other runes are left alone; `EqualFold` with an
ASCII argument never consults them. -/
def SimpleFold (r : Rune) : Rune :=
  if r = 0x4B then 0x6B
  else if r = 0x6B then 0x212A
  else if r = 0x212A then 0x4B
  else if r = 0x53 then 0x73
  else if r = 0x73 then 0x17F
  else if r = 0x17F then 0x53
  else if 0x41 ≤ r ∧ r ≤ 0x5A then r + 32
  else if 0x61 ≤ r ∧ r ≤ 0x7A then r - 32
  else r

end Unicode

namespace Strings

/-- The runes that `for _, r := range s` yields: `skip` bytes of an already
decoded rune are passed over, an invalid byte yields `RuneError`. -/
def runesFrom : GoString → Nat → List Rune
  | [], _ => []
  | _ :: rest, skip + 1 => runesFrom rest skip
  | c :: rest, 0 =>
    (Utf8.DecodeRuneInString (c :: rest)).1 ::
      runesFrom rest ((Utf8.DecodeRuneInString (c :: rest)).2 - 1)

/-- The loop `for r != sr && r < tr { r = unicode.SimpleFold(r) }`; an orbit
has at most three members here, so the bound is never reached. -/
def foldWalk : Nat → Rune → Rune → Rune → Rune
  | 0, _, _, r => r
  | fuel + 1, sr, tr, r =>
    if r ≠ sr ∧ r < tr then foldWalk fuel sr tr (Unicode.SimpleFold r) else r

/-- One round of `EqualFold`: are the runes `sr` and `tr` equal under simple
case folding. -/
def foldEq (sr tr : Rune) : Bool :=
  if tr = sr then true
  else
    let lo := min sr tr
    let hi := max sr tr
    if hi < 0x80 then decide (0x41 ≤ lo ∧ lo ≤ 0x5A ∧ hi = lo + 32)
    else decide (foldWalk 4 lo hi (Unicode.SimpleFold lo) = hi)

/-- The rune loop of `EqualFold`. -/
def equalFoldRunes : List Rune → List Rune → Bool
  | [], t => t.isEmpty
  | _ :: _, [] => false
  | sr :: s, tr :: t => if foldEq sr tr then equalFoldRunes s t else false

/-- `strings.EqualFold(s, t)`: equality under simple Unicode case folding. -/
def EqualFold (s t : GoString) : Bool :=
  equalFoldRunes (runesFrom s 0) (runesFrom t 0)

end Strings

/-! ## `pkg/git/detector.go` -/

namespace Git

/-- `BranchInfo`: information about the current Git branch (`Typ` is the field
`Type`). -/
structure BranchInfo where
  Name : GoString
  ShortName : GoString
  Typ : GoString
  Metadata : GoMap GoString
  IsProtected : Bool
  deriving DecidableEq, Repr

/-- The regular expressions of `parseBranchType`, by shape. -/
inductive BranchPattern where
  /-- `^p/(.+)$` -/
  | family (p : GoString)
  /-- `^(a|b)$` -/
  | either (a b : GoString)
  /-- `^a$` -/
  | exact (a : GoString)
  deriving DecidableEq, Repr

/-- `pattern.FindStringSubmatch(name)`: `none` for Go's `nil`, otherwise the
whole match followed by the text of each capture group.  `.` matches any
character but a newline, and `$` matches at the end of the text only. -/
def FindStringSubmatch (pattern : BranchPattern) (name : GoString) : Option (List GoString) :=
  match pattern with
  | BranchPattern.family p =>
    let pfx := p ++ [Filepath.Separator]
    let rest := name.drop pfx.length
    if pfx.isPrefixOf name ∧ rest ≠ [] ∧ ¬ rest.contains 10 then some [name, rest] else none
  | BranchPattern.either a b =>
    if name = a ∨ name = b then some [name, name] else none
  | BranchPattern.exact a =>
    if name = a then some [name] else none

/-- The map literal `patterns` of `parseBranchType`, in the order written. -/
def patterns : List (GoString × BranchPattern) :=
  [ (str "feature", BranchPattern.family (str "feature")),
    (str "hotfix", BranchPattern.family (str "hotfix")),
    (str "bugfix", BranchPattern.family (str "bugfix")),
    (str "release", BranchPattern.family (str "release")),
    (str "develop", BranchPattern.either (str "develop") (str "development")),
    (str "staging", BranchPattern.exact (str "staging")),
    (str "main", BranchPattern.either (str "main") (str "master")) ]

/-- The byte is an upper-case ASCII letter, `[A-Z]`. -/
def isUpper (c : UInt8) : Bool := decide (65 ≤ c.toNat ∧ c.toNat ≤ 90)

/-- The byte is an ASCII digit, `\d`. -/
def isDigit (c : UInt8) : Bool := decide (48 ≤ c.toNat ∧ c.toNat ≤ 57)

/-- A match of `[A-Z]+-\d+` that starts at the beginning of `s`: both
repetitions are greedy. -/
def ticketAt (s : GoString) : Option GoString :=
  let letters := s.takeWhile isUpper
  match s.dropWhile isUpper with
  | [] => none
  | c :: rest =>
    let digits := rest.takeWhile isDigit
    if letters ≠ [] ∧ c = Filepath.bDash ∧ digits ≠ [] then some (letters ++ c :: digits)
    else none

/-- `ticketPattern.FindStringSubmatch(s)` for `([A-Z]+-\d+)`, reduced to the
text of the group: the leftmost match. -/
def findTicket : GoString → Option GoString
  | [] => none
  | c :: rest =>
    match ticketAt (c :: rest) with
    | some t => some t
    | none => findTicket rest

/-- The loop `for branchType, pattern := range patterns` of `parseBranchType`,
over the entries in the order `range` yields them. -/
def parseLoop : List (GoString × BranchPattern) → BranchInfo → BranchInfo
  | [], info => { info with Typ := str "unknown" }
  | (branchType, pattern) :: rest, info =>
    match FindStringSubmatch pattern info.ShortName with
    | none => parseLoop rest info
    | some submatches =>
      let info1 := { info with Typ := branchType }
      match submatches with
      | _ :: m1 :: _ =>
        let info2 := { info1 with Metadata := info1.Metadata.set (str "suffix") m1 }
        match findTicket m1 with
        | some ticket => { info2 with Metadata := info2.Metadata.set (str "ticket") ticket }
        | none => info2
      | _ => info1

/-- `parseBranchType(info)`; `order` is the order in which the runtime iterates
the map `patterns` (any arrangement of its entries). -/
def parseBranchType (order : List (GoString × BranchPattern)) (info : BranchInfo) : BranchInfo :=
  parseLoop order info

/-- The slice `protectedBranches` of `checkProtected`. -/
def protectedBranches : List GoString :=
  [str "main", str "master", str "develop", str "staging", str "production"]

/-- `checkProtected(info)`. -/
def checkProtected (info : BranchInfo) : BranchInfo :=
  { info with
    IsProtected := protectedBranches.any (fun p => Strings.EqualFold info.ShortName p) }

/-- The classification part of `DetectBranch`, after the branch name has been
read from HEAD: a fresh `BranchInfo`, then `parseBranchType` and
`checkProtected`. -/
def classify (order : List (GoString × BranchPattern)) (branchName : GoString) : BranchInfo :=
  checkProtected (parseBranchType order
    { Name := branchName, ShortName := branchName, Typ := [], Metadata := [],
      IsProtected := false })

end Git

/-! ## `pkg/policy/engine.go` -/

namespace Policy

/-- `Decision`: a CI/CD decision based on branch analysis. -/
structure Decision where
  BranchName : GoString
  BranchType : GoString
  Environment : GoString
  ShouldDeploy : Bool
  RequiresApproval : Bool
  Actions : List GoString
  Variables : GoMap GoString
  Warnings : List GoString
  Metadata : GoMap GoString
  deriving DecidableEq, Repr

/-- `matchesPattern(branchName, pattern)`: exact match, then the `/*` rule,
then `filepath.Match` with its error dropped (`matched, _ := ...`). -/
def matchesPattern (branchName pattern : GoString) : Bool :=
  if branchName = pattern then true
  else if Strings.HasSuffix pattern (str "/*") then
    let pfx := Strings.TrimSuffix pattern (str "/*")
    Strings.HasPrefix branchName (pfx ++ str "/")
  else
    match Filepath.Match pattern branchName with
    | some (matched, _) => matched
    | none => false

/-- The loop of `findBestMapping` from index `i` on; `bestMatch` is the
element pointed to (with its index) and `highestPriority` its priority. -/
def findBestLoop (branchName : GoString) :
    List BranchMapping → Nat → Option (Nat × BranchMapping) → Int → Option (Nat × BranchMapping)
  | [], _, bestMatch, _ => bestMatch
  | mapping :: rest, i, bestMatch, highestPriority =>
    if matchesPattern branchName mapping.Pattern then
      if mapping.Priority > highestPriority then
        findBestLoop branchName rest (i + 1) (some (i, mapping)) mapping.Priority
      else findBestLoop branchName rest (i + 1) bestMatch highestPriority
    else findBestLoop branchName rest (i + 1) bestMatch highestPriority

/-- `findBestMapping(branchName)`: the pointer `&e.config.BranchMappings[i]` is
given as the index `i` with the element; `none` is `nil`. -/
def findBestMapping (cfg : Config) (branchName : GoString) : Option (Nat × BranchMapping) :=
  findBestLoop branchName cfg.BranchMappings 0 none (-1)

/-- `contains(slice, item)`. -/
def contains (slice : List GoString) (item : GoString) : Bool :=
  match slice with
  | [] => false
  | s :: rest => if s = item then true else contains rest item

/-- `shouldDeploy(actions, branchName)`. -/
def shouldDeploy (cfg : Config) (actions : List GoString) (branchName : GoString) : Bool :=
  if actions.any (fun action => action = str "deploy") then true
  else if cfg.Policies.AutoDeployBranches.any (fun autoBranch => branchName = autoBranch) then true
  else false

/-- `isBranchAllowed(branchName, allowedPatterns)`. -/
def isBranchAllowed (branchName : GoString) (allowedPatterns : List GoString) : Bool :=
  if allowedPatterns.length = 0 then true
  else allowedPatterns.any (fun pattern => matchesPattern branchName pattern)

/-- The text `"Branch matches blocked pattern: %s"`. -/
def blockedWarning (blockedPattern : GoString) : GoString :=
  str "Branch matches blocked pattern: " ++ blockedPattern

/-- The text `"Branch %s may not be allowed to deploy to %s"`. -/
def notAllowedWarning (shortName environment : GoString) : GoString :=
  str "Branch " ++ shortName ++ str " may not be allowed to deploy to " ++ environment

/-- The warning of the fallback path. -/
def fallbackWarning : GoString :=
  str "No matching branch mapping found, using development environment"

/-- The loop over `BlockedBranchPatterns` in `applyPolicies`. -/
def applyBlocked (shortName : GoString) : List GoString → Decision → Decision
  | [], decision => decision
  | blockedPattern :: rest, decision =>
    if matchesPattern shortName blockedPattern then
      applyBlocked shortName rest
        { decision with
          ShouldDeploy := false
          Warnings := decision.Warnings ++ [blockedWarning blockedPattern] }
    else applyBlocked shortName rest decision

/-- `applyPolicies(decision, branchInfo)`. -/
def applyPolicies (cfg : Config) (decision : Decision) (branchInfo : Git.BranchInfo) : Decision :=
  let d1 := applyBlocked branchInfo.ShortName cfg.Policies.BlockedBranchPatterns decision
  let d2 :=
    if cfg.Policies.RequireTests ∧ ¬ contains d1.Actions (str "test") then
      { d1 with Actions := d1.Actions ++ [str "test"] }
    else d1
  if cfg.Policies.RequireCodeReview ∧ branchInfo.IsProtected then
    { d2 with RequiresApproval := true }
  else d2

/-- The loop `for k, v := range envConfig.Variables { decision.Variables[k] = v }`. -/
def copyVariables (src : GoMap GoString) (dst : GoMap GoString) : GoMap GoString :=
  src.foldl (fun m kv => m.set kv.1 kv.2) dst

/-- The environment name that `Evaluate` resolves: that of the selected
mapping, or `"development"` on the fallback path. -/
def resolvedEnvironment (cfg : Config) (info : Git.BranchInfo) : GoString :=
  match findBestMapping cfg info.ShortName with
  | none => str "development"
  | some (_, mapping) => mapping.Environment

/-- `Evaluate(branchInfo)`: the decision and the error, which is always `nil`
(`none`). -/
def Evaluate (cfg : Config) (branchInfo : Git.BranchInfo) : Decision × Option GoString :=
  let decision : Decision :=
    { BranchName := branchInfo.ShortName
      BranchType := branchInfo.Typ
      Environment := []
      ShouldDeploy := false
      RequiresApproval := false
      Actions := []
      Variables := []
      Warnings := []
      Metadata := branchInfo.Metadata }
  let d1 : Decision :=
    match findBestMapping cfg branchInfo.ShortName with
    | none =>
      { decision with
        Environment := str "development"
        ShouldDeploy := false
        Warnings := decision.Warnings ++ [fallbackWarning] }
    | some (_, mapping) =>
      { decision with
        Environment := mapping.Environment
        Actions := mapping.Actions
        ShouldDeploy := shouldDeploy cfg mapping.Actions branchInfo.ShortName }
  let d2 : Decision :=
    match cfg.Environments.get? d1.Environment with
    | some envConfig =>
      let d := { d1 with
        RequiresApproval := envConfig.RequiresApproval
        Variables := copyVariables envConfig.Variables d1.Variables }
      if ¬ isBranchAllowed branchInfo.ShortName envConfig.AllowedBranches then
        { d with Warnings := d.Warnings ++ [notAllowedWarning branchInfo.ShortName d.Environment] }
      else d
    | none => d1
  (applyPolicies cfg d2 branchInfo, none)

end Policy

/-! ## `services/policy-engine/engine/engine.go` -/

namespace Service

/-- `PolicyEngine.matchesPattern(branchName, pattern)`. -/
def matchesPattern (branchName pattern : GoString) : Bool :=
  if branchName = pattern then true
  else if Strings.HasSuffix pattern (str "/*") then
    let pfx := Strings.TrimSuffix pattern (str "/*")
    Strings.HasPrefix branchName (pfx ++ str "/")
  else
    match Filepath.Match pattern branchName with
    | some (matched, _) => matched
    | none => false

/-- The loop of `PolicyEngine.findBestMapping` from index `i` on. -/
def findBestLoop (branchName : GoString) :
    List BranchMapping → Nat → Option (Nat × BranchMapping) → Int → Option (Nat × BranchMapping)
  | [], _, bestMatch, _ => bestMatch
  | mapping :: rest, i, bestMatch, highestPriority =>
    if matchesPattern branchName mapping.Pattern then
      if mapping.Priority > highestPriority then
        findBestLoop branchName rest (i + 1) (some (i, mapping)) mapping.Priority
      else findBestLoop branchName rest (i + 1) bestMatch highestPriority
    else findBestLoop branchName rest (i + 1) bestMatch highestPriority

/-- `PolicyEngine.findBestMapping(branchName, config)`. -/
def findBestMapping (branchName : GoString) (config : Config) : Option (Nat × BranchMapping) :=
  findBestLoop branchName config.BranchMappings 0 none (-1)

/-- `contains(slice, item)` of the service engine. -/
def contains (slice : List GoString) (item : GoString) : Bool :=
  match slice with
  | [] => false
  | s :: rest => if s = item then true else contains rest item

/-- `PolicyEngine.shouldDeploy(actions, branchName, config)`. -/
def shouldDeploy (actions : List GoString) (branchName : GoString) (config : Config) : Bool :=
  if actions.any (fun action => action = str "deploy") then true
  else if config.Policies.AutoDeployBranches.any (fun autoBranch => branchName = autoBranch) then
    true
  else false

/-- `PolicyEngine.isBranchAllowed(branchName, allowedPatterns)`. -/
def isBranchAllowed (branchName : GoString) (allowedPatterns : List GoString) : Bool :=
  if allowedPatterns.length = 0 then true
  else allowedPatterns.any (fun pattern => matchesPattern branchName pattern)

/-- The loop over `BlockedBranchPatterns` in `PolicyEngine.applyPolicies`. -/
def applyBlocked (shortName : GoString) : List GoString → Policy.Decision → Policy.Decision
  | [], decision => decision
  | blockedPattern :: rest, decision =>
    if matchesPattern shortName blockedPattern then
      applyBlocked shortName rest
        { decision with
          ShouldDeploy := false
          Warnings := decision.Warnings ++
            [str "Branch matches blocked pattern: " ++ blockedPattern] }
    else applyBlocked shortName rest decision

/-- `PolicyEngine.applyPolicies(decision, branchInfo, config)`. -/
def applyPolicies (decision : Policy.Decision) (branchInfo : Git.BranchInfo) (config : Config) :
    Policy.Decision :=
  let d1 := applyBlocked branchInfo.ShortName config.Policies.BlockedBranchPatterns decision
  let d2 :=
    if config.Policies.RequireTests ∧ ¬ contains d1.Actions (str "test") then
      { d1 with Actions := d1.Actions ++ [str "test"] }
    else d1
  if config.Policies.RequireCodeReview ∧ branchInfo.IsProtected then
    { d2 with RequiresApproval := true }
  else d2

/-- `PolicyEngine.Evaluate(ctx, branchInfo, config)`: the decision and the
error, which is always `nil`.  `interfaces.BranchInfo`, `interfaces.Config` and
`interfaces.Decision` have the fields of their counterparts in `pkg`, so the
same structures stand for them. -/
def Evaluate (branchInfo : Git.BranchInfo) (config : Config) :
    Policy.Decision × Option GoString :=
  let decision : Policy.Decision :=
    { BranchName := branchInfo.ShortName
      BranchType := branchInfo.Typ
      Environment := []
      ShouldDeploy := false
      RequiresApproval := false
      Actions := []
      Variables := []
      Warnings := []
      Metadata := branchInfo.Metadata }
  let d1 : Policy.Decision :=
    match findBestMapping branchInfo.ShortName config with
    | none =>
      { decision with
        Environment := str "development"
        ShouldDeploy := false
        Warnings := decision.Warnings ++
          [str "No matching branch mapping found, using development environment"] }
    | some (_, mapping) =>
      { decision with
        Environment := mapping.Environment
        Actions := mapping.Actions
        ShouldDeploy := shouldDeploy mapping.Actions branchInfo.ShortName config }
  let d2 : Policy.Decision :=
    match config.Environments.get? d1.Environment with
    | some envConfig =>
      let d := { d1 with
        RequiresApproval := envConfig.RequiresApproval
        Variables := envConfig.Variables.foldl (fun m kv => m.set kv.1 kv.2) d1.Variables }
      if ¬ isBranchAllowed branchInfo.ShortName envConfig.AllowedBranches then
        { d with Warnings := d.Warnings ++
            [str "Branch " ++ branchInfo.ShortName ++ str " may not be allowed to deploy to "
              ++ d.Environment] }
      else d
    | none => d1
  (applyPolicies d2 branchInfo config, none)

/-- The text `"Duplicate priority found: %d"`. -/
def duplicateProblem (priority : Int) : GoString :=
  str "Duplicate priority found: " ++ str (toString priority)

/-- The loop of `ValidatePolicy` over the mappings.  The map `priorities` only
ever holds `true`, so it is given by the list of its keys; `errors` is the
slice of problems collected so far. -/
def duplicateLoop : List BranchMapping → List Int → List GoString → List GoString
  | [], _, errors => errors
  | mapping :: rest, priorities, errors =>
    let errors1 :=
      if mapping.Priority ∈ priorities then errors ++ [duplicateProblem mapping.Priority]
      else errors
    let priorities1 :=
      if mapping.Priority ∈ priorities then priorities else mapping.Priority :: priorities
    duplicateLoop rest priorities1 errors1

/-- `PolicyEngine.ValidatePolicy(ctx, config)` as `(valid, problems, err)`; the
error is always `nil`. -/
def ValidatePolicy (config : Config) : Bool × List GoString × Option GoString :=
  let errors0 : List GoString := []
  let errors1 :=
    if config.Environments.length = 0 then errors0 ++ [str "No environments defined"]
    else errors0
  let errors2 :=
    if config.BranchMappings.length = 0 then errors1 ++ [str "No branch mappings defined"]
    else errors1
  let errors3 := duplicateLoop config.BranchMappings [] errors2
  (decide (errors3.length = 0), errors3, none)

end Service

/-! ## `services/gateway/main.go` -/

namespace Gateway

/-- `getDefaultConfig()` of `services/gateway/main.go`. -/
def getDefaultConfig : Config :=
  { Environments := [
      (str "production",
        { Name := str "production", RequiresApproval := true,
          AllowedBranches := [str "main", str "master"],
          Variables := [(str "ENV", str "production")], NotifyOnDeploy := true }),
      (str "staging",
        { Name := str "staging", RequiresApproval := false,
          AllowedBranches := [str "staging", str "develop"],
          Variables := [(str "ENV", str "staging")], NotifyOnDeploy := true }),
      (str "development",
        { Name := str "development", RequiresApproval := false,
          AllowedBranches := [str "feature/*", str "bugfix/*"],
          Variables := [(str "ENV", str "development")], NotifyOnDeploy := false })],
    BranchMappings := [
      { Pattern := str "main", Environment := str "production",
        Actions := [str "test", str "deploy", str "notify"], Priority := 100 },
      { Pattern := str "master", Environment := str "production",
        Actions := [str "test", str "deploy", str "notify"], Priority := 100 },
      { Pattern := str "staging", Environment := str "staging",
        Actions := [str "test", str "deploy"], Priority := 90 },
      { Pattern := str "feature/*", Environment := str "development",
        Actions := [str "test"], Priority := 50 }],
    Policies :=
      { RequireTests := true, RequireCodeReview := true,
        BlockedBranchPatterns := [],
        AutoDeployBranches := [str "main", str "staging"] } }

end Gateway

/-! ## `services/branch-detector/detector/detector.go` -/

namespace Detector

/-- `compileBranchPatterns()`: the map literal, in the order written. -/
def compileBranchPatterns : List (GoString × Git.BranchPattern) :=
  [ (str "feature", Git.BranchPattern.family (str "feature")),
    (str "hotfix", Git.BranchPattern.family (str "hotfix")),
    (str "bugfix", Git.BranchPattern.family (str "bugfix")),
    (str "release", Git.BranchPattern.family (str "release")),
    (str "develop", Git.BranchPattern.either (str "develop") (str "development")),
    (str "staging", Git.BranchPattern.exact (str "staging")),
    (str "main", Git.BranchPattern.either (str "main") (str "master")) ]

/-- The loop `for branchType, pattern := range d.patterns` of
`BranchDetector.parseBranchType`. -/
def parseLoop : List (GoString × Git.BranchPattern) → Git.BranchInfo → Git.BranchInfo
  | [], info => { info with Typ := str "unknown" }
  | (branchType, pattern) :: rest, info =>
    match Git.FindStringSubmatch pattern info.ShortName with
    | none => parseLoop rest info
    | some submatches =>
      let info1 := { info with Typ := branchType }
      match submatches with
      | _ :: m1 :: _ =>
        let info2 := { info1 with Metadata := info1.Metadata.set (str "suffix") m1 }
        match Git.findTicket m1 with
        | some ticket => { info2 with Metadata := info2.Metadata.set (str "ticket") ticket }
        | none => info2
      | _ => info1

/-- `BranchDetector.parseBranchType(info)`; `order` is the order in which the
runtime iterates `d.patterns`. -/
def parseBranchType (order : List (GoString × Git.BranchPattern)) (info : Git.BranchInfo) :
    Git.BranchInfo :=
  parseLoop order info

/-- `BranchDetector.checkProtected(info)`. -/
def checkProtected (info : Git.BranchInfo) : Git.BranchInfo :=
  { info with
    IsProtected :=
      [str "main", str "master", str "develop", str "staging", str "production"].any
        (fun p => Strings.EqualFold info.ShortName p) }

/-- `BranchDetector.GetBranchInfo(ctx, repoPath, branchName)`: the info and the
error, which is always `nil`. -/
def GetBranchInfo (order : List (GoString × Git.BranchPattern)) (branchName : GoString) :
    Git.BranchInfo × Option GoString :=
  (checkProtected (parseBranchType order
    { Name := branchName, ShortName := branchName, Typ := [], Metadata := [],
      IsProtected := false }), none)

end Detector

/-! ## Example inputs -/

namespace Policy

/-- A configuration whose only mapping deploys `main` and is on the
auto-deploy list, with `main` blocked as well. -/
def blockedExample : Config :=
  { Environments := []
    BranchMappings :=
      [{ Pattern := str "main", Environment := str "production",
         Actions := [str "deploy"], Priority := 100 }]
    Policies :=
      { RequireTests := false, RequireCodeReview := false,
        BlockedBranchPatterns := [str "ma*"],
        AutoDeployBranches := [str "main"] } }

/-- The branch `main` as the test suite builds it. -/
def mainInfo : Git.BranchInfo :=
  { Name := str "main", ShortName := str "main", Typ := str "main", Metadata := [],
    IsProtected := true }

/-- A branch that no default mapping matches. -/
def randomInfo : Git.BranchInfo :=
  { Name := str "random-branch", ShortName := str "random-branch", Typ := str "unknown",
    Metadata := [], IsProtected := false }

/-- A configuration whose only mapping has a negative priority. -/
def negativePriorityExample : Config :=
  { Environments := []
    BranchMappings :=
      [{ Pattern := str "main", Environment := str "production",
         Actions := [str "deploy"], Priority := -5 }]
    Policies :=
      { RequireTests := false, RequireCodeReview := false,
        BlockedBranchPatterns := [], AutoDeployBranches := [] } }

/-- A configuration whose mapping names an environment that is not configured. -/
def missingEnvExample : Config :=
  { Environments := []
    BranchMappings :=
      [{ Pattern := str "main", Environment := str "nowhere",
         Actions := [str "deploy"], Priority := 1 }]
    Policies :=
      { RequireTests := false, RequireCodeReview := true,
        BlockedBranchPatterns := [str "m*"], AutoDeployBranches := [] } }

end Policy

/-! ## Literal patterns -/

namespace Filepath

/-- A chunk of literal bytes: no star, question mark, bracket or backslash. -/
def Literal (q : GoString) : Prop :=
  ∀ c ∈ q, c ≠ bStar ∧ c ≠ bQuery ∧ c ≠ bOpen ∧ c ≠ bBackslash

instance (q : GoString) : Decidable (Literal q) := by
  unfold Literal
  infer_instance

end Filepath

/-! ## Malformed patterns -/

namespace Filepath

/-- Spec side: the syntax check of a glob pattern.  The pattern is cut into
chunks the way `Match` cuts it (`scanChunk`), and each chunk is read by
`matchChunk` against the empty text, which reads the whole chunk and reports
`ErrBadPattern` when a character class or an escape in it is not closed.  The
result is the first error found; the outer `none` only when the fuel runs out.
This check is not part of `Match`, which stops at the first chunk that does
not match. -/
def syntaxScan : Nat → GoString → Option (Option Error)
  | 0, _ => none
  | fuel + 1, pattern =>
    if pattern = [] then some none
    else
      match scanChunk pattern with
      | (_, chunk, rest) =>
        match matchChunk chunk [] with
        | none => none
        | some (_, _, some e) => some (some e)
        | some (_, _, none) => syntaxScan fuel rest

/-- Spec side: a pattern is syntactically malformed as a glob when the syntax
check finds an error in one of its chunks.  Every pattern for which `Match`
reports an error on some name is malformed in this sense
(`Match_error_malformed`); a malformed pattern whose earlier chunks never match
gets no error from `Match`, only `false`. -/
def Malformed (p : GoString) : Bool :=
  decide (syntaxScan (p.length + 1) p = some (some Error.ErrBadPattern))

end Filepath

namespace Policy

/-- A configuration with malformed patterns in a mapping, in an allow-list and
in the blocked list. -/
def malformedExample : Config :=
  { Environments := [
      (str "production",
        { Name := str "production", RequiresApproval := true,
          AllowedBranches := [str "[abc", str "main"],
          Variables := [], NotifyOnDeploy := true })]
    BranchMappings :=
      [{ Pattern := str "[abc", Environment := str "staging",
         Actions := [str "deploy"], Priority := 200 },
       { Pattern := str "main", Environment := str "production",
         Actions := [str "deploy"], Priority := 100 }]
    Policies :=
      { RequireTests := false, RequireCodeReview := false,
        BlockedBranchPatterns := [str "[abc"], AutoDeployBranches := [] } }

end Policy

/-! ## The actions a decision starts from -/

namespace Policy

/-- The actions of the selected mapping, in their configured order; empty on
the fallback path. -/
def baseActions (cfg : Config) (info : Git.BranchInfo) : List GoString :=
  match findBestMapping cfg info.ShortName with
  | none => []
  | some (_, mapping) => mapping.Actions

end Policy

/-! ## A fresh branch info -/

namespace Git

/-- A `BranchInfo` with the given short name and an empty metadata map. -/
def freshInfo (branchName : GoString) : BranchInfo :=
  { Name := branchName, ShortName := branchName, Typ := [], Metadata := [],
    IsProtected := false }

end Git

/-! ## The shape of a ticket -/

namespace Git

/-- The text `t` has the shape of the ticket pattern `[A-Z]+-\d+`: upper-case
letters, a hyphen, digits. -/
def IsTicket (t : GoString) : Prop :=
  ∃ u d : GoString, t = u ++ Filepath.bDash :: d ∧ u ≠ [] ∧ d ≠ [] ∧
    (∀ c ∈ u, isUpper c = true) ∧ (∀ c ∈ d, isDigit c = true)

end Git

/-! ## Equality ignoring case -/

namespace Strings

/-- The lower-case form of an ASCII code: `A`..`Z` go to `a`..`z`. -/
def lowerCode (n : Nat) : Nat := if 65 ≤ n ∧ n ≤ 90 then n + 32 else n

/-- Equality of two strings ignoring the case of ASCII letters. -/
def EqualIgnoreCase (s t : GoString) : Prop :=
  s.map (fun c => lowerCode c.toNat) = t.map (fun c => lowerCode c.toNat)

instance (s t : GoString) : Decidable (EqualIgnoreCase s t) := by
  unfold EqualIgnoreCase
  infer_instance

/-- The string is ASCII: every byte is below `0x80`. -/
def IsASCII (s : GoString) : Prop := ∀ c ∈ s, c.toNat < 128

instance (s : GoString) : Decidable (IsASCII s) := by
  unfold IsASCII
  infer_instance

end Strings

/-! ## Priorities that occur more than once -/

namespace Service

/-- Spec side: the priorities that occur again, in list order: the entry at
each position whose value already occurs at an earlier position. -/
def repeatedPriorities (ps : List Int) : List Int :=
  ((List.range ps.length).filter (fun i => ps.getD i 0 ∈ ps.take i)).map (fun i => ps.getD i 0)

end Service

/-! ## A branch info that was filled in before -/

namespace Git

/-- A branch info for `main` that arrives with a type, metadata and a
protection flag already filled in. -/
def staleInfo : BranchInfo :=
  { Name := str "origin/main", ShortName := str "main", Typ := str "feature",
    Metadata := [(str "suffix", str "old"), (str "ticket", str "OLD-1")],
    IsProtected := false }

end Git

/-! ## Properties of the policy engine -/

namespace GoMap

theorem set_of_not_mem {V : Type} (m : GoMap V) (k : GoString) (v : V)
    (h : k ∉ m.map Prod.fst) : m.set k v = m ++ [(k, v)] := by
  induction m with
  | nil => rfl
  | cons e m ih =>
    obtain ⟨k1, v1⟩ := e
    simp only [List.map_cons, List.mem_cons, not_or] at h
    have hne : ¬ k1 = k := fun e => h.1 e.symm
    simp [set, hne, ih h.2]

end GoMap

namespace Policy

/-- Closed form of the blocked-pattern loop. -/
theorem applyBlocked_eq (n : GoString) (ps : List GoString) (d : Decision) :
    applyBlocked n ps d =
      { d with
        ShouldDeploy := d.ShouldDeploy && !(ps.any (fun p => matchesPattern n p))
        Warnings := d.Warnings ++ (ps.filter (fun p => matchesPattern n p)).map blockedWarning } := by
  induction ps generalizing d with
  | nil => simp [applyBlocked]
  | cons p ps ih =>
    by_cases h : matchesPattern n p = true
    · simp [applyBlocked, h, ih]
    · simp [applyBlocked, h, ih]

theorem contains_eq (l : List GoString) (x : GoString) : contains l x = decide (x ∈ l) := by
  induction l with
  | nil => simp [contains]
  | cons a l ih =>
    by_cases h : a = x
    · simp [contains, h]
    · have h2 : ¬ x = a := fun e => h e.symm
      simp [contains, h, h2, ih]


theorem shouldDeploy_eq (cfg : Config) (actions : List GoString) (n : GoString) :
    shouldDeploy cfg actions n = true ↔
      (str "deploy" ∈ actions ∨ n ∈ cfg.Policies.AutoDeployBranches) := by
  unfold shouldDeploy
  by_cases h1 : str "deploy" ∈ actions
  · simp [h1]
  · by_cases h2 : n ∈ cfg.Policies.AutoDeployBranches
    · simp [h2]
    · simp [h1, h2]

/-- The value of `ShouldDeploy` in the decision. -/
theorem Evaluate_ShouldDeploy (cfg : Config) (info : Git.BranchInfo) :
    (Evaluate cfg info).1.ShouldDeploy =
      ((match findBestMapping cfg info.ShortName with
        | none => false
        | some (_, mapping) => shouldDeploy cfg mapping.Actions info.ShortName)
       && !(cfg.Policies.BlockedBranchPatterns.any (fun p => matchesPattern info.ShortName p))) := by
  unfold Evaluate applyPolicies
  simp only [applyBlocked_eq]
  cases findBestMapping cfg info.ShortName with
  | none =>
    dsimp only
    cases cfg.Environments.get? (str "development") <;> (dsimp only; repeat' split) <;> simp
  | some im =>
    dsimp only
    cases cfg.Environments.get? im.2.Environment <;> (dsimp only; repeat' split) <;> simp

/-- Claim C3: the decision of `Evaluate` has `ShouldDeploy = true` exactly when
a mapping was selected, its actions contain `"deploy"` or the short name is an
element of `AutoDeployBranches`, and no blocked pattern matches the short
name; the configured environments play no part. -/
theorem C3_shouldDeploy_iff (cfg : Config) (info : Git.BranchInfo) :
    ((Evaluate cfg info).1.ShouldDeploy = true ↔
      (∃ i mapping, findBestMapping cfg info.ShortName = some (i, mapping) ∧
        (str "deploy" ∈ mapping.Actions ∨ info.ShortName ∈ cfg.Policies.AutoDeployBranches)) ∧
      (∀ p ∈ cfg.Policies.BlockedBranchPatterns, matchesPattern info.ShortName p = false)) ∧
    (∀ envs : GoMap EnvironmentConfig,
      (Evaluate { cfg with Environments := envs } info).1.ShouldDeploy =
        (Evaluate cfg info).1.ShouldDeploy) := by
  refine ⟨?_, ?_⟩
  · rw [Evaluate_ShouldDeploy]
    cases h : findBestMapping cfg info.ShortName with
    | none => simp
    | some im =>
      obtain ⟨i, m⟩ := im
      simp only [Bool.and_eq_true, shouldDeploy_eq, Bool.not_eq_true', List.any_eq_false]
      constructor
      · rintro ⟨h1, h2⟩
        exact ⟨⟨i, m, rfl, h1⟩, fun p hp => by simpa using h2 p hp⟩
      · rintro ⟨⟨i2, m2, he, h1⟩, h2⟩
        cases he
        exact ⟨h1, fun p hp => by simpa using h2 p hp⟩
  · intro envs
    rw [Evaluate_ShouldDeploy, Evaluate_ShouldDeploy]
    rfl


theorem Evaluate_Environment (cfg : Config) (info : Git.BranchInfo) :
    (Evaluate cfg info).1.Environment = resolvedEnvironment cfg info := by
  unfold Evaluate applyPolicies resolvedEnvironment
  simp only [applyBlocked_eq]
  cases findBestMapping cfg info.ShortName with
  | none =>
    dsimp only
    cases cfg.Environments.get? (str "development") <;> (dsimp only; repeat' split) <;> simp
  | some im =>
    dsimp only
    cases cfg.Environments.get? im.2.Environment <;> (dsimp only; repeat' split) <;> simp

theorem Evaluate_RequiresApproval (cfg : Config) (info : Git.BranchInfo) :
    (Evaluate cfg info).1.RequiresApproval =
      ((match cfg.Environments.get? (resolvedEnvironment cfg info) with
        | some envConfig => envConfig.RequiresApproval
        | none => false)
       || (cfg.Policies.RequireCodeReview && info.IsProtected)) := by
  unfold Evaluate applyPolicies resolvedEnvironment
  simp only [applyBlocked_eq]
  cases findBestMapping cfg info.ShortName with
  | none =>
    dsimp only
    cases cfg.Environments.get? (str "development") <;> (dsimp only; repeat' split) <;> simp_all
  | some im =>
    dsimp only
    cases cfg.Environments.get? im.2.Environment <;> (dsimp only; repeat' split) <;> simp_all

theorem Evaluate_Variables (cfg : Config) (info : Git.BranchInfo) :
    (Evaluate cfg info).1.Variables =
      (match cfg.Environments.get? (resolvedEnvironment cfg info) with
        | some envConfig => copyVariables envConfig.Variables []
        | none => []) := by
  unfold Evaluate applyPolicies resolvedEnvironment
  simp only [applyBlocked_eq]
  cases findBestMapping cfg info.ShortName with
  | none =>
    dsimp only
    cases cfg.Environments.get? (str "development") <;> (dsimp only; repeat' split) <;> simp
  | some im =>
    dsimp only
    cases cfg.Environments.get? im.2.Environment <;> (dsimp only; repeat' split) <;> simp

theorem Evaluate_Warnings (cfg : Config) (info : Git.BranchInfo) :
    (Evaluate cfg info).1.Warnings =
      (match findBestMapping cfg info.ShortName with
        | none => [fallbackWarning]
        | some _ => [])
      ++ (match cfg.Environments.get? (resolvedEnvironment cfg info) with
        | some envConfig =>
          if isBranchAllowed info.ShortName envConfig.AllowedBranches then []
          else [notAllowedWarning info.ShortName (resolvedEnvironment cfg info)]
        | none => [])
      ++ (cfg.Policies.BlockedBranchPatterns.filter
            (fun p => matchesPattern info.ShortName p)).map blockedWarning := by
  unfold Evaluate applyPolicies resolvedEnvironment
  simp only [applyBlocked_eq]
  cases findBestMapping cfg info.ShortName with
  | none =>
    dsimp only
    cases cfg.Environments.get? (str "development") <;> (dsimp only; repeat' split) <;> simp_all
  | some im =>
    dsimp only
    cases cfg.Environments.get? im.2.Environment <;> (dsimp only; repeat' split) <;> simp_all


theorem copyVariables_append (src dst : GoMap GoString)
    (hsrc : GoMap.WellFormed src) (hdis : ∀ k ∈ src.map Prod.fst, k ∉ dst.map Prod.fst) :
    copyVariables src dst = dst ++ src := by
  unfold copyVariables
  induction src generalizing dst with
  | nil => simp
  | cons e src ih =>
    obtain ⟨k, v⟩ := e
    unfold GoMap.WellFormed at hsrc
    simp only [List.map_cons, List.nodup_cons] at hsrc
    have hk : k ∉ dst.map Prod.fst := hdis k (by simp)
    simp only [List.foldl_cons]
    rw [GoMap.set_of_not_mem dst k v hk, ih (dst ++ [(k, v)]) hsrc.2]
    · simp
    · intro k2 hk2
      simp only [List.map_append, List.map_cons, List.map_nil, List.mem_append,
        List.mem_singleton, not_or]
      refine ⟨hdis k2 (by simp [hk2]), ?_⟩
      rintro rfl
      exact hsrc.1 hk2

/-- Copying a map into a fresh one gives the same map. -/
theorem copyVariables_nil (src : GoMap GoString) (hsrc : GoMap.WellFormed src) :
    copyVariables src [] = src := by
  rw [copyVariables_append src [] hsrc (by simp)]
  simp

/-- If no remaining mapping both matches and beats the current priority, the
loop keeps its current best. -/
theorem findBestLoop_keep (n : GoString) (l : List BranchMapping) (i : Nat)
    (best : Option (Nat × BranchMapping)) (hi : Int)
    (h : ∀ m ∈ l, matchesPattern n m.Pattern = true → m.Priority ≤ hi) :
    findBestLoop n l i best hi = best := by
  induction l generalizing i with
  | nil => rfl
  | cons m l ih =>
    have hm := h m (List.mem_cons_self _ _)
    have hl : ∀ m' ∈ l, matchesPattern n m'.Pattern = true → m'.Priority ≤ hi :=
      fun m' hm' => h m' (List.mem_cons_of_mem _ hm')
    unfold findBestLoop
    by_cases hp : matchesPattern n m.Pattern = true
    · have : ¬ m.Priority > hi := not_lt.mpr (hm hp)
      simp [hp, this, ih i.succ hl]
    · simp [hp, ih (i + 1) hl]

/-- What the selection loop computes: either nothing beats the current
priority, or the result is the first mapping of greatest priority among the
matching ones, and that priority beats the current one. -/
theorem findBestLoop_spec (n : GoString) (l : List BranchMapping) (i : Nat)
    (best : Option (Nat × BranchMapping)) (hi : Int) :
    (findBestLoop n l i best hi = best ∧
      ∀ m ∈ l, matchesPattern n m.Pattern = true → m.Priority ≤ hi) ∨
    (∃ j m, findBestLoop n l i best hi = some (i + j, m) ∧ l[j]? = some m ∧
      matchesPattern n m.Pattern = true ∧ hi < m.Priority ∧
      (∀ m2 ∈ l, matchesPattern n m2.Pattern = true → m2.Priority ≤ m.Priority) ∧
      (∀ k m2, k < j → l[k]? = some m2 → matchesPattern n m2.Pattern = true →
        m2.Priority < m.Priority)) := by
  induction l generalizing i best hi with
  | nil => left; exact ⟨rfl, by simp⟩
  | cons a l ih =>
    unfold findBestLoop
    by_cases hp : matchesPattern n a.Pattern = true
    · by_cases hgt : a.Priority > hi
      · simp only [hp, hgt, if_true]
        rcases ih (i + 1) (some (i, a)) a.Priority with ⟨he, hall⟩ | ⟨j, m, he, hj, hm, hlt, hmax, hfirst⟩
        · right
          refine ⟨0, a, by simpa using he, by simp, hp, hgt, ?_, ?_⟩
          · intro m2 hm2 hmatch
            rcases List.mem_cons.mp hm2 with rfl | hm2
            · exact le_refl _
            · exact hall m2 hm2 hmatch
          · intro k m2 hk; omega
        · right
          refine ⟨j + 1, m, ?_, by simpa using hj, hm, lt_trans hgt hlt, ?_, ?_⟩
          · rw [he, Nat.add_assoc, Nat.add_comm 1 j]
          · intro m2 hm2 hmatch
            rcases List.mem_cons.mp hm2 with rfl | hm2
            · exact le_of_lt hlt
            · exact hmax m2 hm2 hmatch
          · intro k m2 hk hget hmatch
            cases k with
            | zero =>
              simp at hget
              subst hget
              exact hlt
            | succ k =>
              simp at hget
              exact hfirst k m2 (by omega) hget hmatch
      · simp only [hp, hgt, if_true, if_false]
        rcases ih (i + 1) best hi with ⟨he, hall⟩ | ⟨j, m, he, hj, hm, hlt, hmax, hfirst⟩
        · left
          refine ⟨he, ?_⟩
          intro m2 hm2 hmatch
          rcases List.mem_cons.mp hm2 with rfl | hm2
          · exact not_lt.mp hgt
          · exact hall m2 hm2 hmatch
        · right
          refine ⟨j + 1, m, ?_, by simpa using hj, hm, hlt, ?_, ?_⟩
          · rw [he, Nat.add_assoc, Nat.add_comm 1 j]
          · intro m2 hm2 hmatch
            rcases List.mem_cons.mp hm2 with rfl | hm2
            · exact le_trans (not_lt.mp hgt) (le_of_lt hlt)
            · exact hmax m2 hm2 hmatch
          · intro k m2 hk hget hmatch
            cases k with
            | zero =>
              simp at hget
              subst hget
              exact lt_of_le_of_lt (not_lt.mp hgt) hlt
            | succ k =>
              simp at hget
              exact hfirst k m2 (by omega) hget hmatch
    · rw [if_neg hp]
      rcases ih (i + 1) best hi with ⟨he, hall⟩ | ⟨j, m, he, hj, hm, hlt, hmax, hfirst⟩
      · left
        refine ⟨he, ?_⟩
        intro m2 hm2 hmatch
        rcases List.mem_cons.mp hm2 with rfl | hm2
        · exact absurd hmatch hp
        · exact hall m2 hm2 hmatch
      · right
        refine ⟨j + 1, m, ?_, by simpa using hj, hm, hlt, ?_, ?_⟩
        · rw [he, Nat.add_assoc, Nat.add_comm 1 j]
        · intro m2 hm2 hmatch
          rcases List.mem_cons.mp hm2 with rfl | hm2
          · exact absurd hmatch hp
          · exact hmax m2 hm2 hmatch
        · intro k m2 hk hget hmatch
          cases k with
          | zero =>
            simp at hget
            subst hget
            exact absurd hmatch hp
          | succ k =>
            simp at hget
            exact hfirst k m2 (by omega) hget hmatch

end Policy

/-! ## The classifier keeps the short name -/

namespace Git

theorem parseLoop_ShortName (order : List (GoString × BranchPattern)) (info : BranchInfo) :
    (parseLoop order info).ShortName = info.ShortName := by
  induction order with
  | nil => rfl
  | cons e order ih =>
    obtain ⟨t, p⟩ := e
    unfold parseLoop
    split
    · exact ih
    · dsimp only
      split
      · split <;> rfl
      · rfl

theorem classify_ShortName (order : List (GoString × BranchPattern)) (n : GoString) :
    (classify order n).ShortName = n := by
  unfold classify checkProtected parseBranchType
  exact parseLoop_ShortName order _

theorem classify_IsProtected (order : List (GoString × BranchPattern)) (n : GoString) :
    (classify order n).IsProtected = protectedBranches.any (fun p => Strings.EqualFold n p) := by
  unfold classify checkProtected parseBranchType
  dsimp only
  rw [parseLoop_ShortName]

end Git

/-! ## Claims about `Evaluate` -/

namespace Policy

/-- Claim C4: when some entry of `BlockedBranchPatterns` matches the short
name, the decision of `Evaluate` has `ShouldDeploy = false`, whatever the
selected mapping and `AutoDeployBranches` are. -/
theorem C4_blocked_never_deploys (cfg : Config) (info : Git.BranchInfo)
    (h : ∃ p ∈ cfg.Policies.BlockedBranchPatterns, matchesPattern info.ShortName p = true) :
    (Evaluate cfg info).1.ShouldDeploy = false := by
  rw [Evaluate_ShouldDeploy]
  have : cfg.Policies.BlockedBranchPatterns.any (fun p => matchesPattern info.ShortName p) = true :=
    List.any_eq_true.mpr h
  simp [this]

theorem C4_blocked_never_deploys_witness :
    (∃ p ∈ blockedExample.Policies.BlockedBranchPatterns,
        matchesPattern mainInfo.ShortName p = true) ∧
      (Evaluate blockedExample mainInfo).1.ShouldDeploy = false :=
  ⟨⟨str "ma*", by decide, by decide⟩,
   C4_blocked_never_deploys blockedExample mainInfo ⟨str "ma*", by decide, by decide⟩⟩

theorem findBestMapping_none_of_no_match (cfg : Config) (n : GoString)
    (h : ∀ m ∈ cfg.BranchMappings, matchesPattern n m.Pattern = false) :
    findBestMapping cfg n = none := by
  unfold findBestMapping
  apply findBestLoop_keep
  intro m hm hmatch
  rw [h m hm] at hmatch
  exact absurd hmatch (by decide)

/-- Claim C5: when no branch mapping matches the short name, `Evaluate` returns
a decision with environment `"development"`, `ShouldDeploy = false`, and the
fallback warning as the first warning. -/
theorem C5_fallback (cfg : Config) (info : Git.BranchInfo)
    (h : ∀ m ∈ cfg.BranchMappings, matchesPattern info.ShortName m.Pattern = false) :
    (Evaluate cfg info).1.Environment = str "development" ∧
    (Evaluate cfg info).1.ShouldDeploy = false ∧
    (Evaluate cfg info).1.Warnings.head? =
      some (str "No matching branch mapping found, using development environment") := by
  have hn := findBestMapping_none_of_no_match cfg info.ShortName h
  refine ⟨?_, ?_, ?_⟩
  · rw [Evaluate_Environment]; unfold resolvedEnvironment; rw [hn]
  · rw [Evaluate_ShouldDeploy, hn]; rfl
  · rw [Evaluate_Warnings, hn]; rfl

theorem C5_fallback_witness :
    (∀ m ∈ Config.DefaultConfig.BranchMappings,
        matchesPattern randomInfo.ShortName m.Pattern = false) ∧
    ((Evaluate Config.DefaultConfig randomInfo).1.Environment = str "development" ∧
     (Evaluate Config.DefaultConfig randomInfo).1.ShouldDeploy = false ∧
     (Evaluate Config.DefaultConfig randomInfo).1.Warnings.head? =
       some (str "No matching branch mapping found, using development environment")) :=
  ⟨by decide, C5_fallback Config.DefaultConfig randomInfo (by decide)⟩

/-- Claim C1, at a failing input: the only mapping matches `main` but has
priority -5, below the initial `highestPriority` of -1, so neither engine
selects it and `Evaluate` takes the fallback path. -/
theorem C1_negative_priority_unselected :
    (∃ m ∈ negativePriorityExample.BranchMappings, matchesPattern (str "main") m.Pattern = true) ∧
    findBestMapping negativePriorityExample (str "main") = none ∧
    Service.findBestMapping (str "main") negativePriorityExample = none ∧
    (Evaluate negativePriorityExample mainInfo).1.Environment = str "development" ∧
    (Evaluate negativePriorityExample mainInfo).1.Warnings = [fallbackWarning] := by
  refine ⟨⟨_, List.mem_cons_self _ _, by decide⟩, by decide, by decide, by decide, by decide⟩

/-- Claim C2, as stated, fails: with the default configuration the classified
branch `staging` does not get `RequiresApproval = false`. -/
theorem C2_counterexample :
    ¬ ((Evaluate Config.DefaultConfig (Git.classify Git.patterns (str "staging"))).1.Environment
          = str "staging" ∧
       (Evaluate Config.DefaultConfig (Git.classify Git.patterns (str "staging"))).1.ShouldDeploy
          = true ∧
       (Evaluate Config.DefaultConfig (Git.classify Git.patterns (str "staging"))).1.RequiresApproval
          = false) := by
  decide

/-- Claim C2, amended: with the default configuration, the classified branch
`staging` (whatever order the classifier tries its patterns in) resolves to
environment `"staging"` with `ShouldDeploy = true` and, `staging` being a
protected branch under `RequireCodeReview`, `RequiresApproval = true`. -/
theorem C2_staging_default (order : List (GoString × Git.BranchPattern)) :
    (Evaluate Config.DefaultConfig (Git.classify order (str "staging"))).1.Environment
      = str "staging" ∧
    (Evaluate Config.DefaultConfig (Git.classify order (str "staging"))).1.ShouldDeploy = true ∧
    (Evaluate Config.DefaultConfig (Git.classify order (str "staging"))).1.RequiresApproval
      = true := by
  refine ⟨?_, ?_, ?_⟩
  · rw [Evaluate_Environment]
    unfold resolvedEnvironment
    rw [Git.classify_ShortName]
    decide
  · rw [Evaluate_ShouldDeploy, Git.classify_ShortName]
    decide
  · rw [Evaluate_RequiresApproval, Git.classify_IsProtected]
    unfold resolvedEnvironment
    rw [Git.classify_ShortName]
    decide

/-- Claim C9: `Evaluate` always returns a decision with a nil error.  When the
resolved environment is configured, the decision's variables are that
environment's variables and `RequiresApproval` is the environment's flag or
(`RequireCodeReview` and `IsProtected`).  When it is not configured, the
variables are empty, the warnings are only the fallback warning and the
blocked-pattern warnings (no allow-list warning), and `RequiresApproval` is
`RequireCodeReview` and `IsProtected`. -/
theorem C9_environment_overlay (cfg : Config) (info : Git.BranchInfo) :
    (Evaluate cfg info).2 = none ∧
    (∀ envConfig, cfg.Environments.get? (Evaluate cfg info).1.Environment = some envConfig →
      (GoMap.WellFormed envConfig.Variables →
        (Evaluate cfg info).1.Variables = envConfig.Variables) ∧
      (Evaluate cfg info).1.RequiresApproval =
        (envConfig.RequiresApproval || (cfg.Policies.RequireCodeReview && info.IsProtected))) ∧
    (cfg.Environments.get? (Evaluate cfg info).1.Environment = none →
      (Evaluate cfg info).1.Variables = [] ∧
      (Evaluate cfg info).1.Warnings =
        (match findBestMapping cfg info.ShortName with
          | none => [fallbackWarning]
          | some _ => [])
        ++ (cfg.Policies.BlockedBranchPatterns.filter
              (fun p => matchesPattern info.ShortName p)).map blockedWarning ∧
      (Evaluate cfg info).1.RequiresApproval =
        (cfg.Policies.RequireCodeReview && info.IsProtected)) := by
  refine ⟨rfl, ?_, ?_⟩
  · intro envConfig h
    rw [Evaluate_Environment] at h
    rw [Evaluate_Variables, Evaluate_RequiresApproval, h]
    exact ⟨fun hwf => copyVariables_nil _ hwf, rfl⟩
  · intro h
    rw [Evaluate_Environment] at h
    rw [Evaluate_Variables, Evaluate_RequiresApproval, Evaluate_Warnings, h]
    refine ⟨rfl, ?_, by simp⟩
    simp only [List.append_nil]

theorem C9_environment_overlay_witness :
    (Config.DefaultConfig.Environments.get?
        (Evaluate Config.DefaultConfig mainInfo).1.Environment
      = some { Name := str "production", RequiresApproval := true,
               AllowedBranches := [str "main", str "master"],
               Variables := [(str "ENV", str "production")], NotifyOnDeploy := true }) ∧
    (Evaluate Config.DefaultConfig mainInfo).1.Variables = [(str "ENV", str "production")] ∧
    (Evaluate Config.DefaultConfig mainInfo).1.RequiresApproval = true ∧
    missingEnvExample.Environments.get? (Evaluate missingEnvExample mainInfo).1.Environment
      = none ∧
    (Evaluate missingEnvExample mainInfo).1.Variables = [] ∧
    (Evaluate missingEnvExample mainInfo).1.Warnings
      = [str "Branch matches blocked pattern: m*"] ∧
    (Evaluate missingEnvExample mainInfo).1.RequiresApproval = true :=
  have h1 := (C9_environment_overlay Config.DefaultConfig mainInfo).2.1
    { Name := str "production", RequiresApproval := true,
      AllowedBranches := [str "main", str "master"],
      Variables := [(str "ENV", str "production")], NotifyOnDeploy := true } (by decide)
  have h2 := (C9_environment_overlay missingEnvExample mainInfo).2.2 (by decide)
  ⟨by decide, h1.1 (by unfold GoMap.WellFormed; decide), h1.2, by decide, h2.1, h2.2.1, h2.2.2⟩

/-- Claim C10: two configurations that differ only in `RequireCodeReview`
(false, then true) give decisions that agree on every field but
`RequiresApproval`; approval in the first implies approval in the second, and
the two values differ only for a protected branch. -/
theorem C10_approval_monotone (cfg : Config) (info : Git.BranchInfo) :
    let cfgF : Config := { cfg with Policies := { cfg.Policies with RequireCodeReview := false } }
    let cfgT : Config := { cfg with Policies := { cfg.Policies with RequireCodeReview := true } }
    { (Evaluate cfgT info).1 with RequiresApproval := (Evaluate cfgF info).1.RequiresApproval }
        = (Evaluate cfgF info).1 ∧
    (Evaluate cfgT info).2 = (Evaluate cfgF info).2 ∧
    ((Evaluate cfgF info).1.RequiresApproval = true →
      (Evaluate cfgT info).1.RequiresApproval = true) ∧
    ((Evaluate cfgT info).1.RequiresApproval ≠ (Evaluate cfgF info).1.RequiresApproval →
      info.IsProtected = true) := by
  intro cfgF cfgT
  have key : ∀ b : Bool,
      (Evaluate { cfg with Policies := { cfg.Policies with RequireCodeReview := b } } info).1 =
        if b = true ∧ info.IsProtected = true then
          { (Evaluate cfgF info).1 with RequiresApproval := true }
        else (Evaluate cfgF info).1 := by
    intro b
    unfold Evaluate applyPolicies
    cases b
    · simp only [Bool.false_eq_true, false_and, if_false]
    · simp only [Bool.false_eq_true, false_and, if_false]
      rfl
  have hT := key true
  refine ⟨?_, rfl, ?_, ?_⟩
  · show { (Evaluate cfgT info).1 with
        RequiresApproval := (Evaluate cfgF info).1.RequiresApproval } = _
    rw [show (Evaluate cfgT info).1 = _ from hT]
    split <;> rfl
  · intro h
    rw [show (Evaluate cfgT info).1 = _ from hT]
    split
    · rfl
    · exact h
  · intro h
    rw [show (Evaluate cfgT info).1 = _ from hT] at h
    by_cases hp : info.IsProtected = true
    · exact hp
    · simp [hp] at h

end Policy

/-! ## `filepath.Match` on a literal followed by a star -/

namespace Filepath

theorem Literal.tail {c : UInt8} {q : GoString} (h : Literal (c :: q)) : Literal q :=
  fun d hd => h d (List.mem_cons_of_mem _ hd)

theorem Literal.head {c : UInt8} {q : GoString} (h : Literal (c :: q)) :
    c ≠ bStar ∧ c ≠ bQuery ∧ c ≠ bOpen ∧ c ≠ bBackslash :=
  h c (List.mem_cons_self _ _)

theorem scanIndex_star (rest : GoString) : scanIndex (bStar :: rest) false = 0 := by
  unfold scanIndex
  simp [show bStar ≠ bBackslash by decide, show bStar ≠ bOpen by decide,
    show bStar ≠ bClose by decide]

theorem scanIndex_cons_literal (c : UInt8) (rest : GoString)
    (h1 : c ≠ bStar) (h3 : c ≠ bOpen) (h4 : c ≠ bBackslash) :
    scanIndex (c :: rest) false = 1 + scanIndex rest false := by
  conv_lhs => unfold scanIndex
  simp only [h4, h3, h1, if_false]
  split <;> rfl

theorem scanIndex_literal (q rest : GoString) (h : Literal q) :
    scanIndex (q ++ bStar :: rest) false = q.length := by
  induction q with
  | nil => exact scanIndex_star rest
  | cons c q ih =>
    obtain ⟨h1, _, h3, h4⟩ := h.head
    rw [List.cons_append, scanIndex_cons_literal c _ h1 h3 h4, ih h.tail, List.length_cons]
    omega

theorem scanChunk_star : scanChunk [bStar] = (true, [], []) := by decide

theorem scanChunk_literal_star (c : UInt8) (q : GoString) (h : Literal (c :: q)) :
    scanChunk (c :: q ++ [bStar]) = (false, c :: q, [bStar]) := by
  have hi := scanIndex_literal (c :: q) [] h
  have hs : skipStars (c :: q ++ [bStar]) false = (false, c :: q ++ [bStar]) := by
    simp [skipStars, h.head.1]
  unfold scanChunk
  rw [hs]
  dsimp only
  rw [hi]
  simp

theorem matchChunkLoop_nil (fuel : Nat) (s : GoString) (failed : Bool) :
    matchChunkLoop (fuel + 1) [] s failed =
      if failed then some ([], false, none) else some (s, true, none) := rfl

theorem matchChunkLoop_cons_literal (fuel : Nat) (c : UInt8) (chunk1 s : GoString)
    (failed0 : Bool) (h2 : c ≠ bQuery) (h3 : c ≠ bOpen) (h4 : c ≠ bBackslash) :
    matchChunkLoop (fuel + 1) (c :: chunk1) s failed0 =
      if (failed0 || s.isEmpty) = true then matchChunkLoop fuel chunk1 s (failed0 || s.isEmpty)
      else matchChunkLoop fuel chunk1 s.tail (s.head? != some c) := by
  show (if c = bOpen then _ else if c = bQuery then _ else if c = bBackslash then _ else _) = _
  rw [if_neg h3, if_neg h2, if_neg h4]

/-- A literal chunk matches exactly the names it is a beginning of. -/
theorem matchChunkLoop_literal (q : GoString) (h : Literal q) (fuel : Nat) (s : GoString)
    (failed : Bool) (hf : q.length < fuel) :
    matchChunkLoop fuel q s failed =
      if failed = false ∧ q.isPrefixOf s = true then some (s.drop q.length, true, none)
      else some ([], false, none) := by
  induction q generalizing fuel s failed with
  | nil =>
    cases fuel with
    | zero => simp at hf
    | succ fuel => cases failed <;> simp [matchChunkLoop_nil]
  | cons c q ih =>
    cases fuel with
    | zero => simp at hf
    | succ fuel =>
      obtain ⟨_, h2, h3, h4⟩ := h.head
      have hf2 : q.length < fuel := by simpa using hf
      rw [matchChunkLoop_cons_literal fuel c q s failed h2 h3 h4]
      cases failed with
      | true => simp [ih h.tail fuel s true hf2]
      | false =>
        cases s with
        | nil => simp [ih h.tail fuel [] true hf2]
        | cons d s =>
          simp only [Bool.false_or, List.isEmpty_cons, Bool.false_eq_true, if_false, List.tail_cons,
            List.head?_cons]
          rw [ih h.tail fuel s _ hf2]
          by_cases hcd : c = d
          · subst hcd; simp
          · have hdc : ¬ d = c := fun e => hcd e.symm
            simp [hcd, hdc]

theorem matchChunk_literal (q s : GoString) (h : Literal q) :
    matchChunk q s =
      if q.isPrefixOf s = true then some (s.drop q.length, true, none)
      else some ([], false, none) := by
  unfold matchChunk
  rw [matchChunkLoop_literal q h _ s false (Nat.lt_succ_self _)]
  simp

theorem matchLoop_star (fuel : Nat) (name : GoString) :
    matchLoop (fuel + 1) [bStar] name = some (!Strings.ContainsByte name Separator, none) := by
  unfold matchLoop
  simp [scanChunk_star]

/-- `Match` on a literal followed by one star. -/
theorem Match_literal_star (q name : GoString) (h : Literal q) :
    Match (q ++ [bStar]) name =
      some (q.isPrefixOf name && !Strings.ContainsByte (name.drop q.length) Separator, none) := by
  unfold Match
  cases q with
  | nil => simp [matchLoop_star]
  | cons c q =>
    simp only [List.length_append, List.length_cons, List.length_nil]
    unfold matchLoop
    simp only [scanChunk_literal_star c q h, matchChunk_literal _ _ h]
    by_cases hp : (c :: q).isPrefixOf name = true
    · simp [hp, matchLoop_star]
    · simp [hp]

end Filepath

/-! ## Claims about `matchesPattern` -/

namespace Policy

theorem str_slash_star : str "/*" = [Filepath.Separator, Filepath.bStar] := by decide
theorem str_slash : str "/" = [Filepath.Separator] := by decide
theorem str_star : str "*" = [Filepath.bStar] := by decide

theorem hasSuffix_slash_star (q : GoString) :
    Strings.HasSuffix (q ++ str "/*") (str "/*") = true := by
  unfold Strings.HasSuffix
  rw [List.isSuffixOf_iff_suffix]
  exact List.suffix_append _ _

theorem trimSuffix_slash_star (q : GoString) :
    Strings.TrimSuffix (q ++ str "/*") (str "/*") = q := by
  unfold Strings.TrimSuffix
  rw [hasSuffix_slash_star]
  simp

/-- Claim C6: a name always matches the pattern equal to it, and a pattern
`q/*` matches exactly the names that start with `q/`; so `feature/auth` and
`feature/a/b` match `feature/*` while `bugfix/auth` and `feature` do not. -/
theorem C6_exact_and_slash_star (n q : GoString) :
    matchesPattern n n = true ∧
    (matchesPattern n (q ++ str "/*") = true ↔ (q ++ str "/") <+: n) ∧
    matchesPattern (str "feature/auth") (str "feature/*") = true ∧
    matchesPattern (str "feature/a/b") (str "feature/*") = true ∧
    matchesPattern (str "bugfix/auth") (str "feature/*") = false ∧
    matchesPattern (str "feature") (str "feature/*") = false := by
  refine ⟨by simp [matchesPattern], ?_, by decide, by decide, by decide, by decide⟩
  unfold matchesPattern
  by_cases h : n = q ++ str "/*"
  · subst h
    simp only [if_true, true_iff]
    rw [str_slash_star, str_slash]
    exact ⟨[Filepath.bStar], by simp⟩
  · simp only [h, if_false, hasSuffix_slash_star, if_true, trimSuffix_slash_star]
    unfold Strings.HasPrefix
    exact List.isPrefixOf_iff_prefix

theorem hasSuffix_literal_star (q : GoString) (hs : q.getLast? ≠ some Filepath.Separator) :
    Strings.HasSuffix (q ++ str "*") (str "/*") = false := by
  unfold Strings.HasSuffix
  rw [Bool.eq_false_iff, Ne, List.isSuffixOf_iff_suffix, str_slash_star, str_star]
  rintro ⟨t, ht⟩
  have h2 : t ++ [Filepath.Separator] ++ [Filepath.bStar] = q ++ [Filepath.bStar] := by
    simpa using ht
  have h3 := List.append_inj_left' h2 rfl
  apply hs
  rw [← h3]
  simp

/-- Claim C7: for a literal `q` (no `*`, `?`, `[`, backslash) that does not
end in `/`, the pattern `q*` matches exactly the names that start with `q` and
have no `/` after it: the wildcard never crosses a separator.  In particular
the pattern `*` matches no name that contains `/`. -/
theorem C7_star_stays_in_segment (n q : GoString) (hq : Filepath.Literal q)
    (hs : q.getLast? ≠ some Filepath.Separator) :
    (matchesPattern n (q ++ str "*") = true ↔
      q <+: n ∧ Filepath.Separator ∉ n.drop q.length) ∧
    (Filepath.Separator ∈ n → matchesPattern n (str "*") = false) := by
  have main : ∀ q : GoString, Filepath.Literal q → q.getLast? ≠ some Filepath.Separator →
      (matchesPattern n (q ++ str "*") = true ↔
        q <+: n ∧ Filepath.Separator ∉ n.drop q.length) := by
    intro q hq hs
    unfold matchesPattern
    by_cases h : n = q ++ str "*"
    · subst h
      simp only [if_true, true_iff]
      refine ⟨List.prefix_append _ _, ?_⟩
      rw [str_star]
      simp [Filepath.Separator, Filepath.bStar]
    · simp only [h, if_false, hasSuffix_literal_star q hs, Bool.false_eq_true]
      rw [str_star, Filepath.Match_literal_star q n hq]
      simp [Strings.ContainsByte, List.isPrefixOf_iff_prefix]
  refine ⟨main q hq hs, ?_⟩
  intro hsep
  have h0 := main [] (by intro c hc; simp at hc) (by simp)
  simp only [List.nil_append, List.length_nil, List.drop_zero, List.nil_prefix, true_and] at h0
  rw [Bool.eq_false_iff]
  intro hm
  exact (h0.mp hm) hsep

theorem C7_star_stays_in_segment_witness :
    (Filepath.Literal (str "release-") ∧
      (str "release-").getLast? ≠ some Filepath.Separator) ∧
    matchesPattern (str "release-v1.0") (str "release-*") = true ∧
    matchesPattern (str "release-v1/x") (str "release-*") = false ∧
    matchesPattern (str "a/b") (str "*") = false :=
  have hl : Filepath.Literal (str "release-") := by decide
  have hs : (str "release-").getLast? ≠ some Filepath.Separator := by decide
  ⟨⟨hl, hs⟩,
   (C7_star_stays_in_segment (str "release-v1.0") (str "release-") hl hs).1.mpr
     ⟨by decide, by decide⟩,
   by
     rw [Bool.eq_false_iff]
     intro hm
     exact absurd ((C7_star_stays_in_segment (str "release-v1/x") (str "release-") hl hs).1.mp hm).2
       (by decide),
   (C7_star_stays_in_segment (str "a/b") (str "release-") hl hs).2 (by decide)⟩

end Policy

/-! ## `filepath.Match` always returns, and never matches a malformed pattern -/

namespace Utf8

theorem DecodeRuneInString_width_pos (c : UInt8) (s : GoString) :
    1 ≤ (DecodeRuneInString (c :: s)).2 := by
  unfold DecodeRuneInString
  dsimp only
  repeat' split
  all_goals simp

end Utf8

namespace Filepath

theorem getEsc_body_length (body : GoString) (r : Rune) (nchunk : GoString)
    (h : (if body.drop (Utf8.DecodeRuneInString body).2 = [] then
            ((Utf8.DecodeRuneInString body).1, body.drop (Utf8.DecodeRuneInString body).2,
              some Error.ErrBadPattern)
          else if (Utf8.DecodeRuneInString body).1 = Utf8.RuneError ∧
              (Utf8.DecodeRuneInString body).2 = 1 then
            ((Utf8.DecodeRuneInString body).1, body.drop (Utf8.DecodeRuneInString body).2,
              some Error.ErrBadPattern)
          else ((Utf8.DecodeRuneInString body).1, body.drop (Utf8.DecodeRuneInString body).2,
              none)) = (r, nchunk, (none : Option Error))) :
    nchunk.length < body.length := by
  split at h
  · simp at h
  · rename_i hne
    split at h
    · simp at h
    · simp only [Prod.mk.injEq, and_true] at h
      rw [← h.2]
      cases body with
      | nil => simp at hne
      | cons d rest =>
        have := Utf8.DecodeRuneInString_width_pos d rest
        simp only [List.length_drop, List.length_cons]
        omega

/-- A successful `getEsc` consumes at least one byte. -/
theorem getEsc_length (chunk : GoString) (r : Rune) (nchunk : GoString)
    (h : getEsc chunk = (r, nchunk, none)) : nchunk.length < chunk.length := by
  unfold getEsc at h
  cases chunk with
  | nil => simp at h
  | cons c rest =>
    dsimp only at h
    by_cases h1 : c = bDash ∨ c = bClose
    · simp [h1] at h
    · rw [if_neg h1] at h
      by_cases h2 : c = bBackslash ∧ rest = []
      · simp [h2] at h
      · rw [if_neg h2] at h
        by_cases hb : c = bBackslash
        · simp only [hb, if_true] at h
          have := getEsc_body_length rest r nchunk h
          simp only [List.length_cons]
          omega
        · simp only [hb, if_false] at h
          exact getEsc_body_length (c :: rest) r nchunk h

/-- The class loop, when it has fuel for every byte, returns; what is left of
the chunk and the error do not depend on the rune under test, and without an
error the chunk has become shorter. -/
theorem classLoop_shape (fuel : Nat) (chunk : GoString) (k : Nat) (hf : chunk.length < fuel) :
    ∃ (c2 : GoString) (e : Option Error), (e = none → c2.length < chunk.length) ∧
      ∀ (r : Rune) (m : Bool), ∃ m2, classLoop fuel chunk r m k = some (c2, m2, e) := by
  induction fuel generalizing chunk k with
  | zero => simp at hf
  | succ fuel ih =>
    by_cases hc : chunk.head? = some bClose ∧ k > 0
    · refine ⟨chunk.tail, none, ?_, ?_⟩
      · intro _
        cases chunk with
        | nil => simp at hc
        | cons c chunk => simp
      · intro r m
        exact ⟨m, by simp [classLoop, hc]⟩
    · rcases h1 : getEsc chunk with ⟨lo, chunk1, e1⟩
      cases e1 with
      | some e =>
        refine ⟨[], some e, by simp, ?_⟩
        intro r m
        exact ⟨false, by simp [classLoop, hc, h1]⟩
      | none =>
        have hl1 := getEsc_length chunk lo chunk1 h1
        by_cases hd : chunk1.head? = some bDash
        · rcases h2 : getEsc chunk1.tail with ⟨hi, chunk2, e2⟩
          cases e2 with
          | some e =>
            refine ⟨[], some e, by simp, ?_⟩
            intro r m
            exact ⟨false, by simp [classLoop, hc, h1, hd, h2]⟩
          | none =>
            have hl2 := getEsc_length chunk1.tail hi chunk2 h2
            have hl3 : chunk1.tail.length ≤ chunk1.length := by simp
            obtain ⟨c2, e, he, hall⟩ := ih chunk2 (k + 1) (by omega)
            refine ⟨c2, e, fun h => by have := he h; omega, ?_⟩
            intro r m
            obtain ⟨m2, hm2⟩ := hall r (m || (decide (lo ≤ r) && decide (r ≤ hi)))
            exact ⟨m2, by simp only [classLoop, hc, h1, hd, h2, if_true, if_false]; exact hm2⟩
        · obtain ⟨c2, e, he, hall⟩ := ih chunk1 (k + 1) (by omega)
          refine ⟨c2, e, fun h => by have := he h; omega, ?_⟩
          intro r m
          obtain ⟨m2, hm2⟩ := hall r (m || (decide (lo ≤ r) && decide (r ≤ lo)))
          exact ⟨m2, by simp only [classLoop, hc, h1, hd, if_false]; exact hm2⟩

/-- `matchChunk`'s loop, when it has fuel for every byte of the chunk, returns;
its error depends on the chunk only, and a match carries no error. -/
theorem matchChunkLoop_shape (fuel : Nat) (chunk : GoString) (hf : chunk.length < fuel) :
    ∃ ec : Option Error, ∀ (s : GoString) (failed : Bool), ∃ (t : GoString) (ok : Bool),
      matchChunkLoop fuel chunk s failed = some (t, ok, ec) ∧ (ok = true → ec = none) := by
  induction fuel generalizing chunk with
  | zero => simp at hf
  | succ fuel ih =>
    cases chunk with
    | nil =>
      refine ⟨none, ?_⟩
      intro s failed
      cases failed
      · exact ⟨s, true, rfl, fun _ => rfl⟩
      · exact ⟨[], false, rfl, fun _ => rfl⟩
    | cons c chunk1 =>
      have hf1 : chunk1.length < fuel := by simpa using hf
      by_cases ho : c = bOpen
      · -- a character class
        have hlen : (if decide (chunk1.head? = some bCaret) = true then chunk1.tail
            else chunk1).length < fuel := by
          split
          · have : chunk1.tail.length ≤ chunk1.length := by simp
            omega
          · exact hf1
        obtain ⟨c3, e, he, hall⟩ := classLoop_shape fuel _ 0 hlen
        cases e with
        | some e =>
          refine ⟨some e, ?_⟩
          intro s failed
          obtain ⟨m2, hm2⟩ := hall
            (if (failed || s.isEmpty) = true then 0 else (Utf8.DecodeRuneInString s).1) false
          refine ⟨[], false, ?_, by simp⟩
          unfold matchChunkLoop
          dsimp only
          rw [if_pos ho, hm2]
        | none =>
          have h3 : c3.length < fuel := by have := he rfl; omega
          obtain ⟨ec, hec⟩ := ih c3 h3
          refine ⟨ec, ?_⟩
          intro s failed
          obtain ⟨m2, hm2⟩ := hall
            (if (failed || s.isEmpty) = true then 0 else (Utf8.DecodeRuneInString s).1) false
          obtain ⟨t, ok, h1, h2⟩ := hec
            (if (failed || s.isEmpty) = true then s else s.drop (Utf8.DecodeRuneInString s).2)
            ((failed || s.isEmpty) || (m2 == decide (chunk1.head? = some bCaret)))
          refine ⟨t, ok, ?_, h2⟩
          unfold matchChunkLoop
          dsimp only
          rw [if_pos ho, hm2]
          exact h1
      · by_cases hq : c = bQuery
        · obtain ⟨ec, hec⟩ := ih chunk1 hf1
          refine ⟨ec, ?_⟩
          intro s failed
          unfold matchChunkLoop
          dsimp only
          rw [if_neg ho, if_pos hq]
          split
          · exact hec _ _
          · exact hec _ _
        · by_cases hb : c = bBackslash
          · cases chunk1 with
            | nil =>
              refine ⟨some Error.ErrBadPattern, ?_⟩
              intro s failed
              refine ⟨[], false, ?_, by simp⟩
              unfold matchChunkLoop
              dsimp only
              rw [if_neg ho, if_neg hq, if_pos hb]
            | cons d chunk2 =>
              have hf2 : chunk2.length < fuel := by
                simp only [List.length_cons] at hf1
                omega
              obtain ⟨ec, hec⟩ := ih chunk2 hf2
              refine ⟨ec, ?_⟩
              intro s failed
              unfold matchChunkLoop
              dsimp only
              rw [if_neg ho, if_neg hq, if_pos hb]
              split
              · exact hec _ _
              · exact hec _ _
          · obtain ⟨ec, hec⟩ := ih chunk1 hf1
            refine ⟨ec, ?_⟩
            intro s failed
            unfold matchChunkLoop
            dsimp only
            rw [if_neg ho, if_neg hq, if_neg hb]
            split
            · exact hec _ _
            · exact hec _ _

/-- `matchChunk` always returns; its error depends on the chunk only, and a
match carries no error. -/
theorem matchChunk_shape (chunk : GoString) :
    ∃ ec : Option Error, ∀ s : GoString, ∃ (t : GoString) (ok : Bool),
      matchChunk chunk s = some (t, ok, ec) ∧ (ok = true → ec = none) := by
  obtain ⟨ec, h⟩ := matchChunkLoop_shape (chunk.length + 1) chunk (Nat.lt_succ_self _)
  exact ⟨ec, fun s => h s false⟩

theorem skipStars_result (p : GoString) (b : Bool) :
    (skipStars p b).2.head? ≠ some bStar ∧
    ((skipStars p b).2 = p ∨ (skipStars p b).2.length < p.length) := by
  induction p generalizing b with
  | nil => simp [skipStars]
  | cons c p ih =>
    by_cases hc : c = bStar
    · obtain ⟨h1, h2⟩ := ih true
      simp only [skipStars, hc, if_true]
      refine ⟨h1, Or.inr ?_⟩
      rcases h2 with h2 | h2
      · rw [h2]; simp
      · simp only [List.length_cons]; omega
    · have hs : skipStars (c :: p) b = (b, c :: p) := by simp [skipStars, hc]
      rw [hs]
      exact ⟨by simpa using hc, Or.inl rfl⟩

theorem scanIndex_pos (c : UInt8) (rest : GoString) (inrange : Bool) (hc : c ≠ bStar) :
    1 ≤ scanIndex (c :: rest) inrange := by
  conv_rhs => unfold scanIndex
  simp only [hc, if_false]
  repeat' split
  all_goals omega

/-- Every round of `Match` consumes a part of the pattern. -/
theorem scanChunk_rest_length (p : GoString) (hp : p ≠ []) :
    (scanChunk p).2.2.length < p.length := by
  obtain ⟨h1, h2⟩ := skipStars_result p false
  unfold scanChunk
  rcases hs : skipStars p false with ⟨star, q⟩
  rw [hs] at h1 h2
  dsimp only at h1 h2 ⊢
  rcases h2 with h2 | h2
  · subst h2
    cases q with
    | nil => exact absurd rfl hp
    | cons c q =>
      have hc : c ≠ bStar := by simpa using h1
      have := scanIndex_pos c q false hc
      simp only [List.length_drop, List.length_cons]
      omega
  · simp only [List.length_drop]
    omega

/-- An empty chunk can only be the end of the pattern. -/
theorem scanChunk_chunk_nil (p : GoString) (h : (scanChunk p).2.1 = []) :
    (scanChunk p).2.2 = [] := by
  obtain ⟨h1, _⟩ := skipStars_result p false
  unfold scanChunk at h ⊢
  rcases hs : skipStars p false with ⟨star, q⟩
  rw [hs] at h1 h
  dsimp only at h1 h ⊢
  cases q with
  | nil => simp
  | cons c q =>
    have hc : c ≠ bStar := by simpa using h1
    have := scanIndex_pos c q false hc
    rw [List.take_eq_nil_iff] at h
    rcases h with h | h
    · omega
    · exact absurd h (by simp)

theorem matchChunk_nil (s : GoString) : matchChunk [] s = some (s, true, none) := rfl

/-- When the chunk is well formed the retry loop after a star reports no
error and needs no fuel beyond what `matchChunk` takes. -/
theorem starLoop_shape (chunk : GoString) (lastChunk : Bool)
    (h : ∀ s : GoString, ∃ (t : GoString) (ok : Bool), matchChunk chunk s = some (t, ok, none))
    (name : GoString) :
    starLoop chunk lastChunk name = StarResult.notFound ∨
      ∃ t, starLoop chunk lastChunk name = StarResult.found t := by
  induction name with
  | nil => left; rfl
  | cons c rest ih =>
    unfold starLoop
    by_cases hc : c = Separator
    · left; simp [hc]
    · obtain ⟨t, ok, ht⟩ := h rest
      rw [if_neg hc, ht]
      cases ok with
      | true =>
        dsimp only
        split
        · exact ih
        · right; exact ⟨t, rfl⟩
      | false => exact ih

/-- `Match`'s loop, when it has fuel for every byte of the pattern, returns.
With `e` the outcome of the syntax check of the pattern: an error of `Match`
only arises when `e` is an error, and when `e` is an error the loop does not
report a match, whatever the name. -/
theorem matchLoop_shape (fuel : Nat) (p : GoString) (hf : p.length < fuel) :
    ∃ e : Option Error,
      (∀ k, p.length < k → syntaxScan k p = some e) ∧
      (∀ n : GoString, ∃ (m : Bool) (e2 : Option Error), matchLoop fuel p n = some (m, e2) ∧
        (e2 ≠ none → e ≠ none) ∧ (e ≠ none → m = false)) := by
  induction fuel generalizing p with
  | zero => simp at hf
  | succ fuel ih =>
    by_cases hp : p = []
    · subst hp
      refine ⟨none, ?_, ?_⟩
      · intro k hk
        cases k with
        | zero => simp at hk
        | succ k => simp [syntaxScan]
      · intro n
        exact ⟨decide (n.length = 0), none, by simp [matchLoop], by simp, by simp⟩
    · have hrest := scanChunk_rest_length p hp
      have hnil := scanChunk_chunk_nil p
      rcases hsc : scanChunk p with ⟨star, chunk, rest⟩
      rw [hsc] at hrest hnil
      dsimp only at hrest hnil
      obtain ⟨ec, hec⟩ := matchChunk_shape chunk
      obtain ⟨er, her1, her2⟩ := ih rest (by omega)
      cases ec with
      | some e0 =>
        refine ⟨some e0, ?_, ?_⟩
        · intro k hk
          cases k with
          | zero => simp at hk
          | succ k =>
            obtain ⟨t, ok, h1, _⟩ := hec []
            unfold syntaxScan
            rw [if_neg hp, hsc]
            dsimp only
            rw [h1]
        · intro n
          obtain ⟨t, ok, h1, h2⟩ := hec n
          have hok : ok = false := by
            cases ok with
            | false => rfl
            | true => exact absurd (h2 rfl) (by simp)
          subst hok
          have hchunk : chunk ≠ [] := by
            intro hc
            subst hc
            rw [matchChunk_nil] at h1
            simp at h1
          refine ⟨false, some e0, ?_, fun _ => by simp, fun _ => rfl⟩
          unfold matchLoop
          rw [if_neg hp, hsc]
          dsimp only
          rw [if_neg (fun h => hchunk h.2), h1]
          simp
      | none =>
        refine ⟨er, ?_, ?_⟩
        · intro k hk
          cases k with
          | zero => simp at hk
          | succ k =>
            obtain ⟨t, ok, h1, _⟩ := hec []
            unfold syntaxScan
            rw [if_neg hp, hsc]
            dsimp only
            rw [h1]
            exact her1 k (by omega)
        · intro n
          obtain ⟨t, ok, h1, _⟩ := hec n
          unfold matchLoop
          rw [if_neg hp, hsc]
          dsimp only
          by_cases hst : star = true ∧ chunk = []
          · rw [if_pos hst]
            have hr : rest = [] := hnil hst.2
            have her0 := her1 1 (by rw [hr]; simp)
            rw [hr] at her0
            simp only [syntaxScan, if_true, Option.some.injEq] at her0
            exact ⟨_, none, rfl, by simp, fun h => absurd her0.symm h⟩
          · rw [if_neg hst, h1]
            dsimp only
            split
            · exact her2 t
            · have hstar := starLoop_shape chunk (decide (rest.length = 0))
                (fun s => by obtain ⟨t, ok, h, _⟩ := hec s; exact ⟨t, ok, h⟩) n
              cases star with
              | false =>
                simp only [Bool.false_eq_true, if_false]
                exact ⟨false, none, rfl, by simp, fun _ => rfl⟩
              | true =>
                simp only [if_true]
                rcases hstar with h | ⟨t2, h⟩
                · rw [h]
                  exact ⟨false, none, rfl, by simp, fun _ => rfl⟩
                · rw [h]
                  exact her2 t2

/-- `Match` always returns. -/
theorem Match_isSome (p n : GoString) : ∃ (m : Bool) (e : Option Error), Match p n = some (m, e) := by
  obtain ⟨e, _, h⟩ := matchLoop_shape (p.length + 1) p (Nat.lt_succ_self _)
  obtain ⟨m, e2, hm, _⟩ := h n
  exact ⟨m, e2, hm⟩

/-- On a malformed pattern `Match` returns, and what it returns is not a
match, whatever the name; it may or may not come with an error. -/
theorem Match_malformed_false (p n : GoString) (h : Malformed p = true) :
    ∃ e : Option Error, Match p n = some (false, e) := by
  obtain ⟨e, h1, h2⟩ := matchLoop_shape (p.length + 1) p (Nat.lt_succ_self _)
  obtain ⟨m, e2, hm, _, hfalse⟩ := h2 n
  unfold Malformed at h
  rw [decide_eq_true_eq, h1 _ (Nat.lt_succ_self _)] at h
  simp only [Option.some.injEq] at h
  subst h
  exact ⟨e2, by unfold Match; rw [hm, hfalse (by simp)]⟩

/-- An error of `Match` comes with `matched = false`, and only a malformed
pattern gets one. -/
theorem Match_error_malformed (p n : GoString) (m : Bool) (e : Error)
    (h : Match p n = some (m, some e)) : m = false ∧ Malformed p = true := by
  obtain ⟨e1, h1, h2⟩ := matchLoop_shape (p.length + 1) p (Nat.lt_succ_self _)
  obtain ⟨m1, e2, hm1, herr, hfalse⟩ := h2 n
  unfold Match at h
  rw [hm1] at h
  simp only [Option.some.injEq, Prod.mk.injEq] at h
  have hne : e1 ≠ none := herr (by rw [h.2]; simp)
  refine ⟨by rw [← h.1]; exact hfalse hne, ?_⟩
  unfold Malformed
  rw [decide_eq_true_eq, h1 _ (Nat.lt_succ_self _)]
  cases e1 with
  | none => exact absurd rfl hne
  | some x => cases x; rfl

end Filepath

/-! ## Malformed patterns in the policy engine -/

namespace Policy

theorem matchesPattern_malformed (n p : GoString) (hbad : Filepath.Malformed p = true)
    (hne : p ≠ n) (hsuf : Strings.HasSuffix p (str "/*") = false) :
    matchesPattern n p = false := by
  obtain ⟨e, h⟩ := Filepath.Match_malformed_false p n hbad
  unfold matchesPattern
  rw [if_neg (fun e => hne e.symm), hsuf, h]
  simp

theorem findBestMapping_matches (cfg : Config) (n : GoString) (i : Nat) (m : BranchMapping)
    (h : findBestMapping cfg n = some (i, m)) : matchesPattern n m.Pattern = true := by
  unfold findBestMapping at h
  rcases findBestLoop_spec n cfg.BranchMappings 0 none (-1) with ⟨he, _⟩ | ⟨j, m2, he, _, hm, _⟩
  · rw [he] at h; simp at h
  · rw [he] at h
    simp only [Option.some.injEq, Prod.mk.injEq] at h
    rw [← h.2]
    exact hm

/-- When some matching mapping has a priority of at least 0, `findBestMapping`
returns the first mapping of greatest priority among the matching ones. -/
theorem findBestMapping_selects (cfg : Config) (n : GoString)
    (h : ∃ m ∈ cfg.BranchMappings, matchesPattern n m.Pattern = true ∧ 0 ≤ m.Priority) :
    ∃ i m, findBestMapping cfg n = some (i, m) ∧ cfg.BranchMappings[i]? = some m ∧
      matchesPattern n m.Pattern = true ∧
      (∀ m2 ∈ cfg.BranchMappings, matchesPattern n m2.Pattern = true →
        m2.Priority ≤ m.Priority) ∧
      (∀ k m2, k < i → cfg.BranchMappings[k]? = some m2 →
        matchesPattern n m2.Pattern = true → m2.Priority < m.Priority) := by
  obtain ⟨m0, hm0, hmatch, hprio⟩ := h
  unfold findBestMapping
  rcases findBestLoop_spec n cfg.BranchMappings 0 none (-1) with
    ⟨_, hall⟩ | ⟨j, m, he, hj, hm, _, hmax, hfirst⟩
  · have := hall m0 hm0 hmatch
    omega
  · exact ⟨j, m, by simpa using he, hj, hm, hmax, hfirst⟩

/-- `Evaluate` reads the blocked list only in the loop of `applyPolicies`. -/
theorem Evaluate_congr_blocked (cfg : Config) (info : Git.BranchInfo) (b1 b2 : List GoString)
    (h : ∀ d, applyBlocked info.ShortName b1 d = applyBlocked info.ShortName b2 d) :
    Evaluate { cfg with Policies := { cfg.Policies with BlockedBranchPatterns := b1 } } info =
      Evaluate { cfg with Policies := { cfg.Policies with BlockedBranchPatterns := b2 } } info := by
  unfold Evaluate applyPolicies
  simp only [findBestMapping, shouldDeploy, h]

/-- Claim C8: for a pattern `p` that is syntactically malformed as a glob
(such as `[abc`), or for which `filepath.Match` reports an error on the name,
with `p` different from the name and not ending in `/*`: `filepath.Match`
returns, with `matched = false` (with or without `ErrBadPattern`), and
`matchesPattern` returns false.  `Match` returns for every pattern and name,
so `Evaluate` still returns a decision with a nil error; a mapping with
pattern `p` is never the selected one; `p` in the blocked list leaves the
decision as it is without it; and `p` in an allow-list contributes no match. -/
theorem C8_malformed_pattern_no_match (n p : GoString)
    (hbad : Filepath.Malformed p = true ∨
      ∃ (m : Bool) (e : Filepath.Error), Filepath.Match p n = some (m, some e))
    (hne : p ≠ n) (hsuf : Strings.HasSuffix p (str "/*") = false) :
    Filepath.Malformed p = true ∧
    (∃ e : Option Filepath.Error, Filepath.Match p n = some (false, e)) ∧
    matchesPattern n p = false ∧
    (∀ q name : GoString, ∃ r, Filepath.Match q name = some r) ∧
    (∀ (cfg : Config) (info : Git.BranchInfo), info.ShortName = n →
      (Evaluate cfg info).2 = none ∧
      ∀ i m, findBestMapping cfg n = some (i, m) → m.Pattern ≠ p) ∧
    (∀ (cfg : Config) (info : Git.BranchInfo) (l1 l2 : List GoString), info.ShortName = n →
      Evaluate { cfg with Policies :=
          { cfg.Policies with BlockedBranchPatterns := l1 ++ p :: l2 } } info =
        Evaluate { cfg with Policies :=
          { cfg.Policies with BlockedBranchPatterns := l1 ++ l2 } } info) ∧
    (∀ l1 l2 : List GoString,
      isBranchAllowed n (l1 ++ p :: l2) = (l1 ++ l2).any (fun q => matchesPattern n q)) := by
  have hmal : Filepath.Malformed p = true := by
    rcases hbad with h | ⟨m, e, h⟩
    · exact h
    · exact (Filepath.Match_error_malformed p n m e h).2
  have hm := matchesPattern_malformed n p hmal hne hsuf
  refine ⟨hmal, Filepath.Match_malformed_false p n hmal, hm, ?_, ?_, ?_, ?_⟩
  · intro q name
    obtain ⟨m, e, h⟩ := Filepath.Match_isSome q name
    exact ⟨(m, e), h⟩
  · intro cfg info _
    refine ⟨rfl, ?_⟩
    intro i m hsel hpat
    have := findBestMapping_matches cfg n i m hsel
    rw [hpat, hm] at this
    exact absurd this (by decide)
  · intro cfg info l1 l2 hn
    subst hn
    apply Evaluate_congr_blocked
    intro d
    rw [applyBlocked_eq, applyBlocked_eq]
    simp [List.filter_cons, hm]
  · intro l1 l2
    unfold isBranchAllowed
    simp [hm]

theorem C8_malformed_pattern_no_match_witness :
    (Filepath.Malformed (str "[abc") = true ∧ str "[abc" ≠ str "main" ∧
      Strings.HasSuffix (str "[abc") (str "/*") = false ∧
      Filepath.Match (str "[abc") (str "main") =
        some (false, some Filepath.Error.ErrBadPattern)) ∧
    (Filepath.Malformed (str "a*[") = true ∧ str "a*[" ≠ str "b" ∧
      Strings.HasSuffix (str "a*[") (str "/*") = false ∧
      Filepath.Match (str "a*[") (str "b") = some (false, none)) ∧
    matchesPattern (str "main") (str "[abc") = false ∧
    matchesPattern (str "b") (str "a*[") = false ∧
    (Evaluate malformedExample mainInfo).1.Environment = str "production" ∧
    (Evaluate malformedExample mainInfo).1.ShouldDeploy = true ∧
    (Evaluate malformedExample mainInfo).1.Warnings = [] :=
  ⟨⟨by decide, by decide, by decide, by decide⟩,
   ⟨by decide, by decide, by decide, by decide⟩,
   (C8_malformed_pattern_no_match (str "main") (str "[abc")
     (Or.inr ⟨false, Filepath.Error.ErrBadPattern, by decide⟩) (by decide) (by decide)).2.2.1,
   (C8_malformed_pattern_no_match (str "b") (str "a*[")
     (Or.inl (by decide)) (by decide) (by decide)).2.2.1,
   by decide, by decide, by decide⟩

end Policy

/-! ## Actions and warnings of a decision -/

namespace Policy

theorem Evaluate_Actions (cfg : Config) (info : Git.BranchInfo) :
    (Evaluate cfg info).1.Actions =
      if cfg.Policies.RequireTests = true ∧ str "test" ∉ baseActions cfg info then
        baseActions cfg info ++ [str "test"]
      else baseActions cfg info := by
  unfold Evaluate applyPolicies baseActions
  simp only [applyBlocked_eq, contains_eq]
  cases findBestMapping cfg info.ShortName with
  | none =>
    dsimp only
    cases cfg.Environments.get? (str "development") <;> (dsimp only; repeat' split) <;> simp_all
  | some im =>
    dsimp only
    cases cfg.Environments.get? im.2.Environment <;> (dsimp only; repeat' split) <;> simp_all

/-- Claim C11: with `base` the selected mapping's actions (empty on fallback),
the decision's actions are `base` followed by `"test"` when `RequireTests` is
set and `"test"` is not in `base`, and `base` unchanged otherwise; so with
`RequireTests` the actions contain `"test"`, and `base` always stays in front
with no second `"test"` added. -/
theorem C11_required_test_action (cfg : Config) (info : Git.BranchInfo) :
    (Evaluate cfg info).1.Actions =
      (if cfg.Policies.RequireTests = true ∧ str "test" ∉ baseActions cfg info then
        baseActions cfg info ++ [str "test"]
      else baseActions cfg info) ∧
    (cfg.Policies.RequireTests = true → str "test" ∈ (Evaluate cfg info).1.Actions) ∧
    (str "test" ∈ baseActions cfg info → (Evaluate cfg info).1.Actions = baseActions cfg info) := by
  have h := Evaluate_Actions cfg info
  refine ⟨h, ?_, ?_⟩
  · intro hr
    rw [h]
    by_cases ht : str "test" ∈ baseActions cfg info
    · simp [ht]
    · simp [hr, ht]
  · intro ht
    rw [h]
    simp [ht]

theorem C11_required_test_action_witness :
    Config.DefaultConfig.Policies.RequireTests = true ∧
    (Evaluate Config.DefaultConfig mainInfo).1.Actions
      = [str "deploy", str "notify", str "test"] ∧
    str "test" ∈ baseActions Config.DefaultConfig
      { mainInfo with ShortName := str "feature/x" } ∧
    (Evaluate Config.DefaultConfig { mainInfo with ShortName := str "feature/x" }).1.Actions
      = [str "test"] :=
  ⟨rfl,
   (C11_required_test_action Config.DefaultConfig mainInfo).1.trans (by decide),
   by decide,
   ((C11_required_test_action Config.DefaultConfig
      { mainInfo with ShortName := str "feature/x" }).2.2 (by decide)).trans (by decide)⟩

/-- Claim C12: the warnings are, in this order, the fallback warning when no
mapping was selected, the allow-list warning when the resolved environment is
configured with a non-empty `AllowedBranches` none of whose patterns matches
the short name, and one blocked-pattern warning for each matching entry of
`BlockedBranchPatterns`, in list order with multiplicity; nothing else. -/
theorem C12_warnings_exact (cfg : Config) (info : Git.BranchInfo) :
    (Evaluate cfg info).1.Warnings =
      (match findBestMapping cfg info.ShortName with
        | none => [str "No matching branch mapping found, using development environment"]
        | some _ => [])
      ++ (match cfg.Environments.get? (Evaluate cfg info).1.Environment with
        | some envConfig =>
          if envConfig.AllowedBranches ≠ [] ∧
              ∀ p ∈ envConfig.AllowedBranches, matchesPattern info.ShortName p = false then
            [str "Branch " ++ info.ShortName ++ str " may not be allowed to deploy to "
              ++ (Evaluate cfg info).1.Environment]
          else []
        | none => [])
      ++ (cfg.Policies.BlockedBranchPatterns.filter
            (fun p => matchesPattern info.ShortName p)).map
              (fun p => str "Branch matches blocked pattern: " ++ p) := by
  rw [Evaluate_Warnings, Evaluate_Environment]
  congr 2
  cases cfg.Environments.get? (resolvedEnvironment cfg info) with
  | none => rfl
  | some envConfig =>
    dsimp only
    unfold isBranchAllowed
    by_cases he : envConfig.AllowedBranches = []
    · simp [he]
    · have hl : ¬ envConfig.AllowedBranches.length = 0 := by
        simpa [List.length_eq_zero] using he
      rw [if_neg hl]
      by_cases hall : ∀ p ∈ envConfig.AllowedBranches, matchesPattern info.ShortName p = false
      · have : envConfig.AllowedBranches.any (fun p => matchesPattern info.ShortName p) = false := by
          rw [List.any_eq_false]
          intro p hp
          simp [hall p hp]
        rw [this]
        simp only [Bool.false_eq_true, if_false]
        rw [if_pos ⟨he, hall⟩]
        simp [notAllowedWarning]
      · have : envConfig.AllowedBranches.any (fun p => matchesPattern info.ShortName p) = true := by
          rw [List.any_eq_true]
          push_neg at hall
          obtain ⟨p, hp, hm⟩ := hall
          exact ⟨p, hp, by simpa using hm⟩
        rw [this]
        simp only [if_true]
        rw [if_neg (fun h => hall h.2)]

end Policy

/-! ## The classifier loop -/

namespace GoMap

theorem get?_set_self {V : Type} (m : GoMap V) (k : GoString) (v : V) :
    (m.set k v).get? k = some v := by
  induction m with
  | nil => simp [set, get?]
  | cons e m ih =>
    obtain ⟨k1, v1⟩ := e
    by_cases h : k1 = k
    · simp [set, get?, h]
    · simp [set, get?, h, ih]

theorem get?_set_of_ne {V : Type} (m : GoMap V) (k k2 : GoString) (v : V) (hne : k ≠ k2) :
    (m.set k v).get? k2 = m.get? k2 := by
  induction m with
  | nil => simp [set, get?, hne]
  | cons e m ih =>
    obtain ⟨k1, v1⟩ := e
    by_cases h : k1 = k
    · subst h
      simp [set, get?, hne]
    · by_cases h2 : k1 = k2
      · subst h2
        simp [set, get?, h]
      · simp [set, get?, h, h2, ih]

end GoMap

namespace Git

/-- Entries that do not match are passed over. -/
theorem parseLoop_skip (l1 l2 : List (GoString × BranchPattern)) (info : BranchInfo)
    (h : ∀ e ∈ l1, FindStringSubmatch e.2 info.ShortName = none) :
    parseLoop (l1 ++ l2) info = parseLoop l2 info := by
  induction l1 with
  | nil => rfl
  | cons e l1 ih =>
    obtain ⟨t, p⟩ := e
    have he : FindStringSubmatch p info.ShortName = none := h (t, p) (List.mem_cons_self _ _)
    have ih2 := ih (fun e he => h e (List.mem_cons_of_mem _ he))
    rw [List.cons_append]
    conv_lhs => unfold parseLoop
    simp only [he]
    exact ih2

/-- With no matching entry the type is `unknown` and nothing else changes. -/
theorem parseLoop_none (order : List (GoString × BranchPattern)) (info : BranchInfo)
    (h : ∀ e ∈ order, FindStringSubmatch e.2 info.ShortName = none) :
    parseLoop order info = { info with Typ := str "unknown" } := by
  have := parseLoop_skip order [] info h
  rw [List.append_nil] at this
  rw [this]
  rfl

/-- The loop returns at the first matching entry. -/
theorem parseLoop_cons_match (t : GoString) (p : BranchPattern)
    (rest : List (GoString × BranchPattern)) (info : BranchInfo)
    (h : (FindStringSubmatch p info.ShortName).isSome = true) :
    parseLoop ((t, p) :: rest) info = parseLoop [(t, p)] info := by
  obtain ⟨sub, hs⟩ := Option.isSome_iff_exists.mp h
  conv_lhs => unfold parseLoop
  conv_rhs => unfold parseLoop
  simp only [hs]

/-- When only one entry of the order matches, the result is that of this entry
alone, wherever it stands. -/
theorem parseLoop_unique (order : List (GoString × BranchPattern)) (info : BranchInfo)
    (e : GoString × BranchPattern) (he : e ∈ order)
    (hm : (FindStringSubmatch e.2 info.ShortName).isSome = true)
    (hu : ∀ e2 ∈ order, (FindStringSubmatch e2.2 info.ShortName).isSome = true → e2 = e) :
    parseLoop order info = parseLoop [e] info := by
  induction order with
  | nil => simp at he
  | cons a order ih =>
    by_cases ha : (FindStringSubmatch a.2 info.ShortName).isSome = true
    · have hae := hu a (List.mem_cons_self _ _) ha
      subst hae
      exact parseLoop_cons_match a.1 a.2 order info ha
    · have hnone : FindStringSubmatch a.2 info.ShortName = none := by
        simpa using ha
      have hne : e ≠ a := by
        rintro rfl
        exact ha hm
      have he2 : e ∈ order := by
        rcases List.mem_cons.mp he with h | h
        · exact absurd h hne
        · exact h
      have := parseLoop_skip [a] order info (by simpa using hnone)
      rw [List.singleton_append] at this
      rw [this]
      exact ih he2 (fun e2 h2 => hu e2 (List.mem_cons_of_mem _ h2))

theorem FindStringSubmatch_family (p name : GoString) :
    FindStringSubmatch (BranchPattern.family p) name =
      if (p ++ [Filepath.Separator]).isPrefixOf name = true ∧
          name.drop (p ++ [Filepath.Separator]).length ≠ [] ∧
          ¬ (name.drop (p ++ [Filepath.Separator]).length).contains 10 = true then
        some [name, name.drop (p ++ [Filepath.Separator]).length]
      else none := rfl

/-- A name that matches an entry of `patterns` begins with the first letter of
the entry's type. -/
theorem head_of_match (e : GoString × BranchPattern) (he : e ∈ patterns) (name : GoString)
    (hm : (FindStringSubmatch e.2 name).isSome = true) : name.head? = e.1.head? := by
  have hfam : ∀ p : GoString, p ≠ [] →
      (FindStringSubmatch (BranchPattern.family p) name).isSome = true →
      name.head? = p.head? := by
    intro p hp h
    rw [FindStringSubmatch_family] at h
    split at h
    · rename_i hc
      have hpre := List.isPrefixOf_iff_prefix.mp hc.1
      obtain ⟨t, ht⟩ := hpre
      rw [← ht]
      cases p with
      | nil => exact absurd rfl hp
      | cons c p => rfl
    · simp at h
  have heither : ∀ a b : GoString,
      (FindStringSubmatch (BranchPattern.either a b) name).isSome = true →
      name = a ∨ name = b := by
    intro a b h
    unfold FindStringSubmatch at h
    dsimp only at h
    split at h
    · assumption
    · simp at h
  have hexact : ∀ a : GoString,
      (FindStringSubmatch (BranchPattern.exact a) name).isSome = true → name = a := by
    intro a h
    unfold FindStringSubmatch at h
    dsimp only at h
    split at h
    · assumption
    · simp at h
  simp only [patterns, List.mem_cons, List.mem_singleton, List.not_mem_nil, or_false] at he
  rcases he with rfl | rfl | rfl | rfl | rfl | rfl | rfl
  · exact hfam _ (by decide) hm
  · exact hfam _ (by decide) hm
  · exact hfam _ (by decide) hm
  · exact hfam _ (by decide) hm
  · rcases heither _ _ hm with h | h <;> (subst h; decide)
  · rw [hexact _ hm]
  · rcases heither _ _ hm with h | h <;> (subst h; decide)

/-- No branch name matches two of the seven patterns. -/
theorem patterns_exclusive (name : GoString) (e1 e2 : GoString × BranchPattern)
    (h1 : e1 ∈ patterns) (h2 : e2 ∈ patterns)
    (m1 : (FindStringSubmatch e1.2 name).isSome = true)
    (m2 : (FindStringSubmatch e2.2 name).isSome = true) : e1 = e2 := by
  have hh : e1.1.head? = e2.1.head? := by
    rw [← head_of_match e1 h1 name m1, ← head_of_match e2 h2 name m2]
  have key : ∀ a ∈ patterns, ∀ b ∈ patterns, a.1.head? = b.1.head? → a = b := by decide
  exact key e1 h1 e2 h2 hh

/-- Under any iteration order of the map, a name that matches an entry of
`patterns` is classified by that entry alone. -/
theorem parseLoop_perm (order : List (GoString × BranchPattern)) (hp : order.Perm patterns)
    (info : BranchInfo) (e : GoString × BranchPattern) (he : e ∈ patterns)
    (hm : (FindStringSubmatch e.2 info.ShortName).isSome = true) :
    parseLoop order info = parseLoop [e] info := by
  apply parseLoop_unique order info e (hp.mem_iff.mpr he) hm
  intro e2 h2 m2
  exact patterns_exclusive info.ShortName e2 e (hp.mem_iff.mp h2) he m2 hm

end Git

/-! ## Claims about `parseBranchType` -/

namespace Git

theorem isSome_either (a b name : GoString) :
    (FindStringSubmatch (BranchPattern.either a b) name).isSome = true ↔
      name = a ∨ name = b := by
  unfold FindStringSubmatch
  dsimp only
  split <;> simp [*]

theorem isSome_exact (a name : GoString) :
    (FindStringSubmatch (BranchPattern.exact a) name).isSome = true ↔ name = a := by
  unfold FindStringSubmatch
  dsimp only
  split <;> simp [*]

/-- A name `p/rest` with a non-empty, newline-free `rest` matches `^p/(.+)$`,
and the group is `rest`. -/
theorem FindStringSubmatch_family_eq (p rest : GoString) (hne : rest ≠ [])
    (hnl : (10 : UInt8) ∉ rest) :
    FindStringSubmatch (BranchPattern.family p) (p ++ str "/" ++ rest) =
      some [p ++ str "/" ++ rest, rest] := by
  have hs : str "/" = [Filepath.Separator] := by decide
  rw [FindStringSubmatch_family, hs]
  have hpre : (p ++ [Filepath.Separator]).isPrefixOf (p ++ [Filepath.Separator] ++ rest) = true :=
    List.isPrefixOf_iff_prefix.mpr (List.prefix_append _ _)
  have hdrop : (p ++ [Filepath.Separator] ++ rest).drop (p ++ [Filepath.Separator]).length = rest :=
    List.drop_left _ _
  rw [hdrop, if_pos ⟨hpre, hne, by simpa using hnl⟩]

/-- The type set by a single matching entry. -/
theorem parseLoop_single_Typ (e : GoString × BranchPattern) (info : BranchInfo)
    (hm : (FindStringSubmatch e.2 info.ShortName).isSome = true) :
    (parseLoop [e] info).Typ = e.1 := by
  obtain ⟨sub, hs⟩ := Option.isSome_iff_exists.mp hm
  obtain ⟨t, p⟩ := e
  unfold parseLoop
  simp only [hs]
  split
  · split <;> rfl
  · rfl

/-- Under any iteration order, the type is that of the matching entry, or
`unknown` when there is none. -/
theorem parseLoop_Typ_iff (order : List (GoString × BranchPattern)) (hp : order.Perm patterns)
    (info : BranchInfo) (t : GoString) :
    (parseLoop order info).Typ = t ↔
      (∃ e ∈ patterns, (FindStringSubmatch e.2 info.ShortName).isSome = true ∧ e.1 = t) ∨
      ((∀ e ∈ patterns, FindStringSubmatch e.2 info.ShortName = none) ∧ t = str "unknown") := by
  by_cases hex : ∃ e ∈ patterns, (FindStringSubmatch e.2 info.ShortName).isSome = true
  · obtain ⟨e, he, hm⟩ := hex
    rw [parseLoop_perm order hp info e he hm, parseLoop_single_Typ e info hm]
    constructor
    · intro h
      exact Or.inl ⟨e, he, hm, h⟩
    · rintro (⟨e2, he2, hm2, h2⟩ | ⟨hnone, _⟩)
      · rw [← patterns_exclusive info.ShortName e2 e he2 he hm2 hm]
        exact h2
      · rw [hnone e he] at hm
        simp at hm
  · have hnone : ∀ e ∈ patterns, FindStringSubmatch e.2 info.ShortName = none := by
      intro e he
      by_contra h
      exact hex ⟨e, he, by simpa [Option.isSome_iff_ne_none] using h⟩
    rw [parseLoop_none order info (fun e he => hnone e (hp.mem_iff.mp he))]
    constructor
    · intro h
      exact Or.inr ⟨hnone, h.symm⟩
    · rintro (⟨e2, he2, hm2, _⟩ | ⟨_, h⟩)
      · exact absurd ⟨e2, he2, hm2⟩ hex
      · exact h.symm

/-- Claim C15: for `p` one of `feature`, `hotfix`, `bugfix`, `release` and a
short name `p/rest` that matches `^p/(.+)$` (`rest` non-empty; `.` does not
match a newline), `parseBranchType` sets the type to `p` and
`metadata["suffix"]` to `rest`, the whole text after the first slash, whatever
the iteration order of the pattern map. -/
theorem C15_prefixed_families (order : List (GoString × BranchPattern))
    (hp : order.Perm patterns) (info : BranchInfo) (p rest : GoString)
    (hpmem : p ∈ [str "feature", str "hotfix", str "bugfix", str "release"])
    (hname : info.ShortName = p ++ str "/" ++ rest) (hne : rest ≠ [])
    (hnl : (10 : UInt8) ∉ rest) :
    (parseBranchType order info).Typ = p ∧
    (parseBranchType order info).Metadata.get? (str "suffix") = some rest := by
  have hfind := FindStringSubmatch_family_eq p rest hne hnl
  rw [← hname] at hfind
  have he : (p, BranchPattern.family p) ∈ patterns := by
    simp only [List.mem_cons, List.mem_singleton, List.not_mem_nil, or_false] at hpmem
    rcases hpmem with rfl | rfl | rfl | rfl <;> decide
  have hm : (FindStringSubmatch (p, BranchPattern.family p).2 info.ShortName).isSome = true := by
    rw [hfind]; rfl
  unfold parseBranchType
  rw [parseLoop_perm order hp info _ he hm]
  unfold parseLoop
  simp only [hfind]
  have hk : str "ticket" ≠ str "suffix" := by decide
  split
  · exact ⟨rfl, by
      dsimp only
      rw [GoMap.get?_set_of_ne _ _ _ _ hk, GoMap.get?_set_self]⟩
  · exact ⟨rfl, by
      dsimp only
      rw [GoMap.get?_set_self]⟩

theorem C15_prefixed_families_witness :
    (patterns.Perm patterns ∧
      str "feature" ∈ [str "feature", str "hotfix", str "bugfix", str "release"] ∧
      (freshInfo (str "feature/a/b")).ShortName = str "feature" ++ str "/" ++ str "a/b" ∧
      str "a/b" ≠ [] ∧ (10 : UInt8) ∉ str "a/b") ∧
    (parseBranchType patterns (freshInfo (str "feature/a/b"))).Typ = str "feature" ∧
    (parseBranchType patterns (freshInfo (str "feature/a/b"))).Metadata.get? (str "suffix")
      = some (str "a/b") :=
  ⟨⟨List.Perm.refl _, by decide, by decide, by decide, by decide⟩,
   C15_prefixed_families patterns (List.Perm.refl _) (freshInfo (str "feature/a/b"))
     (str "feature") (str "a/b") (by decide) (by decide) (by decide) (by decide)⟩

/-- Claim C16: under any iteration order of the pattern map, `parseBranchType`
yields type `main` exactly for the names `main` and `master`, type `develop`
exactly for `develop` and `development`, and type `staging` exactly for
`staging`; and the classifier marks `main` and `master` as protected. -/
theorem C16_whole_string_types (order : List (GoString × BranchPattern))
    (hp : order.Perm patterns) (info : BranchInfo) :
    ((parseBranchType order info).Typ = str "main" ↔
      info.ShortName = str "main" ∨ info.ShortName = str "master") ∧
    ((parseBranchType order info).Typ = str "develop" ↔
      info.ShortName = str "develop" ∨ info.ShortName = str "development") ∧
    ((parseBranchType order info).Typ = str "staging" ↔ info.ShortName = str "staging") ∧
    (classify order (str "main")).IsProtected = true ∧
    (classify order (str "master")).IsProtected = true := by
  have key : ∀ (t : GoString) (pat : BranchPattern), (t, pat) ∈ patterns →
      (∀ e ∈ patterns, e.1 = t → e = (t, pat)) → t ≠ str "unknown" →
      ((parseBranchType order info).Typ = t ↔
        (FindStringSubmatch pat info.ShortName).isSome = true) := by
    intro t pat hmem huniq hunk
    unfold parseBranchType
    rw [parseLoop_Typ_iff order hp info t]
    constructor
    · rintro (⟨e, he, hm, het⟩ | ⟨_, h⟩)
      · rw [huniq e he het] at hm
        exact hm
      · exact absurd h hunk
    · intro hm
      exact Or.inl ⟨(t, pat), hmem, hm, rfl⟩
  refine ⟨?_, ?_, ?_, ?_, ?_⟩
  · rw [key (str "main") (BranchPattern.either (str "main") (str "master")) (by decide)
      (by decide) (by decide), isSome_either]
  · rw [key (str "develop") (BranchPattern.either (str "develop") (str "development"))
      (by decide) (by decide) (by decide), isSome_either]
  · rw [key (str "staging") (BranchPattern.exact (str "staging")) (by decide) (by decide)
      (by decide), isSome_exact]
  · rw [classify_IsProtected]; decide
  · rw [classify_IsProtected]; decide

theorem C16_whole_string_types_witness :
    patterns.Perm patterns ∧
    (parseBranchType patterns (freshInfo (str "master"))).Typ = str "main" ∧
    (parseBranchType patterns (freshInfo (str "development"))).Typ = str "develop" ∧
    (parseBranchType patterns (freshInfo (str "staging"))).Typ = str "staging" ∧
    (parseBranchType patterns (freshInfo (str "Main"))).Typ ≠ str "main" :=
  ⟨List.Perm.refl _,
   (C16_whole_string_types patterns (List.Perm.refl _) (freshInfo (str "master"))).1.mpr
     (by decide),
   (C16_whole_string_types patterns (List.Perm.refl _) (freshInfo (str "development"))).2.1.mpr
     (by decide),
   (C16_whole_string_types patterns (List.Perm.refl _) (freshInfo (str "staging"))).2.2.1.mpr
     (by decide),
   fun h => absurd
     ((C16_whole_string_types patterns (List.Perm.refl _) (freshInfo (str "Main"))).1.mp h)
     (by decide)⟩

/-- Claim C19: for a name that matches none of the seven patterns,
`parseBranchType` sets the type to `unknown` and changes nothing else, so the
metadata map is the one passed in (an empty map has no `suffix` and no `ticket`
key), whatever the iteration order; and `random-branch` is not protected. -/
theorem C19_unknown_branches (order : List (GoString × BranchPattern))
    (hp : order.Perm patterns) (info : BranchInfo)
    (h : ∀ e ∈ patterns, FindStringSubmatch e.2 info.ShortName = none) :
    parseBranchType order info = { info with Typ := str "unknown" } ∧
    (parseBranchType order info).Metadata = info.Metadata ∧
    (info.Metadata = [] →
      (parseBranchType order info).Metadata.get? (str "suffix") = none ∧
      (parseBranchType order info).Metadata.get? (str "ticket") = none) ∧
    (classify order (str "random-branch")).IsProtected = false := by
  have h1 : parseBranchType order info = { info with Typ := str "unknown" } :=
    parseLoop_none order info (fun e he => h e (hp.mem_iff.mp he))
  refine ⟨h1, by rw [h1], ?_, ?_⟩
  · intro hm
    rw [h1]
    dsimp only
    rw [hm]
    exact ⟨rfl, rfl⟩
  · rw [classify_IsProtected]; decide

theorem C19_unknown_branches_witness :
    (patterns.Perm patterns ∧
      (∀ e ∈ patterns, FindStringSubmatch e.2 (freshInfo (str "random-branch")).ShortName = none) ∧
      (∀ e ∈ patterns, FindStringSubmatch e.2 (freshInfo (str "feature/")).ShortName = none)) ∧
    parseBranchType patterns (freshInfo (str "random-branch"))
      = { freshInfo (str "random-branch") with Typ := str "unknown" } ∧
    parseBranchType patterns (freshInfo (str "feature/"))
      = { freshInfo (str "feature/") with Typ := str "unknown" } :=
  ⟨⟨List.Perm.refl _, by decide, by decide⟩,
   (C19_unknown_branches patterns (List.Perm.refl _) (freshInfo (str "random-branch"))
     (by decide)).1,
   (C19_unknown_branches patterns (List.Perm.refl _) (freshInfo (str "feature/"))
     (by decide)).1⟩

/-- Claim C20, at a failing input: for the branch `main` both classifiers set
the type to `main` and `metadata["suffix"]` to the whole name `main`, because
`^(main|master)$` has a capture group; the short name is not
`type + "/" + suffix`. -/
theorem C20_suffix_of_main :
    (classify patterns (str "main")).Typ = str "main" ∧
    (classify patterns (str "main")).Metadata.get? (str "suffix") = some (str "main") ∧
    (classify patterns (str "main")).ShortName ≠ str "main" ++ str "/" ++ str "main" ∧
    (Detector.GetBranchInfo Detector.compileBranchPatterns (str "main")).1.Typ = str "main" ∧
    (Detector.GetBranchInfo Detector.compileBranchPatterns (str "main")).1.Metadata.get?
      (str "suffix") = some (str "main") ∧
    (classify patterns (str "staging")).Metadata.get? (str "suffix") = none := by
  decide

end Git

/-! ## The ticket search -/

namespace Git

theorem takeWhile_append_stop (p : UInt8 → Bool) (u : GoString) (x : UInt8) (r : GoString)
    (hu : ∀ c ∈ u, p c = true) (hx : p x = false) :
    (u ++ x :: r).takeWhile p = u ∧ (u ++ x :: r).dropWhile p = x :: r := by
  induction u with
  | nil => simp [List.takeWhile, List.dropWhile, hx]
  | cons c u ih =>
    have hc := hu c (List.mem_cons_self _ _)
    have ih2 := ih (fun d hd => hu d (List.mem_cons_of_mem _ hd))
    simp [List.takeWhile, List.dropWhile, hc, ih2]

theorem dropWhile_head (p : UInt8 → Bool) (l : GoString) (c : UInt8)
    (h : (l.dropWhile p).head? = some c) : p c = false := by
  induction l with
  | nil => simp at h
  | cons a l ih =>
    by_cases ha : p a = true
    · simp only [List.dropWhile, ha] at h
      exact ih h
    · simp only [List.dropWhile, ha] at h
      simp only [List.head?_cons, Option.some.injEq] at h
      rw [← h]
      simpa using ha

theorem takeWhile_all (p : UInt8 → Bool) (l : GoString) : ∀ c ∈ l.takeWhile p, p c = true := by
  induction l with
  | nil => simp
  | cons a l ih =>
    by_cases ha : p a = true
    · simp only [List.takeWhile, ha]
      intro c hc
      rcases List.mem_cons.mp hc with rfl | hc
      · exact ha
      · exact ih c hc
    · simp [List.takeWhile, ha]

theorem takeWhile_dropWhile_append (p : UInt8 → Bool) (l : GoString) :
    l.takeWhile p ++ l.dropWhile p = l := by
  induction l with
  | nil => rfl
  | cons a l ih =>
    by_cases ha : p a = true
    · simp [List.takeWhile, List.dropWhile, ha, ih]
    · simp [List.takeWhile, List.dropWhile, ha]

/-- A match at the start of `s` is a ticket, and the byte after it is no digit. -/
theorem ticketAt_some (s t : GoString) (h : ticketAt s = some t) :
    ∃ post : GoString, s = t ++ post ∧ IsTicket t ∧
      ∀ c, post.head? = some c → isDigit c = false := by
  unfold ticketAt at h
  dsimp only at h
  split at h
  · simp at h
  · rename_i c rest hd
    split at h
    · rename_i hc
      simp only [Option.some.injEq] at h
      obtain ⟨h1, h2, h3⟩ := hc
      refine ⟨rest.dropWhile isDigit, ?_, ?_, ?_⟩
      · have e1 := takeWhile_dropWhile_append isUpper s
        have e2 := takeWhile_dropWhile_append isDigit rest
        rw [hd] at e1
        rw [← h]
        conv_lhs => rw [← e1, ← e2]
        simp
      · rw [← h]
        exact ⟨_, _, by rw [h2], h1, h3, takeWhile_all _ _, takeWhile_all _ _⟩
      · intro d hd2
        exact dropWhile_head isDigit rest d hd2
    · simp at h

/-- Where a ticket starts, `ticketAt` finds a match. -/
theorem ticketAt_complete (t post : GoString) (h : IsTicket t) :
    ∃ t2, ticketAt (t ++ post) = some t2 := by
  obtain ⟨u, d, ht, hu, hd, hup, hdig⟩ := h
  subst ht
  have hx : isUpper Filepath.bDash = false := by decide
  have hs : u ++ Filepath.bDash :: d ++ post = u ++ Filepath.bDash :: (d ++ post) := by simp
  obtain ⟨h1, h2⟩ := takeWhile_append_stop isUpper u Filepath.bDash (d ++ post) hup hx
  unfold ticketAt
  dsimp only
  rw [hs, h1, h2]
  dsimp only
  have hdne : (d ++ post).takeWhile isDigit ≠ [] := by
    cases d with
    | nil => exact absurd rfl hd
    | cons a d =>
      have ha := hdig a (List.mem_cons_self _ _)
      simp [List.takeWhile, ha]
  rw [if_pos ⟨hu, rfl, hdne⟩]
  exact ⟨_, rfl⟩

/-- The search returns the first position at which `ticketAt` matches. -/
theorem findTicket_some (s t : GoString) (h : findTicket s = some t) :
    ∃ pre post : GoString, s = pre ++ t ++ post ∧ ticketAt (t ++ post) = some t ∧
      ∀ k, k < pre.length → ticketAt (s.drop k) = none := by
  induction s with
  | nil => simp [findTicket] at h
  | cons c s ih =>
    unfold findTicket at h
    cases hta : ticketAt (c :: s) with
    | some t2 =>
      rw [hta] at h
      simp only [Option.some.injEq] at h
      subst h
      obtain ⟨post, hs, _, _⟩ := ticketAt_some _ _ hta
      refine ⟨[], post, by simpa using hs, by rw [← hs]; exact hta, ?_⟩
      intro k hk
      simp at hk
    | none =>
      rw [hta] at h
      obtain ⟨pre, post, hs, hat, hfirst⟩ := ih h
      refine ⟨c :: pre, post, by simp [hs], hat, ?_⟩
      intro k hk
      cases k with
      | zero => exact hta
      | succ k =>
        simp only [List.drop_succ_cons]
        exact hfirst k (by simpa using hk)

theorem findTicket_none (s : GoString) (h : findTicket s = none) (k : Nat) :
    ticketAt (s.drop k) = none := by
  induction s generalizing k with
  | nil => simp [ticketAt]
  | cons c s ih =>
    unfold findTicket at h
    cases hta : ticketAt (c :: s) with
    | some t2 => rw [hta] at h; simp at h
    | none =>
      rw [hta] at h
      cases k with
      | zero => exact hta
      | succ k =>
        simp only [List.drop_succ_cons]
        exact ih h k

/-- The classifier's `ticket` entry is the result of the search in the text it
stored as `suffix`, under any iteration order. -/
theorem parseLoop_ticket (order : List (GoString × BranchPattern)) (name sfx : GoString)
    (h : (parseLoop order (freshInfo name)).Metadata.get? (str "suffix") = some sfx) :
    (parseLoop order (freshInfo name)).Metadata.get? (str "ticket") = findTicket sfx := by
  induction order with
  | nil => simp [parseLoop, freshInfo, GoMap.get?] at h
  | cons e order ih =>
    obtain ⟨t, p⟩ := e
    unfold parseLoop at h ⊢
    cases hf : FindStringSubmatch p (freshInfo name).ShortName with
    | none =>
      simp only [hf] at h ⊢
      exact ih h
    | some sub =>
      simp only [hf] at h ⊢
      have hk : str "ticket" ≠ str "suffix" := by decide
      match sub, h with
      | [], h => simp [freshInfo, GoMap.get?] at h
      | [_], h => simp [freshInfo, GoMap.get?] at h
      | _ :: m1 :: _, h =>
        dsimp only at h ⊢
        cases hft : findTicket m1 with
        | none =>
          simp only [hft] at h ⊢
          rw [GoMap.get?_set_self] at h
          simp only [Option.some.injEq] at h
          subst h
          rw [hft]
          rfl
        | some tk =>
          simp only [hft] at h ⊢
          rw [GoMap.get?_set_of_ne _ _ _ _ hk, GoMap.get?_set_self] at h
          simp only [Option.some.injEq] at h
          subst h
          rw [GoMap.get?_set_self, hft]

end Git

namespace Git

theorem classify_Metadata (order : List (GoString × BranchPattern)) (name : GoString) :
    (classify order name).Metadata = (parseLoop order (freshInfo name)).Metadata := rfl

theorem IsTicket.cons {c : UInt8} {t : GoString} (hc : isUpper c = true) (h : IsTicket t) :
    IsTicket (c :: t) := by
  obtain ⟨u, d, ht, _, hd, hup, hdig⟩ := h
  refine ⟨c :: u, d, by rw [ht]; rfl, by simp, hd, ?_, hdig⟩
  intro x hx
  rcases List.mem_cons.mp hx with rfl | hx
  · exact hc
  · exact hup x hx

/-- Claim C18: when the classifier has stored a suffix, `metadata["ticket"]` is
set exactly when the suffix contains a text of upper-case letters, a hyphen and
digits; its value is then the leftmost such text in the suffix with all the
digits after the hyphen: the byte after it is no digit and the byte before it
no upper-case letter. -/
theorem C18_ticket_extraction (order : List (GoString × BranchPattern)) (name sfx : GoString)
    (h : (classify order name).Metadata.get? (str "suffix") = some sfx) :
    (((classify order name).Metadata.get? (str "ticket")).isSome = true ↔
      ∃ pre t post : GoString, sfx = pre ++ t ++ post ∧ IsTicket t) ∧
    (∀ tk, (classify order name).Metadata.get? (str "ticket") = some tk →
      ∃ pre post : GoString, sfx = pre ++ tk ++ post ∧ IsTicket tk ∧
        (∀ pre2 t2 post2 : GoString, sfx = pre2 ++ t2 ++ post2 → IsTicket t2 →
          pre.length ≤ pre2.length) ∧
        (∀ c, post.head? = some c → isDigit c = false) ∧
        (∀ c, pre.getLast? = some c → isUpper c = false)) := by
  rw [classify_Metadata] at h ⊢
  have ht := parseLoop_ticket order name sfx h
  rw [ht]
  have occ : ∀ pre2 t2 post2 : GoString, sfx = pre2 ++ t2 ++ post2 → IsTicket t2 →
      ∃ t3, ticketAt (sfx.drop pre2.length) = some t3 := by
    intro pre2 t2 post2 hs h2
    have : sfx.drop pre2.length = t2 ++ post2 := by
      rw [hs, List.append_assoc, List.drop_left]
    rw [this]
    exact ticketAt_complete t2 post2 h2
  have val : ∀ tk, findTicket sfx = some tk →
      ∃ pre post : GoString, sfx = pre ++ tk ++ post ∧ IsTicket tk ∧
        (∀ pre2 t2 post2 : GoString, sfx = pre2 ++ t2 ++ post2 → IsTicket t2 →
          pre.length ≤ pre2.length) ∧
        (∀ c, post.head? = some c → isDigit c = false) ∧
        (∀ c, pre.getLast? = some c → isUpper c = false) := by
    intro tk hf
    obtain ⟨pre, post, hs, hat, hfirst⟩ := findTicket_some sfx tk hf
    obtain ⟨post2, hp2, htk, hdig⟩ := ticketAt_some _ _ hat
    have hpost : post = post2 := List.append_cancel_left hp2
    subst hpost
    have left : ∀ pre2 t2 post2 : GoString, sfx = pre2 ++ t2 ++ post2 → IsTicket t2 →
        pre.length ≤ pre2.length := by
      intro pre2 t2 post2 hs2 h2
      by_contra hlt
      obtain ⟨t3, h3⟩ := occ pre2 t2 post2 hs2 h2
      rw [hfirst pre2.length (by omega)] at h3
      simp at h3
    refine ⟨pre, post, hs, htk, left, hdig, ?_⟩
    intro c hc
    by_contra hup
    have hup2 : isUpper c = true := by simpa using hup
    obtain ⟨pre1, hpre⟩ : ∃ pre1, pre = pre1 ++ [c] := by
      rcases List.eq_nil_or_concat pre with hnil | ⟨l, b, hl⟩
      · rw [hnil] at hc; simp at hc
      · rw [hl, List.concat_eq_append, List.getLast?_concat] at hc
        simp only [Option.some.injEq] at hc
        exact ⟨l, by rw [hl, hc]; simp⟩
    have := left pre1 (c :: tk) post (by rw [hs, hpre]; simp) (IsTicket.cons hup2 htk)
    rw [hpre] at this
    simp at this
  refine ⟨?_, fun tk htk => val tk (ht ▸ htk)⟩
  constructor
  · intro hsome
    obtain ⟨tk, htk⟩ := Option.isSome_iff_exists.mp hsome
    obtain ⟨pre, post, hs, hI, _⟩ := val tk htk
    exact ⟨pre, tk, post, hs, hI⟩
  · rintro ⟨pre, t, post, hs, hI⟩
    by_contra hn
    have hnone : findTicket sfx = none := by simpa using hn
    obtain ⟨t3, h3⟩ := occ pre t post hs hI
    rw [findTicket_none sfx hnone] at h3
    simp at h3

theorem C18_ticket_extraction_witness :
    (classify patterns (str "feature/JIRA-123-user-auth")).Metadata.get? (str "suffix")
      = some (str "JIRA-123-user-auth") ∧
    (classify patterns (str "feature/JIRA-123-user-auth")).Metadata.get? (str "ticket")
      = some (str "JIRA-123") ∧
    ∃ pre post : GoString, str "JIRA-123-user-auth" = pre ++ str "JIRA-123" ++ post ∧
      IsTicket (str "JIRA-123") :=
  have h := C18_ticket_extraction patterns (str "feature/JIRA-123-user-auth")
    (str "JIRA-123-user-auth") (by decide)
  have h2 := h.2 (str "JIRA-123") (by decide)
  ⟨by decide, by decide, h2.choose, h2.choose_spec.choose,
    h2.choose_spec.choose_spec.1, h2.choose_spec.choose_spec.2.1⟩

end Git

/-! ## Claims about checkProtected -/

namespace Strings

theorem DecodeRuneInString_ascii (c : UInt8) (rest : GoString) (h : c.toNat < 128) :
    Utf8.DecodeRuneInString (c :: rest) = (c.toNat, 1) := by
  unfold Utf8.DecodeRuneInString
  simp [Utf8.first, h]

theorem runesFrom_ascii (s : GoString) (h : IsASCII s) :
    runesFrom s 0 = s.map (fun c => c.toNat) := by
  induction s with
  | nil => rfl
  | cons c s ih =>
    have hc : c.toNat < 128 := h c (List.mem_cons_self _ _)
    have hs : IsASCII s := fun d hd => h d (List.mem_cons_of_mem _ hd)
    rw [runesFrom, DecodeRuneInString_ascii c s hc]
    simp [ih hs]

theorem foldEq_ascii (a b : Nat) (ha : a < 128) (hb : b < 128) :
    foldEq a b = true ↔ lowerCode a = lowerCode b := by
  unfold foldEq lowerCode
  by_cases hab : b = a
  · simp [hab]
  · have hhi : max a b < 0x80 := Nat.max_lt.mpr ⟨ha, hb⟩
    rw [if_neg hab]
    dsimp only
    rw [if_pos hhi, decide_eq_true_eq]
    clear hhi
    rcases Nat.lt_or_gt_of_ne hab with hlt | hlt
    · have hmin : min a b = b := Nat.min_eq_right (Nat.le_of_lt hlt)
      have hmax : max a b = a := Nat.max_eq_left (Nat.le_of_lt hlt)
      simp only [hmin, hmax]
      clear hmin hmax
      split_ifs <;> constructor <;> intro h <;> (unfold Rune at *; omega)
    · have hmin : min a b = a := Nat.min_eq_left (Nat.le_of_lt hlt)
      have hmax : max a b = b := Nat.max_eq_right (Nat.le_of_lt hlt)
      simp only [hmin, hmax]
      clear hmin hmax
      split_ifs <;> constructor <;> intro h <;> (unfold Rune at *; omega)

theorem equalFoldRunes_ascii (s t : List Nat) (hs : ∀ a ∈ s, a < 128) (ht : ∀ b ∈ t, b < 128) :
    equalFoldRunes s t = true ↔ s.map lowerCode = t.map lowerCode := by
  induction s generalizing t with
  | nil =>
    cases t <;> simp [equalFoldRunes]
  | cons a s ih =>
    cases t with
    | nil => simp [equalFoldRunes]
    | cons b t =>
      have ha := hs a (List.mem_cons_self _ _)
      have hb := ht b (List.mem_cons_self _ _)
      have ih2 := ih t (fun x hx => hs x (List.mem_cons_of_mem _ hx))
        (fun x hx => ht x (List.mem_cons_of_mem _ hx))
      unfold equalFoldRunes
      by_cases hf : foldEq a b = true
      · have := (foldEq_ascii a b ha hb).mp hf
        simp [hf, ih2, this]
      · have : ¬ lowerCode a = lowerCode b := fun e => hf ((foldEq_ascii a b ha hb).mpr e)
        simp [hf, this]

/-- On ASCII strings `EqualFold` is equality ignoring the case of letters. -/
theorem EqualFold_ascii (s t : GoString) (hs : IsASCII s) (ht : IsASCII t) :
    EqualFold s t = true ↔ EqualIgnoreCase s t := by
  unfold EqualFold EqualIgnoreCase
  rw [runesFrom_ascii s hs, runesFrom_ascii t ht, equalFoldRunes_ascii]
  · rw [List.map_map, List.map_map]
    exact Iff.rfl
  · intro a ha
    obtain ⟨c, hc, rfl⟩ := List.mem_map.mp ha
    exact hs c hc
  · intro a ha
    obtain ⟨c, hc, rfl⟩ := List.mem_map.mp ha
    exact ht c hc

end Strings

namespace Git

/-- Claim C17: for an ASCII branch name `checkProtected` sets `IsProtected` to
true exactly when the name equals, ignoring letter case, one of `main`,
`master`, `develop`, `staging`, `production`, and to false otherwise, whatever
the flag was before; a name that contains `/` is not protected. -/
theorem C17_protection_flag (info : BranchInfo) (hascii : Strings.IsASCII info.ShortName) :
    ((checkProtected info).IsProtected = true ↔
      ∃ p ∈ [str "main", str "master", str "develop", str "staging", str "production"],
        Strings.EqualIgnoreCase info.ShortName p) ∧
    ((checkProtected info).IsProtected = false ↔
      ¬ ∃ p ∈ [str "main", str "master", str "develop", str "staging", str "production"],
        Strings.EqualIgnoreCase info.ShortName p) ∧
    (∀ b : Bool, (checkProtected { info with IsProtected := b }).IsProtected
      = (checkProtected info).IsProtected) ∧
    (Filepath.Separator ∈ info.ShortName → (checkProtected info).IsProtected = false) := by
  have hlist : ∀ p ∈ protectedBranches, Strings.IsASCII p := by decide
  have h1 : (checkProtected info).IsProtected = true ↔
      ∃ p ∈ [str "main", str "master", str "develop", str "staging", str "production"],
        Strings.EqualIgnoreCase info.ShortName p := by
    show protectedBranches.any (fun p => Strings.EqualFold info.ShortName p) = true ↔ _
    rw [List.any_eq_true]
    constructor
    · rintro ⟨p, hp, he⟩
      exact ⟨p, hp, (Strings.EqualFold_ascii _ _ hascii (hlist p hp)).mp he⟩
    · rintro ⟨p, hp, he⟩
      exact ⟨p, hp, (Strings.EqualFold_ascii _ _ hascii (hlist p hp)).mpr he⟩
  refine ⟨h1, ?_, fun _ => rfl, ?_⟩
  · rw [← h1]
    simp
  · intro hsep
    rw [← Bool.not_eq_true, h1]
    rintro ⟨p, hp, he⟩
    have hmem : Strings.lowerCode Filepath.Separator.toNat ∈
        info.ShortName.map (fun c => Strings.lowerCode c.toNat) :=
      List.mem_map.mpr ⟨_, hsep, rfl⟩
    unfold Strings.EqualIgnoreCase at he
    rw [he] at hmem
    have hno : ∀ p ∈ [str "main", str "master", str "develop", str "staging", str "production"],
        Strings.lowerCode Filepath.Separator.toNat ∉ p.map (fun c => Strings.lowerCode c.toNat) := by
      decide
    exact hno p hp hmem

theorem C17_protection_flag_witness :
    (Strings.IsASCII (freshInfo (str "MAIN")).ShortName ∧
      Strings.IsASCII (freshInfo (str "feature/test")).ShortName ∧
      Strings.IsASCII (freshInfo (str "hotfix/test")).ShortName) ∧
    (checkProtected (freshInfo (str "MAIN"))).IsProtected = true ∧
    (checkProtected (freshInfo (str "feature/test"))).IsProtected = false ∧
    (checkProtected (freshInfo (str "hotfix/test"))).IsProtected = false :=
  ⟨⟨by decide, by decide, by decide⟩,
   (C17_protection_flag (freshInfo (str "MAIN")) (by decide)).1.mpr
     ⟨str "main", by decide, by decide⟩,
   (C17_protection_flag (freshInfo (str "feature/test")) (by decide)).2.2.2 (by decide),
   (C17_protection_flag (freshInfo (str "hotfix/test")) (by decide)).2.2.2 (by decide)⟩

end Git

/-! ## Literal patterns and the mappings of the default configuration -/

namespace Filepath

theorem scanIndex_literal_end (q : GoString) (h : Literal q) :
    scanIndex q false = q.length := by
  induction q with
  | nil => rfl
  | cons c q ih =>
    obtain ⟨h1, _, h3, h4⟩ := h.head
    rw [scanIndex_cons_literal c _ h1 h3 h4, ih h.tail, List.length_cons]
    omega

theorem scanChunk_literal (c : UInt8) (q : GoString) (h : Literal (c :: q)) :
    scanChunk (c :: q) = (false, c :: q, []) := by
  have hi := scanIndex_literal_end (c :: q) h
  have hs : skipStars (c :: q) false = (false, c :: q) := by
    simp [skipStars, h.head.1]
  unfold scanChunk
  rw [hs]
  dsimp only
  rw [hi]
  simp

/-- A pattern of literal bytes matches the name equal to it and no other. -/
theorem Match_literal (q name : GoString) (h : Literal q) :
    Match q name = some (decide (name = q), none) := by
  unfold Match
  cases q with
  | nil =>
    unfold matchLoop
    simp
  | cons c q =>
    unfold matchLoop
    simp only [scanChunk_literal c q h, matchChunk_literal _ _ h]
    by_cases hp : (c :: q).isPrefixOf name = true
    · obtain ⟨t, ht⟩ := List.isPrefixOf_iff_prefix.mp hp
      subst ht
      cases t with
      | nil => simp [matchLoop]
      | cons d t => simp
    · have hne : ¬ name = c :: q := by
        rintro rfl
        exact hp (List.isPrefixOf_iff_prefix.mpr (List.prefix_refl _))
      simp [hp, hne]

end Filepath

namespace Policy

/-- A literal pattern that does not end in `/*` matches the name equal to it
and no other. -/
theorem matchesPattern_literal (n p : GoString) (hl : Filepath.Literal p)
    (hs : Strings.HasSuffix p (str "/*") = false) :
    matchesPattern n p = decide (n = p) := by
  unfold matchesPattern
  by_cases h : n = p
  · simp [h]
  · rw [if_neg h, hs, Filepath.Match_literal p n hl]
    simp [h]

/-- A pattern `q/*` matches the names that start with `q/`. -/
theorem matchesPattern_slash_star (n q : GoString) :
    matchesPattern n (q ++ str "/*") = true ↔ (q ++ str "/") <+: n := by
  unfold matchesPattern
  by_cases h : n = q ++ str "/*"
  · subst h
    simp only [if_true, true_iff]
    rw [str_slash_star, str_slash]
    exact ⟨[Filepath.bStar], by simp⟩
  · simp only [h, if_false, hasSuffix_slash_star, if_true, trimSuffix_slash_star]
    unfold Strings.HasPrefix
    exact List.isPrefixOf_iff_prefix

/-- A name matched by a pattern of the default mappings begins with the first
byte of that pattern. -/
theorem default_match_head (m : BranchMapping) (hm : m ∈ Config.DefaultConfig.BranchMappings)
    (n : GoString) (h : matchesPattern n m.Pattern = true) : n.head? = m.Pattern.head? := by
  have hlit : ∀ p : GoString, Filepath.Literal p → Strings.HasSuffix p (str "/*") = false →
      matchesPattern n p = true → n.head? = p.head? := by
    intro p hl hs hmp
    rw [matchesPattern_literal n p hl hs] at hmp
    rw [of_decide_eq_true hmp]
  have hstar : ∀ q : GoString, q ≠ [] → matchesPattern n (q ++ str "/*") = true →
      n.head? = (q ++ str "/*").head? := by
    intro q hq hmp
    obtain ⟨t, ht⟩ := (matchesPattern_slash_star n q).mp hmp
    rw [← ht]
    cases q with
    | nil => exact absurd rfl hq
    | cons c q => rfl
  simp only [Config.DefaultConfig, List.mem_cons, List.mem_singleton, List.not_mem_nil,
    or_false] at hm
  rcases hm with rfl | rfl | rfl | rfl | rfl | rfl | rfl | rfl
  · exact hlit _ (by decide) (by decide) h
  · exact hlit _ (by decide) (by decide) h
  · exact hlit _ (by decide) (by decide) h
  · exact hlit _ (by decide) (by decide) h
  · exact hstar (str "release") (by decide) h
  · exact hstar (str "feature") (by decide) h
  · exact hstar (str "bugfix") (by decide) h
  · exact hstar (str "hotfix") (by decide) h

/-- With the default configuration, when exactly the mapping `m0` has a pattern
that begins like the name, and it matches, `findBestMapping` selects `m0`. -/
theorem default_selects (n : GoString) (m0 : BranchMapping)
    (hmem : m0 ∈ Config.DefaultConfig.BranchMappings) (hprio : 0 ≤ m0.Priority)
    (hmatch : matchesPattern n m0.Pattern = true)
    (honly : ∀ m ∈ Config.DefaultConfig.BranchMappings, m.Pattern.head? = n.head? → m = m0) :
    ∃ i, findBestMapping Config.DefaultConfig n = some (i, m0) := by
  obtain ⟨i, m, hsel, hget, hm, _, _⟩ :=
    findBestMapping_selects Config.DefaultConfig n ⟨m0, hmem, hmatch, hprio⟩
  have hin : m ∈ Config.DefaultConfig.BranchMappings := List.getElem?_mem hget
  have := honly m hin (default_match_head m hin n hm).symm
  subst this
  exact ⟨i, hsel⟩

end Policy

/-! ## Decisions under the default configuration -/

namespace Policy

/-- Claim C13: with the default configuration, the classified branch `main`
gets environment `production`, `ShouldDeploy = true` and
`RequiresApproval = true`; every branch name that starts with `hotfix/` is not
protected and gets environment `staging`, `ShouldDeploy = true` and
`RequiresApproval = false`, whatever the iteration order of the classifier. -/
theorem C13_default_main_and_hotfix (order : List (GoString × Git.BranchPattern))
    (rest : GoString) :
    ((Evaluate Config.DefaultConfig (Git.classify order (str "main"))).1.Environment
        = str "production" ∧
      (Evaluate Config.DefaultConfig (Git.classify order (str "main"))).1.ShouldDeploy = true ∧
      (Evaluate Config.DefaultConfig (Git.classify order (str "main"))).1.RequiresApproval
        = true) ∧
    ((Git.classify order (str "hotfix/" ++ rest)).IsProtected = false ∧
      (Evaluate Config.DefaultConfig (Git.classify order (str "hotfix/" ++ rest))).1.Environment
        = str "staging" ∧
      (Evaluate Config.DefaultConfig (Git.classify order (str "hotfix/" ++ rest))).1.ShouldDeploy
        = true ∧
      (Evaluate Config.DefaultConfig
        (Git.classify order (str "hotfix/" ++ rest))).1.RequiresApproval = false) := by
  constructor
  · refine ⟨?_, ?_, ?_⟩
    · rw [Evaluate_Environment]
      unfold resolvedEnvironment
      rw [Git.classify_ShortName]
      decide
    · rw [Evaluate_ShouldDeploy, Git.classify_ShortName]
      decide
    · rw [Evaluate_RequiresApproval, Git.classify_IsProtected]
      unfold resolvedEnvironment
      rw [Git.classify_ShortName]
      decide
  · have hprot : (Git.classify order (str "hotfix/" ++ rest)).IsProtected = false := by
      rw [Git.classify_IsProtected]
      rfl
    have hmatch : matchesPattern (str "hotfix/" ++ rest) (str "hotfix" ++ str "/*") = true :=
      (matchesPattern_slash_star _ _).mpr ⟨rest, by
        have : str "hotfix" ++ str "/" = str "hotfix/" := by decide
        rw [this]⟩
    obtain ⟨i, hsel⟩ := default_selects (str "hotfix/" ++ rest)
      { Pattern := str "hotfix/*", Environment := str "staging",
        Actions := [str "test", str "deploy"], Priority := 70 }
      (by decide) (by decide) hmatch (by
        have hh : (str "hotfix/" ++ rest).head? = some 104 := rfl
        rw [hh]
        decide)
    refine ⟨hprot, ?_, ?_, ?_⟩
    · rw [Evaluate_Environment]
      unfold resolvedEnvironment
      rw [Git.classify_ShortName, hsel]
    · rw [Evaluate_ShouldDeploy, Git.classify_ShortName, hsel]
      rfl
    · rw [Evaluate_RequiresApproval, hprot]
      unfold resolvedEnvironment
      rw [Git.classify_ShortName, hsel]
      rfl

/-- Claim C14: with the default configuration, every branch name that starts
with `feature/` gets environment `development`, `ShouldDeploy = false`,
`RequiresApproval = false`, the actions `["test"]` and no warnings, whatever
the iteration order of the classifier. -/
theorem C14_default_feature (order : List (GoString × Git.BranchPattern)) (rest : GoString) :
    (Evaluate Config.DefaultConfig (Git.classify order (str "feature/" ++ rest))).1.Environment
      = str "development" ∧
    (Evaluate Config.DefaultConfig (Git.classify order (str "feature/" ++ rest))).1.ShouldDeploy
      = false ∧
    (Evaluate Config.DefaultConfig
      (Git.classify order (str "feature/" ++ rest))).1.RequiresApproval = false ∧
    (Evaluate Config.DefaultConfig (Git.classify order (str "feature/" ++ rest))).1.Actions
      = [str "test"] ∧
    str "test" ∈
      (Evaluate Config.DefaultConfig (Git.classify order (str "feature/" ++ rest))).1.Actions ∧
    (Evaluate Config.DefaultConfig (Git.classify order (str "feature/" ++ rest))).1.Warnings
      = [] := by
  have hprot : (Git.classify order (str "feature/" ++ rest)).IsProtected = false := by
    rw [Git.classify_IsProtected]
    rfl
  have hmatch : matchesPattern (str "feature/" ++ rest) (str "feature" ++ str "/*") = true :=
    (matchesPattern_slash_star _ _).mpr ⟨rest, by
      have : str "feature" ++ str "/" = str "feature/" := by decide
      rw [this]⟩
  have hmatch2 : matchesPattern (str "feature/" ++ rest) (str "feature/*") = true := hmatch
  obtain ⟨i, hsel⟩ := default_selects (str "feature/" ++ rest)
    { Pattern := str "feature/*", Environment := str "development",
      Actions := [str "test"], Priority := 50 }
    (by decide) (by decide) hmatch (by
      have hh : (str "feature/" ++ rest).head? = some 102 := rfl
      rw [hh]
      decide)
  have hauto : str "feature/" ++ rest ∉ Config.DefaultConfig.Policies.AutoDeployBranches := by
    intro hmem
    have hh : ∀ b ∈ Config.DefaultConfig.Policies.AutoDeployBranches,
        b.head? ≠ some 102 := by decide
    exact hh _ hmem rfl
  have hact : (Evaluate Config.DefaultConfig
      (Git.classify order (str "feature/" ++ rest))).1.Actions = [str "test"] := by
    rw [Evaluate_Actions]
    unfold baseActions
    rw [Git.classify_ShortName, hsel]
    dsimp only
    decide
  refine ⟨?_, ?_, ?_, hact, by rw [hact]; decide, ?_⟩
  · rw [Evaluate_Environment]
    unfold resolvedEnvironment
    rw [Git.classify_ShortName, hsel]
  · rw [Evaluate_ShouldDeploy, Git.classify_ShortName, hsel]
    have : shouldDeploy Config.DefaultConfig [str "test"] (str "feature/" ++ rest) = false := by
      rw [Bool.eq_false_iff, Ne, shouldDeploy_eq]
      rintro (h | h)
      · exact absurd h (by decide)
      · exact hauto h
    dsimp only
    rw [this]
    rfl
  · rw [Evaluate_RequiresApproval, hprot]
    unfold resolvedEnvironment
    rw [Git.classify_ShortName, hsel]
    rfl
  · rw [Evaluate_Warnings]
    unfold resolvedEnvironment
    rw [Git.classify_ShortName, hsel]
    have hallow : isBranchAllowed (str "feature/" ++ rest)
        [str "feature/*", str "bugfix/*", str "hotfix/*"] = true := by
      unfold isBranchAllowed
      simp [hmatch2]
    have henv : Config.DefaultConfig.Environments.get? (str "development") =
        some { Name := str "development", RequiresApproval := false,
               AllowedBranches := [str "feature/*", str "bugfix/*", str "hotfix/*"],
               Variables := [(str "ENV", str "development")], NotifyOnDeploy := false } := by
      decide
    dsimp only
    rw [henv]
    dsimp only
    rw [hallow]
    rfl

end Policy

/-! ## A newline is not matched by `.` -/

namespace Git

/-- A name with a newline after the slash does not match `^feature/(.+)$`, so
its type is `unknown`. -/
theorem family_newline_unknown :
    (parseBranchType patterns (freshInfo (str "feature/a" ++ [10] ++ str "b"))).Typ
      = str "unknown" := by
  decide

end Git

/-! ## Claims about `ValidatePolicy` -/

namespace Service

theorem duplicateLoop_append (l : List BranchMapping) (seen : List Int) (errors : List GoString) :
    duplicateLoop l seen errors = errors ++ duplicateLoop l seen [] := by
  induction l generalizing seen errors with
  | nil => simp [duplicateLoop]
  | cons m rest ih =>
    simp only [duplicateLoop]
    split_ifs with h
    · rw [ih, ih _ ([] ++ _)]; simp
    · rw [ih]

theorem duplicateLoop_congr (l : List BranchMapping) (s1 s2 : List Int) (errors : List GoString)
    (h : ∀ x, x ∈ s1 ↔ x ∈ s2) : duplicateLoop l s1 errors = duplicateLoop l s2 errors := by
  induction l generalizing s1 s2 errors with
  | nil => simp [duplicateLoop]
  | cons m rest ih =>
    simp only [duplicateLoop]
    by_cases h1 : m.Priority ∈ s1
    · have h2 : m.Priority ∈ s2 := (h _).1 h1
      rw [if_pos h1, if_pos h1, if_pos h2, if_pos h2]
      exact ih _ _ _ h
    · have h2 : ¬ m.Priority ∈ s2 := fun h3 => h1 ((h _).2 h3)
      rw [if_neg h1, if_neg h1, if_neg h2, if_neg h2]
      apply ih
      intro x
      simp only [List.mem_cons, h x]

theorem duplicateLoop_cons (m : BranchMapping) (rest : List BranchMapping) (seen : List Int) :
    duplicateLoop (m :: rest) seen [] =
      (if m.Priority ∈ seen then [duplicateProblem m.Priority] else []) ++
        duplicateLoop rest (m.Priority :: seen) [] := by
  simp only [duplicateLoop]
  by_cases h1 : m.Priority ∈ seen
  · rw [if_pos h1, if_pos h1, if_pos h1, duplicateLoop_append]
    congr 1
    apply duplicateLoop_congr
    intro x
    simp only [List.mem_cons]
    constructor
    · intro h; exact Or.inr h
    · rintro (h | h)
      · rw [h]; exact h1
      · exact h
  · rw [if_neg h1, if_neg h1, if_neg h1]
    rfl

/-- The loop reports the entries that occur in `seen` or earlier in the list. -/
theorem duplicateLoop_eq (l : List BranchMapping) (seen : List Int) :
    duplicateLoop l seen [] =
      (((List.range l.length).filter
          (fun i => (l.map (·.Priority)).getD i 0 ∈ seen ++ (l.map (·.Priority)).take i)).map
        (fun i => (l.map (·.Priority)).getD i 0)).map duplicateProblem := by
  induction l generalizing seen with
  | nil => simp [duplicateLoop]
  | cons m rest ih =>
    rw [duplicateLoop_cons, ih]
    simp only [List.length_cons, List.range_succ_eq_map, List.filter_cons, List.map_cons,
      List.getD_cons_zero, List.take_zero, List.append_nil, List.filter_map, List.map_map]
    have hf : (fun i => decide ((m.Priority :: List.map (fun x => x.Priority) rest).getD i 0 ∈
        seen ++ List.take i (m.Priority :: List.map (fun x => x.Priority) rest))) ∘ Nat.succ
        = fun i => decide ((rest.map (·.Priority)).getD i 0 ∈
          (m.Priority :: seen) ++ (rest.map (·.Priority)).take i) := by
      funext i
      simp only [Function.comp, List.getD_cons_succ, List.take_succ_cons, List.mem_append,
        List.mem_cons, decide_eq_decide]
      tauto
    rw [hf]
    by_cases h1 : m.Priority ∈ seen
    · simp [h1, Function.comp_def]
    · simp [h1, Function.comp_def]

theorem duplicateLoop_length (l : List BranchMapping) (seen : List Int) :
    (duplicateLoop l seen []).length + ((l.map (·.Priority)).toFinset \ seen.toFinset).card
      = l.length := by
  induction l generalizing seen with
  | nil => simp [duplicateLoop]
  | cons m rest ih =>
    rw [duplicateLoop_cons]
    have ih1 := ih (m.Priority :: seen)
    by_cases h1 : m.Priority ∈ seen
    · rw [if_pos h1]
      have : (List.map (fun x => x.Priority) (m :: rest)).toFinset \ seen.toFinset
          = (List.map (fun x => x.Priority) rest).toFinset \ (m.Priority :: seen).toFinset := by
        ext x
        simp only [List.map_cons, List.toFinset_cons, Finset.mem_sdiff, Finset.mem_insert,
          List.mem_toFinset]
        constructor
        · rintro ⟨h | h, h2⟩
          · exact absurd (h ▸ h1) h2
          · exact ⟨h, fun h3 => h3.elim (fun h4 => h2 (h4 ▸ h1)) h2⟩
        · rintro ⟨h, h2⟩
          exact ⟨Or.inr h, fun h3 => h2 (Or.inr h3)⟩
      rw [this]
      simp only [List.length_append, List.length_cons, List.length_nil]
      omega
    · rw [if_neg h1]
      have : (List.map (fun x => x.Priority) (m :: rest)).toFinset \ seen.toFinset
          = insert m.Priority
            ((List.map (fun x => x.Priority) rest).toFinset \ (m.Priority :: seen).toFinset) := by
        ext x
        simp only [List.map_cons, List.toFinset_cons, Finset.mem_sdiff, Finset.mem_insert,
          List.mem_toFinset]
        constructor
        · rintro ⟨h | h, h2⟩
          · exact Or.inl h
          · by_cases h3 : x = m.Priority
            · exact Or.inl h3
            · exact Or.inr ⟨h, fun h4 => h4.elim h3 h2⟩
        · rintro (h | ⟨h, h2⟩)
          · exact ⟨Or.inl h, h ▸ h1⟩
          · exact ⟨Or.inr h, fun h3 => h2 (Or.inr h3)⟩
      rw [this, Finset.card_insert_of_not_mem]
      · simp only [List.nil_append, List.length_cons]
        omega
      · simp

theorem duplicateProblem_hasPrefix (p : Int) :
    Strings.HasPrefix (duplicateProblem p) (str "Duplicate priority found: ") = true := by
  unfold Strings.HasPrefix duplicateProblem
  simp

theorem duplicateLoop_eq_nil (l : List BranchMapping) (seen : List Int) :
    duplicateLoop l seen [] = [] ↔
      (∀ m ∈ l, m.Priority ∉ seen) ∧ l.Pairwise (fun a b => a.Priority ≠ b.Priority) := by
  induction l generalizing seen with
  | nil => simp [duplicateLoop]
  | cons m rest ih =>
    rw [duplicateLoop_cons, List.append_eq_nil, ih, List.pairwise_cons]
    by_cases h1 : m.Priority ∈ seen
    · rw [if_pos h1]
      constructor
      · intro h; exact absurd h.1 (by simp)
      · intro h; exact absurd h1 (h.1 m (List.mem_cons_self _ _))
    · rw [if_neg h1]
      simp only [List.mem_cons, not_or, forall_eq_or_imp, true_and]
      constructor
      · rintro ⟨h2, h3⟩
        exact ⟨⟨h1, fun a ha => (h2 a ha).2⟩, fun a ha h => (h2 a ha).1 h.symm, h3⟩
      · rintro ⟨⟨_, h2⟩, h3, h4⟩
        exact ⟨fun a ha => ⟨fun h => h3 a ha h.symm, h2 a ha⟩, h4⟩

theorem ValidatePolicy_problems (config : Config) :
    (ValidatePolicy config).2.1 =
      (if config.Environments = [] then [str "No environments defined"] else []) ++
      (if config.BranchMappings = [] then [str "No branch mappings defined"] else []) ++
      duplicateLoop config.BranchMappings [] [] := by
  unfold ValidatePolicy
  dsimp only
  rw [duplicateLoop_append]
  simp only [List.length_eq_zero, List.nil_append]
  split_ifs <;> simp

/-- Claim C21: `ValidatePolicy` returns `valid = true`, with an empty problem
list and a nil error, if and only if the configuration has at least one
environment, at least one branch mapping, and the priorities of the mappings
are pairwise distinct; a `true` verdict never comes with a problem, and the
error is always nil. -/
theorem C21_validate_verdict (config : Config) :
    (ValidatePolicy config = (true, [], none) ↔
      config.Environments ≠ [] ∧ config.BranchMappings ≠ [] ∧
        config.BranchMappings.Pairwise (fun a b => a.Priority ≠ b.Priority)) ∧
    ((ValidatePolicy config).1 = true ↔ ValidatePolicy config = (true, [], none)) ∧
    (ValidatePolicy config).2.2 = none := by
  have hp := ValidatePolicy_problems config
  have h1 : (ValidatePolicy config).1 = decide ((ValidatePolicy config).2.1.length = 0) := rfl
  have h2 : (ValidatePolicy config).2.2 = none := rfl
  have h3 : ValidatePolicy config = (true, [], none) ↔ (ValidatePolicy config).2.1 = [] := by
    constructor
    · intro h; rw [h]
    · intro h
      have h4 : (ValidatePolicy config).1 = true := by rw [h1, h]; rfl
      rw [← h4, ← h, ← h2]
  have h5 : (ValidatePolicy config).2.1 = [] ↔
      config.Environments ≠ [] ∧ config.BranchMappings ≠ [] ∧
        config.BranchMappings.Pairwise (fun a b => a.Priority ≠ b.Priority) := by
    rw [hp, List.append_eq_nil, List.append_eq_nil, duplicateLoop_eq_nil]
    constructor
    · rintro ⟨⟨ha, hb⟩, _, hd⟩
      refine ⟨?_, ?_, hd⟩
      · intro h; rw [if_pos h] at ha; exact absurd ha (by simp)
      · intro h; rw [if_pos h] at hb; exact absurd hb (by simp)
    · rintro ⟨ha, hb, hd⟩
      exact ⟨⟨if_neg ha, if_neg hb⟩, fun _ _ => List.not_mem_nil _, hd⟩
  refine ⟨h3.trans h5, ?_, h2⟩
  rw [h3, h1, decide_eq_true_iff, List.length_eq_zero]

/-- Claim C22: the problems that `ValidatePolicy` returns are "No environments
defined" when there is no environment, then "No branch mappings defined" when
there is no mapping, then one "Duplicate priority found: p" for each occurrence
of a priority beyond its first, in list order; the number of these duplicate
problems is the number of mappings minus the number of distinct priorities. -/
theorem C22_duplicate_reporting (config : Config) :
    (ValidatePolicy config).2.1 =
      (if config.Environments = [] then [str "No environments defined"] else []) ++
      (if config.BranchMappings = [] then [str "No branch mappings defined"] else []) ++
      (repeatedPriorities (config.BranchMappings.map (·.Priority))).map duplicateProblem ∧
    (repeatedPriorities (config.BranchMappings.map (·.Priority))).length =
      config.BranchMappings.length - (config.BranchMappings.map (·.Priority)).dedup.length ∧
    (ValidatePolicy config).2.1.countP
        (fun e => Strings.HasPrefix e (str "Duplicate priority found: ")) =
      config.BranchMappings.length - (config.BranchMappings.map (·.Priority)).dedup.length := by
  have hp := ValidatePolicy_problems config
  have he := duplicateLoop_eq config.BranchMappings []
  have hl := duplicateLoop_length config.BranchMappings []
  have hr : duplicateLoop config.BranchMappings [] [] =
      (repeatedPriorities (config.BranchMappings.map (·.Priority))).map duplicateProblem := by
    rw [he]
    simp only [repeatedPriorities, List.nil_append, List.length_map]
  have hlen : (repeatedPriorities (config.BranchMappings.map (·.Priority))).length =
      config.BranchMappings.length - (config.BranchMappings.map (·.Priority)).dedup.length := by
    rw [hr, List.length_map] at hl
    simp only [List.toFinset_nil, Finset.sdiff_empty, List.card_toFinset] at hl
    omega
  refine ⟨by rw [hp, hr], hlen, ?_⟩
  rw [hp, hr, List.countP_append, List.countP_append, ← hlen]
  have h1 : List.countP (fun e => Strings.HasPrefix e (str "Duplicate priority found: "))
      (if config.Environments = [] then [str "No environments defined"] else []) = 0 := by
    split_ifs
    · decide
    · rfl
  have h2 : List.countP (fun e => Strings.HasPrefix e (str "Duplicate priority found: "))
      (if config.BranchMappings = [] then [str "No branch mappings defined"] else []) = 0 := by
    split_ifs
    · decide
    · rfl
  rw [h1, h2, List.countP_map, List.countP_eq_length.2]
  · simp
  · intro p _
    exact duplicateProblem_hasPrefix p

/-- Claim C30: the shipped default configurations do not pass
`ValidatePolicy`: for the gateway's `getDefaultConfig` it returns `false` with
the single problem "Duplicate priority found: 100"; for the values of
`config.DefaultConfig` it returns `false` with "Duplicate priority found: 100"
followed by "Duplicate priority found: 50". -/
theorem C30_default_configs_invalid :
    ValidatePolicy Gateway.getDefaultConfig =
      (false, [str "Duplicate priority found: 100"], none) ∧
    ValidatePolicy Config.DefaultConfig =
      (false, [str "Duplicate priority found: 100", str "Duplicate priority found: 50"],
        none) := by
  decide

end Service

/-! ## The service engine against the CLI engine -/

namespace Service

theorem matchesPattern_agrees (n p : GoString) :
    matchesPattern n p = Policy.matchesPattern n p := rfl

theorem findBestLoop_agrees (n : GoString) (l : List BranchMapping) (i : Nat)
    (best : Option (Nat × BranchMapping)) (hi : Int) :
    findBestLoop n l i best hi = Policy.findBestLoop n l i best hi := by
  induction l generalizing i best hi with
  | nil => rfl
  | cons m rest ih =>
    simp only [findBestLoop, Policy.findBestLoop, matchesPattern_agrees, ih]

theorem findBestMapping_agrees (n : GoString) (config : Config) :
    findBestMapping n config = Policy.findBestMapping config n :=
  findBestLoop_agrees n config.BranchMappings 0 none (-1)

theorem contains_agrees (l : List GoString) (x : GoString) :
    contains l x = Policy.contains l x := by
  induction l with
  | nil => rfl
  | cons a rest ih => simp only [contains, Policy.contains, ih]

theorem shouldDeploy_agrees (actions : List GoString) (n : GoString) (config : Config) :
    shouldDeploy actions n config = Policy.shouldDeploy config actions n := rfl

theorem isBranchAllowed_agrees (n : GoString) (l : List GoString) :
    isBranchAllowed n l = Policy.isBranchAllowed n l := rfl

theorem applyBlocked_agrees (n : GoString) (l : List GoString) (d : Policy.Decision) :
    applyBlocked n l d = Policy.applyBlocked n l d := by
  induction l generalizing d with
  | nil => rfl
  | cons a rest ih =>
    simp only [applyBlocked, Policy.applyBlocked, matchesPattern_agrees, ih, Policy.blockedWarning]

theorem applyPolicies_agrees (d : Policy.Decision) (info : Git.BranchInfo) (config : Config) :
    applyPolicies d info config = Policy.applyPolicies config d info := by
  simp only [applyPolicies, Policy.applyPolicies, applyBlocked_agrees, contains_agrees]

theorem Evaluate_agrees (info : Git.BranchInfo) (config : Config) :
    Evaluate info config = Policy.Evaluate config info := by
  simp only [Evaluate, Policy.Evaluate, findBestMapping_agrees, applyPolicies_agrees,
    shouldDeploy_agrees, isBranchAllowed_agrees, Policy.fallbackWarning, Policy.copyVariables,
    Policy.notAllowedWarning, List.append_assoc]

end Service

namespace Policy

/-- Claim C26: for every branch info and every configuration, the service
engine's `Evaluate` (configuration passed per call) and the CLI engine's
`Evaluate` (configured at construction) return the same error and decisions
that are equal in every field: branch name, branch type, environment,
shouldDeploy, requiresApproval, actions, variables, warnings and metadata. -/
theorem C26_engines_agree (cfg : Config) (info : Git.BranchInfo) :
    (Service.Evaluate info cfg).2 = (Evaluate cfg info).2 ∧
    (Service.Evaluate info cfg).1.BranchName = (Evaluate cfg info).1.BranchName ∧
    (Service.Evaluate info cfg).1.BranchType = (Evaluate cfg info).1.BranchType ∧
    (Service.Evaluate info cfg).1.Environment = (Evaluate cfg info).1.Environment ∧
    (Service.Evaluate info cfg).1.ShouldDeploy = (Evaluate cfg info).1.ShouldDeploy ∧
    (Service.Evaluate info cfg).1.RequiresApproval = (Evaluate cfg info).1.RequiresApproval ∧
    (Service.Evaluate info cfg).1.Actions = (Evaluate cfg info).1.Actions ∧
    (Service.Evaluate info cfg).1.Variables = (Evaluate cfg info).1.Variables ∧
    (Service.Evaluate info cfg).1.Warnings = (Evaluate cfg info).1.Warnings ∧
    (Service.Evaluate info cfg).1.Metadata = (Evaluate cfg info).1.Metadata := by
  rw [Service.Evaluate_agrees]
  exact ⟨rfl, rfl, rfl, rfl, rfl, rfl, rfl, rfl, rfl, rfl⟩

theorem findBestMapping_none_iff (cfg : Config) (n : GoString) :
    findBestMapping cfg n = none ↔
      ¬ ∃ m ∈ cfg.BranchMappings, matchesPattern n m.Pattern = true ∧ 0 ≤ m.Priority := by
  constructor
  · rintro h ⟨m, hm, hmatch, hp⟩
    rcases findBestLoop_spec n cfg.BranchMappings 0 none (-1) with ⟨_, h2⟩ | ⟨j, m2, h2, _⟩
    · have := h2 m hm hmatch
      omega
    · unfold findBestMapping at h
      rw [h] at h2
      exact absurd h2 (by simp)
  · intro h
    apply findBestLoop_keep
    intro m hm hmatch
    by_contra hc
    exact h ⟨m, hm, hmatch, by omega⟩

/-- Claim C24: in both engines `findBestMapping` returns no mapping if and
only if no mapping that matches the name has a priority of 0 or more; in that
case, also when mappings of negative priority match, `Evaluate` takes the
fallback path: environment "development", shouldDeploy false, and the fallback
warning first among the warnings. -/
theorem C24_priority_floor (cfg : Config) (info : Git.BranchInfo) :
    (findBestMapping cfg info.ShortName = none ↔
      ¬ ∃ m ∈ cfg.BranchMappings,
        matchesPattern info.ShortName m.Pattern = true ∧ 0 ≤ m.Priority) ∧
    (Service.findBestMapping info.ShortName cfg = none ↔
      ¬ ∃ m ∈ cfg.BranchMappings,
        Service.matchesPattern info.ShortName m.Pattern = true ∧ 0 ≤ m.Priority) ∧
    ((¬ ∃ m ∈ cfg.BranchMappings,
        matchesPattern info.ShortName m.Pattern = true ∧ 0 ≤ m.Priority) →
      ((Evaluate cfg info).1.Environment = str "development" ∧
        (Evaluate cfg info).1.ShouldDeploy = false ∧
        (Evaluate cfg info).1.Warnings.head? = some fallbackWarning) ∧
      ((Service.Evaluate info cfg).1.Environment = str "development" ∧
        (Service.Evaluate info cfg).1.ShouldDeploy = false ∧
        (Service.Evaluate info cfg).1.Warnings.head? =
          some (str "No matching branch mapping found, using development environment"))) := by
  refine ⟨findBestMapping_none_iff cfg info.ShortName, ?_, ?_⟩
  · rw [Service.findBestMapping_agrees]
    exact findBestMapping_none_iff cfg info.ShortName
  · intro h
    have hn := (findBestMapping_none_iff cfg info.ShortName).2 h
    have h1 : (Evaluate cfg info).1.Environment = str "development" ∧
        (Evaluate cfg info).1.ShouldDeploy = false ∧
        (Evaluate cfg info).1.Warnings.head? = some fallbackWarning := by
      rw [Evaluate_Environment, Evaluate_ShouldDeploy, Evaluate_Warnings, resolvedEnvironment, hn]
      exact ⟨rfl, rfl, rfl⟩
    rw [Service.Evaluate_agrees]
    exact ⟨h1, h1⟩

theorem C24_priority_floor_witness :
    (¬ ∃ m ∈ negativePriorityExample.BranchMappings,
        matchesPattern mainInfo.ShortName m.Pattern = true ∧ 0 ≤ m.Priority) ∧
    (∃ m ∈ negativePriorityExample.BranchMappings,
        matchesPattern mainInfo.ShortName m.Pattern = true) ∧
    ((Evaluate negativePriorityExample mainInfo).1.Environment = str "development" ∧
        (Evaluate negativePriorityExample mainInfo).1.ShouldDeploy = false ∧
        (Evaluate negativePriorityExample mainInfo).1.Warnings.head? = some fallbackWarning) ∧
      ((Service.Evaluate mainInfo negativePriorityExample).1.Environment = str "development" ∧
        (Service.Evaluate mainInfo negativePriorityExample).1.ShouldDeploy = false ∧
        (Service.Evaluate mainInfo negativePriorityExample).1.Warnings.head? =
          some (str "No matching branch mapping found, using development environment")) :=
  ⟨by decide, by decide,
    (C24_priority_floor negativePriorityExample mainInfo).2.2 (by decide)⟩

end Policy

/-! ## Classification reads the short name only, in any order -/

namespace Git

theorem parseLoop_order_irrelevant (o1 o2 : List (GoString × BranchPattern))
    (h1 : o1.Perm patterns) (h2 : o2.Perm patterns) (info : BranchInfo) :
    parseLoop o1 info = parseLoop o2 info := by
  by_cases h : ∃ e ∈ patterns, (FindStringSubmatch e.2 info.ShortName).isSome = true
  · obtain ⟨e, he, hm⟩ := h
    rw [parseLoop_perm o1 h1 info e he hm, parseLoop_perm o2 h2 info e he hm]
  · have hn : ∀ e ∈ patterns, FindStringSubmatch e.2 info.ShortName = none := by
      intro e he
      cases hc : FindStringSubmatch e.2 info.ShortName with
      | none => rfl
      | some v => exact absurd ⟨e, he, by rw [hc]; rfl⟩ h
    rw [parseLoop_none o1 info (fun e he => hn e (h1.subset he)),
      parseLoop_none o2 info (fun e he => hn e (h2.subset he))]

theorem parseLoop_Typ_shortName (o : List (GoString × BranchPattern)) (i1 i2 : BranchInfo)
    (h : i1.ShortName = i2.ShortName) : (parseLoop o i1).Typ = (parseLoop o i2).Typ := by
  induction o with
  | nil => rfl
  | cons e rest ih =>
    obtain ⟨t, p⟩ := e
    simp only [parseLoop]
    rw [h]
    cases hc : FindStringSubmatch p i2.ShortName with
    | none => exact ih
    | some v =>
      dsimp only
      rcases v with _ | ⟨a, _ | ⟨b, w⟩⟩
      · rfl
      · rfl
      · dsimp only
        cases findTicket b <;> rfl

/-- Claim C23: for two branch infos with the same short name, whatever their
name, initial type, initial protection flag and initial metadata, and whatever
order the pattern map is iterated in, `parseBranchType` followed by
`checkProtected` yields the same type and the same protection flag. -/
theorem C23_short_name_only (o1 o2 : List (GoString × BranchPattern))
    (h1 : o1.Perm patterns) (h2 : o2.Perm patterns) (i1 i2 : BranchInfo)
    (h : i1.ShortName = i2.ShortName) :
    (checkProtected (parseBranchType o1 i1)).Typ = (checkProtected (parseBranchType o2 i2)).Typ ∧
    (checkProtected (parseBranchType o1 i1)).IsProtected =
      (checkProtected (parseBranchType o2 i2)).IsProtected := by
  constructor
  · show (parseLoop o1 i1).Typ = (parseLoop o2 i2).Typ
    rw [parseLoop_order_irrelevant o1 o2 h1 h2 i1]
    exact parseLoop_Typ_shortName o2 i1 i2 h
  · show protectedBranches.any (fun p => Strings.EqualFold (parseLoop o1 i1).ShortName p) =
      protectedBranches.any (fun p => Strings.EqualFold (parseLoop o2 i2).ShortName p)
    rw [parseLoop_ShortName, parseLoop_ShortName, h]

theorem C23_short_name_only_witness :
    staleInfo.ShortName = (freshInfo (str "main")).ShortName ∧
    staleInfo ≠ freshInfo (str "main") ∧
    (checkProtected (parseBranchType patterns.reverse staleInfo)).Typ =
      (checkProtected (parseBranchType patterns (freshInfo (str "main")))).Typ ∧
    (checkProtected (parseBranchType patterns.reverse staleInfo)).IsProtected =
      (checkProtected (parseBranchType patterns (freshInfo (str "main")))).IsProtected :=
  ⟨rfl, by decide,
    C23_short_name_only patterns.reverse patterns (List.reverse_perm _) (List.Perm.refl _)
      staleInfo (freshInfo (str "main")) rfl⟩

end Git

namespace Detector

theorem parseLoop_agrees (o : List (GoString × Git.BranchPattern)) (info : Git.BranchInfo) :
    parseLoop o info = Git.parseLoop o info := by
  induction o with
  | nil => rfl
  | cons e rest ih =>
    obtain ⟨t, p⟩ := e
    simp only [parseLoop, Git.parseLoop, ih]

theorem compileBranchPatterns_agrees : compileBranchPatterns = Git.patterns := rfl

end Detector

namespace Git

/-- Claim C25: the seven classifier patterns are pairwise distinct entries and
no branch name matches more than one of them; so for every branch info and any
two orders in which the pattern map is iterated, `parseBranchType` gives the
same result, in particular the same type and the same metadata, in the CLI
detector and in the service detector. -/
theorem C25_order_independent (info : BranchInfo) :
    (patterns.length = 7 ∧ patterns.Nodup ∧ Detector.compileBranchPatterns = patterns) ∧
    (∀ e1 ∈ patterns, ∀ e2 ∈ patterns,
      (FindStringSubmatch e1.2 info.ShortName).isSome = true →
      (FindStringSubmatch e2.2 info.ShortName).isSome = true → e1 = e2) ∧
    (∀ o1 o2 : List (GoString × BranchPattern), o1.Perm patterns → o2.Perm patterns →
      (parseBranchType o1 info).Typ = (parseBranchType o2 info).Typ ∧
      (parseBranchType o1 info).Metadata = (parseBranchType o2 info).Metadata ∧
      parseBranchType o1 info = parseBranchType o2 info) ∧
    (∀ o1 o2 : List (GoString × BranchPattern),
      o1.Perm Detector.compileBranchPatterns → o2.Perm Detector.compileBranchPatterns →
      (Detector.parseBranchType o1 info).Typ = (Detector.parseBranchType o2 info).Typ ∧
      (Detector.parseBranchType o1 info).Metadata = (Detector.parseBranchType o2 info).Metadata ∧
      Detector.parseBranchType o1 info = Detector.parseBranchType o2 info) := by
  refine ⟨⟨rfl, by decide, rfl⟩, ?_, ?_, ?_⟩
  · intro e1 h1 e2 h2 m1 m2
    exact patterns_exclusive info.ShortName e1 e2 h1 h2 m1 m2
  · intro o1 o2 h1 h2
    have := parseLoop_order_irrelevant o1 o2 h1 h2 info
    unfold parseBranchType
    rw [this]
    exact ⟨rfl, rfl, rfl⟩
  · intro o1 o2 h1 h2
    have := parseLoop_order_irrelevant o1 o2 h1 h2 info
    unfold Detector.parseBranchType
    rw [Detector.parseLoop_agrees, Detector.parseLoop_agrees, this]
    exact ⟨rfl, rfl, rfl⟩

theorem C25_order_independent_witness :
    patterns.reverse.Perm patterns ∧ patterns.reverse ≠ patterns ∧
    (parseBranchType patterns.reverse (freshInfo (str "feature/JIRA-123-login"))).Typ =
      (parseBranchType patterns (freshInfo (str "feature/JIRA-123-login"))).Typ ∧
    (parseBranchType patterns.reverse (freshInfo (str "feature/JIRA-123-login"))).Metadata =
      (parseBranchType patterns (freshInfo (str "feature/JIRA-123-login"))).Metadata ∧
    parseBranchType patterns.reverse (freshInfo (str "feature/JIRA-123-login")) =
      parseBranchType patterns (freshInfo (str "feature/JIRA-123-login")) :=
  ⟨List.reverse_perm _, by decide,
    (C25_order_independent (freshInfo (str "feature/JIRA-123-login"))).2.2.1
      patterns.reverse patterns (List.reverse_perm _) (List.Perm.refl _)⟩

end Git

/-! ## Release, hotfix and unmatched branches under the default configuration -/

namespace Policy

/-- With the default configuration, a branch whose selected mapping leads to
`staging` with a `deploy` action, and that is neither `staging` nor `develop`,
is deployed to `staging` with the allow-list warning as the only warning. -/
theorem default_staging_decision (info : Git.BranchInfo) (i : Nat) (m0 : BranchMapping)
    (hsel : findBestMapping Config.DefaultConfig info.ShortName = some (i, m0))
    (henv : m0.Environment = str "staging") (hdep : str "deploy" ∈ m0.Actions)
    (h1 : info.ShortName ≠ str "staging") (h2 : info.ShortName ≠ str "develop") :
    (Evaluate Config.DefaultConfig info).1.Environment = str "staging" ∧
    (Evaluate Config.DefaultConfig info).1.ShouldDeploy = true ∧
    isBranchAllowed info.ShortName [str "staging", str "develop"] = false ∧
    (Evaluate Config.DefaultConfig info).1.Warnings =
      [str "Branch " ++ info.ShortName ++ str " may not be allowed to deploy to staging"] := by
  have hallow : isBranchAllowed info.ShortName [str "staging", str "develop"] = false := by
    unfold isBranchAllowed
    rw [if_neg (by decide)]
    simp only [List.any_cons, List.any_nil, Bool.or_false]
    rw [matchesPattern_literal _ _ (by decide) (by decide),
      matchesPattern_literal _ _ (by decide) (by decide)]
    simp [h1, h2]
  refine ⟨?_, ?_, hallow, ?_⟩
  · rw [Evaluate_Environment]
    unfold resolvedEnvironment
    rw [hsel]
    exact henv
  · rw [Evaluate_ShouldDeploy, hsel]
    have : shouldDeploy Config.DefaultConfig m0.Actions info.ShortName = true :=
      (shouldDeploy_eq _ _ _).2 (Or.inl hdep)
    dsimp only
    rw [this]
    rfl
  · rw [Evaluate_Warnings]
    unfold resolvedEnvironment
    rw [hsel]
    dsimp only
    rw [henv]
    have henvc : Config.DefaultConfig.Environments.get? (str "staging") =
        some { Name := str "staging", RequiresApproval := false,
               AllowedBranches := [str "staging", str "develop"],
               Variables := [(str "ENV", str "staging")], NotifyOnDeploy := true } := by
      decide
    rw [henvc]
    dsimp only
    rw [hallow]
    have hb : Config.DefaultConfig.Policies.BlockedBranchPatterns = [] := rfl
    rw [hb]
    simp only [Bool.false_eq_true, if_false, List.filter_nil, List.map_nil, List.append_nil,
      List.nil_append, notAllowedWarning, List.append_assoc]
    rfl

/-- Claim C27: with the default configuration, for every branch whose short
name starts with `release/` or `hotfix/`, `Evaluate` returns environment
`staging` and `ShouldDeploy = true`, although the allow-list of `staging` does
not admit the branch, and the warnings are exactly the single entry
"Branch <name> may not be allowed to deploy to staging". -/
theorem C27_release_hotfix_staging (info : Git.BranchInfo) (rest : GoString)
    (h : info.ShortName = str "release/" ++ rest ∨ info.ShortName = str "hotfix/" ++ rest) :
    (Evaluate Config.DefaultConfig info).1.Environment = str "staging" ∧
    (Evaluate Config.DefaultConfig info).1.ShouldDeploy = true ∧
    isBranchAllowed info.ShortName [str "staging", str "develop"] = false ∧
    (Evaluate Config.DefaultConfig info).1.Warnings =
      [str "Branch " ++ info.ShortName ++ str " may not be allowed to deploy to staging"] := by
  rcases h with h | h
  · have hmatch : matchesPattern (str "release/" ++ rest) (str "release" ++ str "/*") = true :=
      (matchesPattern_slash_star _ _).mpr ⟨rest, by
        have : str "release" ++ str "/" = str "release/" := by decide
        rw [this]⟩
    obtain ⟨i, hsel⟩ := default_selects (str "release/" ++ rest)
      { Pattern := str "release/*", Environment := str "staging",
        Actions := [str "deploy", str "test"], Priority := 85 }
      (by decide) (by decide) hmatch (by
        have hh : (str "release/" ++ rest).head? = some 114 := rfl
        rw [hh]
        decide)
    rw [← h] at hsel
    refine default_staging_decision info i _ hsel rfl (by decide) ?_ ?_
    · rw [h]
      intro hc
      have hd := congrArg List.head? hc
      rw [List.head?_append_of_ne_nil _ (by decide)] at hd
      exact absurd hd (by decide)
    · rw [h]
      intro hc
      have hd := congrArg List.head? hc
      rw [List.head?_append_of_ne_nil _ (by decide)] at hd
      exact absurd hd (by decide)
  · have hmatch : matchesPattern (str "hotfix/" ++ rest) (str "hotfix" ++ str "/*") = true :=
      (matchesPattern_slash_star _ _).mpr ⟨rest, by
        have : str "hotfix" ++ str "/" = str "hotfix/" := by decide
        rw [this]⟩
    obtain ⟨i, hsel⟩ := default_selects (str "hotfix/" ++ rest)
      { Pattern := str "hotfix/*", Environment := str "staging",
        Actions := [str "test", str "deploy"], Priority := 70 }
      (by decide) (by decide) hmatch (by
        have hh : (str "hotfix/" ++ rest).head? = some 104 := rfl
        rw [hh]
        decide)
    rw [← h] at hsel
    refine default_staging_decision info i _ hsel rfl (by decide) ?_ ?_
    · rw [h]
      intro hc
      have hd := congrArg List.head? hc
      rw [List.head?_append_of_ne_nil _ (by decide)] at hd
      exact absurd hd (by decide)
    · rw [h]
      intro hc
      have hd := congrArg List.head? hc
      rw [List.head?_append_of_ne_nil _ (by decide)] at hd
      exact absurd hd (by decide)

theorem C27_release_hotfix_staging_witness :
    (Evaluate Config.DefaultConfig (Git.classify Git.patterns (str "release/1.2.0"))).1.Environment
      = str "staging" ∧
    (Evaluate Config.DefaultConfig (Git.classify Git.patterns (str "release/1.2.0"))).1.ShouldDeploy
      = true ∧
    isBranchAllowed (Git.classify Git.patterns (str "release/1.2.0")).ShortName
      [str "staging", str "develop"] = false ∧
    (Evaluate Config.DefaultConfig (Git.classify Git.patterns (str "release/1.2.0"))).1.Warnings =
      [str "Branch " ++ (Git.classify Git.patterns (str "release/1.2.0")).ShortName ++
        str " may not be allowed to deploy to staging"] :=
  C27_release_hotfix_staging (Git.classify Git.patterns (str "release/1.2.0")) (str "1.2.0")
    (Or.inl (by decide))

/-- Claim C28: with the default configuration, for every branch that matches
none of the eight default mappings, `Evaluate` returns environment
`development`, `ShouldDeploy = false`, the variables `ENV = development`, the
actions `["test"]`, `RequiresApproval` equal to the branch's protection flag,
and exactly two warnings: the fallback warning, then
"Branch <name> may not be allowed to deploy to development". -/
theorem C28_fallback_overlay (info : Git.BranchInfo)
    (h : ∀ m ∈ Config.DefaultConfig.BranchMappings,
      matchesPattern info.ShortName m.Pattern = false) :
    Config.DefaultConfig.BranchMappings.length = 8 ∧
    (Evaluate Config.DefaultConfig info).1.Environment = str "development" ∧
    (Evaluate Config.DefaultConfig info).1.ShouldDeploy = false ∧
    (Evaluate Config.DefaultConfig info).1.Variables = [(str "ENV", str "development")] ∧
    (Evaluate Config.DefaultConfig info).1.Actions = [str "test"] ∧
    (Evaluate Config.DefaultConfig info).1.RequiresApproval = info.IsProtected ∧
    (Evaluate Config.DefaultConfig info).1.Warnings =
      [str "No matching branch mapping found, using development environment",
        str "Branch " ++ info.ShortName ++ str " may not be allowed to deploy to development"] := by
  have hn := findBestMapping_none_of_no_match Config.DefaultConfig info.ShortName h
  have henvc : Config.DefaultConfig.Environments.get? (str "development") =
      some { Name := str "development", RequiresApproval := false,
             AllowedBranches := [str "feature/*", str "bugfix/*", str "hotfix/*"],
             Variables := [(str "ENV", str "development")], NotifyOnDeploy := false } := by
    decide
  have hallow : isBranchAllowed info.ShortName
      [str "feature/*", str "bugfix/*", str "hotfix/*"] = false := by
    unfold isBranchAllowed
    rw [if_neg (by decide)]
    simp only [List.any_cons, List.any_nil, Bool.or_false]
    have hf := h { Pattern := str "feature/*", Environment := str "development",
                   Actions := [str "test"], Priority := 50 } (by decide)
    have hb := h { Pattern := str "bugfix/*", Environment := str "development",
                   Actions := [str "test"], Priority := 50 } (by decide)
    have hh := h { Pattern := str "hotfix/*", Environment := str "staging",
                   Actions := [str "test", str "deploy"], Priority := 70 } (by decide)
    dsimp only at hf hb hh
    rw [hf, hb, hh]
    rfl
  refine ⟨rfl, ?_, ?_, ?_, ?_, ?_, ?_⟩
  · rw [Evaluate_Environment]
    unfold resolvedEnvironment
    rw [hn]
  · rw [Evaluate_ShouldDeploy, hn]
    rfl
  · rw [Evaluate_Variables]
    unfold resolvedEnvironment
    rw [hn]
    dsimp only
    rw [henvc]
    rfl
  · rw [Evaluate_Actions]
    unfold baseActions
    rw [hn]
    decide
  · rw [Evaluate_RequiresApproval]
    unfold resolvedEnvironment
    rw [hn]
    dsimp only
    rw [henvc]
    cases info.IsProtected <;> rfl
  · rw [Evaluate_Warnings]
    unfold resolvedEnvironment
    rw [hn]
    dsimp only
    rw [henvc]
    dsimp only
    rw [hallow]
    have hb : Config.DefaultConfig.Policies.BlockedBranchPatterns = [] := rfl
    rw [hb]
    simp only [Bool.false_eq_true, if_false, List.filter_nil, List.map_nil, List.append_nil,
      notAllowedWarning, fallbackWarning, List.append_assoc]
    rfl

theorem C28_fallback_overlay_witness :
    ((∀ m ∈ Config.DefaultConfig.BranchMappings,
        matchesPattern randomInfo.ShortName m.Pattern = false) ∧
      (Evaluate Config.DefaultConfig randomInfo).1.RequiresApproval = false ∧
      (Evaluate Config.DefaultConfig randomInfo).1.Warnings =
        [str "No matching branch mapping found, using development environment",
          str "Branch random-branch may not be allowed to deploy to development"]) ∧
    ((∀ m ∈ Config.DefaultConfig.BranchMappings,
        matchesPattern (Git.classify Git.patterns (str "production")).ShortName m.Pattern
          = false) ∧
      (Evaluate Config.DefaultConfig
        (Git.classify Git.patterns (str "production"))).1.RequiresApproval = true ∧
      (Evaluate Config.DefaultConfig (Git.classify Git.patterns (str "production"))).1.Warnings =
        [str "No matching branch mapping found, using development environment",
          str "Branch production may not be allowed to deploy to development"]) ∧
    ((∀ m ∈ Config.DefaultConfig.BranchMappings,
        matchesPattern (Git.classify Git.patterns (str "development")).ShortName m.Pattern
          = false) ∧
      (Evaluate Config.DefaultConfig
        (Git.classify Git.patterns (str "development"))).1.RequiresApproval = false ∧
      (Evaluate Config.DefaultConfig (Git.classify Git.patterns (str "development"))).1.Warnings =
        [str "No matching branch mapping found, using development environment",
          str "Branch development may not be allowed to deploy to development"]) :=
  ⟨⟨by decide,
      (C28_fallback_overlay randomInfo (by decide)).2.2.2.2.2.1,
      (C28_fallback_overlay randomInfo (by decide)).2.2.2.2.2.2⟩,
    ⟨by decide,
      (C28_fallback_overlay (Git.classify Git.patterns (str "production"))
        (by decide)).2.2.2.2.2.1,
      (C28_fallback_overlay (Git.classify Git.patterns (str "production"))
        (by decide)).2.2.2.2.2.2⟩,
    ⟨by decide,
      (C28_fallback_overlay (Git.classify Git.patterns (str "development"))
        (by decide)).2.2.2.2.2.1,
      (C28_fallback_overlay (Git.classify Git.patterns (str "development"))
        (by decide)).2.2.2.2.2.2⟩⟩

end Policy

/-! ## Case variants of the protected names -/

namespace Git

theorem family_match_prefix (p name : GoString)
    (h : (FindStringSubmatch (BranchPattern.family p) name).isSome = true) :
    ∃ t, name = p ++ [Filepath.Separator] ++ t := by
  rw [FindStringSubmatch_family] at h
  split_ifs at h with hc
  · obtain ⟨t, ht⟩ := List.isPrefixOf_iff_prefix.mp hc.1
    exact ⟨t, ht.symm⟩
  · exact absurd h (by simp)

/-- A name that `EqualFold` identifies with one of `main`, `master`, `develop`,
`staging`, without being that name, matches none of the classifier patterns. -/
theorem fold_variant_no_match (name p : GoString)
    (hp : p ∈ [str "main", str "master", str "develop", str "staging"])
    (he : Strings.EqualFold name p = true) (hne : name ≠ p)
    (e : GoString × BranchPattern) (hmem : e ∈ patterns) :
    FindStringSubmatch e.2 name = none := by
  have hfam : ∀ fam ∈ [str "feature", str "hotfix", str "bugfix", str "release"],
      ∀ t : GoString, Strings.EqualFold (fam ++ [Filepath.Separator] ++ t) p = false := by
    intro fam hfam t
    simp only [List.mem_cons, List.mem_singleton, List.not_mem_nil, or_false] at hfam hp
    rcases hfam with rfl | rfl | rfl | rfl <;> rcases hp with rfl | rfl | rfl | rfl <;> rfl
  have hexact : ∀ q ∈ [str "develop", str "development", str "staging", str "main", str "master"],
      name ≠ q := by
    intro q hq hnq
    have hinj : ∀ q ∈ [str "develop", str "development", str "staging", str "main", str "master"],
        ∀ p ∈ [str "main", str "master", str "develop", str "staging"],
        Strings.EqualFold q p = true → q = p := by
      decide
    have := hinj q hq p hp (by rw [← hnq]; exact he)
    exact hne (hnq.trans this)
  have hfamily : ∀ fam ∈ [str "feature", str "hotfix", str "bugfix", str "release"],
      ¬ (FindStringSubmatch (BranchPattern.family fam) name).isSome = true := by
    intro fam hf hs
    obtain ⟨t, ht⟩ := family_match_prefix fam name hs
    have := hfam fam hf t
    rw [← ht, he] at this
    exact absurd this (by simp)
  cases hc : FindStringSubmatch e.2 name with
  | none => rfl
  | some v =>
    exfalso
    have hs : (FindStringSubmatch e.2 name).isSome = true := by rw [hc]; rfl
    simp only [patterns, List.mem_cons, List.mem_singleton, List.not_mem_nil, or_false] at hmem
    rcases hmem with rfl | rfl | rfl | rfl | rfl | rfl | rfl
    · exact hfamily _ (by decide) hs
    · exact hfamily _ (by decide) hs
    · exact hfamily _ (by decide) hs
    · exact hfamily _ (by decide) hs
    · rcases (isSome_either _ _ _).mp hs with h | h
      · exact hexact _ (by decide) h
      · exact hexact _ (by decide) h
    · exact hexact _ (by decide) ((isSome_exact _ _).mp hs)
    · rcases (isSome_either _ _ _).mp hs with h | h
      · exact hexact _ (by decide) h
      · exact hexact _ (by decide) h

theorem case_variant_ascii (name p : GoString)
    (hp : p ∈ [str "main", str "master", str "develop", str "staging"])
    (he : Strings.EqualIgnoreCase name p) : Strings.IsASCII name := by
  intro c hc
  unfold Strings.EqualIgnoreCase at he
  have hm : Strings.lowerCode c.toNat ∈ name.map (fun c => Strings.lowerCode c.toNat) :=
    List.mem_map.mpr ⟨_, hc, rfl⟩
  rw [he] at hm
  have hsmall : ∀ p ∈ [str "main", str "master", str "develop", str "staging"],
      ∀ x ∈ p.map (fun c => Strings.lowerCode c.toNat), x < 128 := by
    decide
  have := hsmall p hp _ hm
  unfold Strings.lowerCode at this
  split_ifs at this <;> omega

theorem case_variant_fold (name p : GoString)
    (hp : p ∈ [str "main", str "master", str "develop", str "staging"])
    (he : Strings.EqualIgnoreCase name p) : Strings.EqualFold name p = true := by
  have hascii : ∀ p ∈ [str "main", str "master", str "develop", str "staging"],
      Strings.IsASCII p := by decide
  exact (Strings.EqualFold_ascii name p (case_variant_ascii name p hp he) (hascii p hp)).mpr he

/-- Claim C29: a name that equals `main`, `master`, `develop` or `staging`
ignoring letter case, but not exactly, gets type `unknown` together with
`IsProtected = true` (also when "ignoring case" is read as Go's `EqualFold`),
and so does the name `production`; the name `development` gets type `develop`
together with `IsProtected = false`; whatever order the pattern map is
iterated in. -/
theorem C29_case_and_lists (order : List (GoString × BranchPattern))
    (hperm : order.Perm patterns) (name : GoString) :
    ((∃ p ∈ [str "main", str "master", str "develop", str "staging"],
        Strings.EqualIgnoreCase name p ∧ name ≠ p) →
      (classify order name).Typ = str "unknown" ∧ (classify order name).IsProtected = true) ∧
    ((∃ p ∈ [str "main", str "master", str "develop", str "staging"],
        Strings.EqualFold name p = true ∧ name ≠ p) →
      (classify order name).Typ = str "unknown" ∧ (classify order name).IsProtected = true) ∧
    ((classify order (str "production")).Typ = str "unknown" ∧
      (classify order (str "production")).IsProtected = true) ∧
    ((classify order (str "development")).Typ = str "develop" ∧
      (classify order (str "development")).IsProtected = false) := by
  have hfold : (∃ p ∈ [str "main", str "master", str "develop", str "staging"],
        Strings.EqualFold name p = true ∧ name ≠ p) →
      (classify order name).Typ = str "unknown" ∧ (classify order name).IsProtected = true := by
    rintro ⟨p, hp, he, hne⟩
    constructor
    · show (parseLoop order (freshInfo name)).Typ = str "unknown"
      rw [parseLoop_Typ_iff order hperm]
      exact Or.inr ⟨fun e hmem => fold_variant_no_match name p hp he hne e hmem, rfl⟩
    · rw [classify_IsProtected, List.any_eq_true]
      have hsub : ∀ p ∈ [str "main", str "master", str "develop", str "staging"],
          p ∈ protectedBranches := by decide
      exact ⟨p, hsub p hp, he⟩
  refine ⟨?_, hfold, ⟨?_, ?_⟩, ⟨?_, ?_⟩⟩
  · rintro ⟨p, hp, he, hne⟩
    exact hfold ⟨p, hp, case_variant_fold name p hp he, hne⟩
  · show (parseLoop order (freshInfo (str "production"))).Typ = str "unknown"
    rw [parseLoop_Typ_iff order hperm]
    exact Or.inr ⟨by decide, rfl⟩
  · rw [classify_IsProtected]
    decide
  · show (parseLoop order (freshInfo (str "development"))).Typ = str "develop"
    rw [parseLoop_Typ_iff order hperm]
    exact Or.inl ⟨(str "develop", BranchPattern.either (str "develop") (str "development")),
      by decide, by decide, rfl⟩
  · rw [classify_IsProtected]
    decide

theorem C29_case_and_lists_witness :
    (patterns.reverse.Perm patterns ∧
      Strings.EqualIgnoreCase (str "MASTER") (str "master") ∧ str "MASTER" ≠ str "master" ∧
      Strings.EqualIgnoreCase (str "Main") (str "main") ∧ str "Main" ≠ str "main") ∧
    ((classify patterns.reverse (str "MASTER")).Typ = str "unknown" ∧
      (classify patterns.reverse (str "MASTER")).IsProtected = true) ∧
    ((classify patterns.reverse (str "Main")).Typ = str "unknown" ∧
      (classify patterns.reverse (str "Main")).IsProtected = true) ∧
    ((classify patterns.reverse (str "production")).Typ = str "unknown" ∧
      (classify patterns.reverse (str "production")).IsProtected = true) ∧
    ((classify patterns.reverse (str "development")).Typ = str "develop" ∧
      (classify patterns.reverse (str "development")).IsProtected = false) :=
  ⟨⟨List.reverse_perm _, by decide, by decide, by decide, by decide⟩,
    (C29_case_and_lists patterns.reverse (List.reverse_perm _) (str "MASTER")).1
      ⟨str "master", by decide, by decide, by decide⟩,
    (C29_case_and_lists patterns.reverse (List.reverse_perm _) (str "Main")).1
      ⟨str "main", by decide, by decide, by decide⟩,
    (C29_case_and_lists patterns.reverse (List.reverse_perm _) (str "Main")).2.2⟩

end Git

end BranchAwareCI
